import Mathlib

/-!
Shallow embedding of the dpp repository core (UDIF reader, HFS+ engine,
APFS engine, PBZX reader) and proofs about the spec claims C1..C10.

Bytes are modelled as `Nat` (with `< 256` hypotheses where byte-ness
matters), byte buffers and disks as `List Nat`, machine integers as `Nat`
with explicit `% 2^w` where overflow matters.  Fallible Rust code returns
`Except`.  Error enums are embedded without their free-form message
payloads (a `String` in Rust) except where a claim talks about the payload
(`ChecksumMismatch` carries expected/actual).  External collaborator
codecs (zlib, bzip2, LZFSE, XZ, plist) are parameters of the functions
that call them, matching the spec's black-box treatment.
-/

deriving instance DecidableEq for Except

/-! ## Byte-list helpers (models of `byteorder` reads and `to_le_bytes`) -/

/-- Little-endian value of a byte list (`u32::from_le_bytes` and friends). -/
def leNum (l : List Nat) : Nat := l.foldr (fun b acc => b + 256 * acc) 0

/-- Big-endian value of a byte list (`u32::from_be_bytes` and friends). -/
def beNum (l : List Nat) : Nat := l.foldl (fun acc b => acc * 256 + b) 0

/-- Read `w` bytes little-endian at `off`; `none` when out of bounds. -/
def readLE (data : List Nat) (off w : Nat) : Option Nat :=
  if off + w ≤ data.length then some (leNum ((data.drop off).take w)) else none

/-- Read `w` bytes big-endian at `off`; `none` when out of bounds. -/
def readBE (data : List Nat) (off w : Nat) : Option Nat :=
  if off + w ≤ data.length then some (beNum ((data.drop off).take w)) else none

/-- `u64::to_le_bytes`. -/
def u64ToLeBytes (n : Nat) : List Nat :=
  [n % 256, n / 256 % 256, n / 256 ^ 2 % 256, n / 256 ^ 3 % 256,
   n / 256 ^ 4 % 256, n / 256 ^ 5 % 256, n / 256 ^ 6 % 256, n / 256 ^ 7 % 256]

/-- `u32::to_be_bytes`. -/
def u32ToBeBytes (n : Nat) : List Nat :=
  [n / 256 ^ 3 % 256, n / 256 ^ 2 % 256, n / 256 % 256, n % 256]

/-- `u64::to_be_bytes`. -/
def u64ToBeBytes (n : Nat) : List Nat :=
  [n / 256 ^ 7 % 256, n / 256 ^ 6 % 256, n / 256 ^ 5 % 256, n / 256 ^ 4 % 256,
   n / 256 ^ 3 % 256, n / 256 ^ 2 % 256, n / 256 % 256, n % 256]

/-- `u16::to_le_bytes`. -/
def u16ToLeBytes (n : Nat) : List Nat := [n % 256, n / 256 % 256]

/-- `u32::to_le_bytes`. -/
def u32ToLeBytes (n : Nat) : List Nat :=
  [n % 256, n / 256 % 256, n / 256 ^ 2 % 256, n / 256 ^ 3 % 256]

/-- Contiguous slice `data[off .. off+len)` (shorter at the end of the list). -/
def byteSlice (data : List Nat) (off len : Nat) : List Nat := (data.drop off).take len

/-! ## APFS Fletcher-64 (src/apfs/src/fletcher.rs) -/

/-- The Fletcher modulus `0xFFFFFFFF = 2^32 - 1` (`mod_val` in the source). -/
def mod_val : Nat := 0xFFFFFFFF

/-- `u32::from_le_bytes([c0,c1,c2,c3])`. -/
def leWord4 (c0 c1 c2 c3 : Nat) : Nat := c0 + 256 * c1 + 65536 * c2 + 16777216 * c3

/-- The running `(sum1, sum2)` loop of `fletcher64`: 32-bit little-endian
words are consumed 4 bytes at a time (`chunks_exact(4)`, a trailing
fragment shorter than 4 bytes is ignored). -/
def fletchSums : List Nat → Nat → Nat → Nat × Nat
  | c0 :: c1 :: c2 :: c3 :: rest, s1, s2 =>
    let w := leWord4 c0 c1 c2 c3
    let s1n := (s1 + w) % mod_val
    fletchSums rest s1n ((s2 + s1n) % mod_val)
  | _, s1, s2 => (s1, s2)

/-- `fletcher64(data)`: APFS Fletcher-64 checksum over the byte slice
(the object data starting at offset 8). -/
def fletcher64 (data : List Nat) : Nat :=
  let s := fletchSums data 0 0
  let check1 := mod_val - ((s.1 + s.2) % mod_val)
  let check2 := mod_val - ((s.1 + check1) % mod_val)
  (check2 <<< 32) ||| check1

/-- `verify_object(block)`: compare the stored little-endian u64 checksum at
bytes `0..8` with the computed Fletcher-64 of bytes `8..`. -/
def verify_object (block : List Nat) : Bool :=
  if block.length < 8 then false
  else leNum (block.take 8) == fletcher64 (block.drop 8)

/-- Plain sum of the 32-bit little-endian words of a byte list
(trailing fragment ignored); used to reason about `fletchSums`. -/
def byteWordSum : List Nat → Nat
  | c0 :: c1 :: c2 :: c3 :: rest => leWord4 c0 c1 c2 c3 + byteWordSum rest
  | _ => 0

/-! ## CRC32 (external `crc32fast` collaborator used by src/udif/src/checksum.rs) -/

/-- One bit step of the reflected CRC-32 with polynomial `0xEDB88320`. -/
def crc32_round (crc : Nat) : Nat :=
  if crc % 2 == 1 then (crc / 2) ^^^ 0xEDB88320 else crc / 2

/-- Fold one byte into the CRC state: xor the byte in, then eight bit steps. -/
def crc32_byte (crc b : Nat) : Nat := crc32_round^[8] (crc ^^^ b)

/-- Modelled from the spec: the `crc32fast::hash` collaborator (an external
crate, treated as a black-box codec by the spec) computes the standard
IEEE CRC-32: reflected, polynomial `0xEDB88320`, initial value and final
xor `0xFFFFFFFF`.  This is its bitwise definition. -/
def crc32 (data : List Nat) : Nat :=
  (data.foldl crc32_byte 0xFFFFFFFF) ^^^ 0xFFFFFFFF

/-! ## UDIF error type (src/udif/src/error.rs)

Free-form `String` payloads of the Rust enum are elided; the
`ChecksumMismatch { expected, actual }` payload is kept because the spec
talks about it. -/

inductive DppError where
  | InvalidMagic
  | Io
  | InvalidKolyHeader
  | InvalidPlist
  | InvalidBlockMap
  | Decompression
  | Compression
  | UnsupportedCompression (v : Nat)
  | FileNotFound
  | InvalidPath
  | Unsupported
  | ChecksumMismatch (expected actual : Nat)
  deriving DecidableEq, Repr

/-! ## UDIF checksums (src/udif/src/checksum.rs) -/

/-- `CHECKSUM_TYPE_CRC32`. -/
def CHECKSUM_TYPE_CRC32 : Nat := 2

/-- `extract_crc32`: big-endian u32 from the first 4 bytes of the 128-byte
checksum array. -/
def extract_crc32 (checksum_array : List Nat) : Nat :=
  beNum (checksum_array.take 4)

/-- `has_checksum`: present iff type is CRC32 and the stored value is non-zero. -/
def has_checksum (checksum_type : Nat) (checksum_array : List Nat) : Bool :=
  if checksum_type != CHECKSUM_TYPE_CRC32 then false
  else extract_crc32 checksum_array != 0

/-- `verify_crc32`: `Ok(())` when the type is not CRC32, when the stored value
is zero, or when the computed CRC matches; otherwise `Err((expected, actual))`. -/
def verify_crc32 (checksum_type : Nat) (checksum_array : List Nat) (data : List Nat) :
    Except (Nat × Nat) Unit :=
  if checksum_type != CHECKSUM_TYPE_CRC32 then .ok ()
  else
    let expected := extract_crc32 checksum_array
    if expected = 0 then .ok ()
    else
      let actual := crc32 data
      if expected = actual then .ok () else .error (expected, actual)

/-! ## UDIF format (src/udif/src/format.rs) -/

/-- Block chunk types (`BlockType`). -/
inductive BlockType where
  | ZeroFill | Raw | Ignore | Adc | Zlib | Bzip2 | Lzfse | Lzvn | Comment | End
  deriving DecidableEq, Repr

/-- `BlockType::try_from(u32)`. -/
def blockTypeOfU32 (value : Nat) : Except DppError BlockType :=
  match value with
  | 0x00000000 => .ok .ZeroFill
  | 0x00000001 => .ok .Raw
  | 0x00000002 => .ok .Ignore
  | 0x80000004 => .ok .Adc
  | 0x80000005 => .ok .Zlib
  | 0x80000006 => .ok .Bzip2
  | 0x80000007 => .ok .Lzfse
  | 0x80000008 => .ok .Lzvn
  | 0x7FFFFFFE => .ok .Comment
  | 0xFFFFFFFF => .ok .End
  | v => .error (.UnsupportedCompression v)

/-- `BlockRun`: one 40-byte block-run descriptor. -/
structure BlockRun where
  block_type : BlockType
  comment : Nat
  sector_number : Nat
  sector_count : Nat
  compressed_offset : Nat
  compressed_length : Nat
  deriving DecidableEq, Repr

/-- `BlockRun::from_bytes`: big-endian fields of a 40-byte record. -/
def BlockRun.from_bytes (data : List Nat) : Except DppError BlockRun :=
  if data.length < 40 then .error .InvalidBlockMap
  else do
  let block_type ← blockTypeOfU32 (beNum (byteSlice data 0 4))
  pure {
    block_type
    comment := beNum (byteSlice data 4 4)
    sector_number := beNum (byteSlice data 8 8)
    sector_count := beNum (byteSlice data 16 8)
    compressed_offset := beNum (byteSlice data 24 8)
    compressed_length := beNum (byteSlice data 32 8) }

/-- `MishHeader`: the 204-byte mish block-map header plus its block runs. -/
structure MishHeader where
  magic : List Nat
  version : Nat
  first_sector : Nat
  sector_count : Nat
  data_offset : Nat
  buffers_needed : Nat
  block_descriptor_count : Nat
  reserved : List Nat
  checksum_type : Nat
  checksum_size : Nat
  checksum : List Nat
  actual_block_count : Nat
  block_runs : List BlockRun
  deriving DecidableEq, Repr

/-- The `b"mish"` magic bytes. -/
def MISH_MAGIC : List Nat := [0x6D, 0x69, 0x73, 0x68]

/-- The block-run reading loop of `MishHeader::from_bytes`: `count` records of
40 bytes each, starting at `pos` (the cursor position after the header);
a short read is an I/O error. -/
def parseBlockRuns (data : List Nat) : Nat → Nat → Except DppError (List BlockRun)
  | 0, _ => .ok []
  | count + 1, pos =>
    if pos + 40 ≤ data.length then do
      let r ← BlockRun.from_bytes (byteSlice data pos 40)
      let rs ← parseBlockRuns data count (pos + 40)
      pure (r :: rs)
    else .error .Io

/-- `MishHeader::from_bytes`: parse the 204-byte header (big-endian fields),
take the authoritative run count from offset 200 (`actual_block_count`) —
the u32 at offset 36 is kept as `block_descriptor_count` but not used for
counting — then read that many 40-byte block runs. -/
def MishHeader.from_bytes (data : List Nat) : Except DppError MishHeader :=
  if data.length < 204 then .error .InvalidBlockMap
  else if data.take 4 ≠ MISH_MAGIC then .error .InvalidBlockMap
  else do
  let block_runs ← parseBlockRuns data (beNum (byteSlice data 200 4)) 204
  pure {
    magic := data.take 4
    version := beNum (byteSlice data 4 4)
    first_sector := beNum (byteSlice data 8 8)
    sector_count := beNum (byteSlice data 16 8)
    data_offset := beNum (byteSlice data 24 8)
    buffers_needed := beNum (byteSlice data 32 4)
    block_descriptor_count := beNum (byteSlice data 36 4)
    reserved := byteSlice data 40 24
    checksum_type := beNum (byteSlice data 64 4)
    checksum_size := beNum (byteSlice data 68 4)
    checksum := byteSlice data 72 128
    actual_block_count := beNum (byteSlice data 200 4)
    block_runs }

/-- `KolyHeader`: the 512-byte trailer (all integers big-endian). -/
structure KolyHeader where
  magic : List Nat
  version : Nat
  header_size : Nat
  flags : Nat
  running_data_fork_offset : Nat
  data_fork_offset : Nat
  data_fork_length : Nat
  rsrc_fork_offset : Nat
  rsrc_fork_length : Nat
  segment_number : Nat
  segment_count : Nat
  segment_id : List Nat
  data_checksum_type : Nat
  data_checksum_size : Nat
  data_checksum : List Nat
  plist_offset : Nat
  plist_length : Nat
  reserved : List Nat
  master_checksum_type : Nat
  master_checksum_size : Nat
  master_checksum : List Nat
  image_variant : Nat
  sector_count : Nat
  deriving DecidableEq, Repr

/-- The `b"koly"` magic bytes. -/
def KOLY_MAGIC : List Nat := [0x6B, 0x6F, 0x6C, 0x79]

/-- `KolyHeader::read`: seek to 512 bytes before the end of the file
(an I/O error when the file is shorter), check the magic, and read the
big-endian fields at their fixed offsets within the trailer. -/
def KolyHeader.read (file : List Nat) : Except DppError KolyHeader :=
  if file.length < 512 then .error .Io
  else
  let t := file.drop (file.length - 512)
  if t.take 4 ≠ KOLY_MAGIC then .error .InvalidMagic
  else .ok {
    magic := t.take 4
    version := beNum (byteSlice t 4 4)
    header_size := beNum (byteSlice t 8 4)
    flags := beNum (byteSlice t 12 4)
    running_data_fork_offset := beNum (byteSlice t 16 8)
    data_fork_offset := beNum (byteSlice t 24 8)
    data_fork_length := beNum (byteSlice t 32 8)
    rsrc_fork_offset := beNum (byteSlice t 40 8)
    rsrc_fork_length := beNum (byteSlice t 48 8)
    segment_number := beNum (byteSlice t 56 4)
    segment_count := beNum (byteSlice t 60 4)
    segment_id := byteSlice t 64 16
    data_checksum_type := beNum (byteSlice t 80 4)
    data_checksum_size := beNum (byteSlice t 84 4)
    data_checksum := byteSlice t 88 128
    plist_offset := beNum (byteSlice t 216 8)
    plist_length := beNum (byteSlice t 224 8)
    reserved := byteSlice t 232 64
    master_checksum_type := beNum (byteSlice t 296 4)
    master_checksum_size := beNum (byteSlice t 300 4)
    master_checksum := byteSlice t 304 128
    image_variant := beNum (byteSlice t 432 4)
    sector_count := beNum (byteSlice t 436 8) }

/-- `PartitionEntry`: one entry of the DMG plist. -/
structure PartitionEntry where
  name : List Char
  id : Int
  attributes : Nat
  block_map : MishHeader
  deriving DecidableEq, Repr

/-! ## UDIF reader (src/udif/src/reader.rs)

The underlying `Read + Seek` byte source is the DMG file itself, modelled
as a `List Nat`.  `seek(Start(o))` followed by `read_exact` of `n` bytes
is `readRange file o n` (an I/O error when fewer than `n` bytes remain). -/

/-- `SECTOR_SIZE`. -/
def SECTOR_SIZE : Nat := 512

/-- seek + `read_exact`: the bytes `file[off .. off+len)`, or an I/O error
when the file is too short. -/
def readRange (file : List Nat) (off len : Nat) : Except DppError (List Nat) :=
  if off + len ≤ file.length then .ok (byteSlice file off len) else .error .Io

/-- One raw entry of the `blkx` plist array, before mish decoding:
`(Name, ID, Attributes, Data)`. -/
structure RawBlkxEntry where
  name : List Char
  id : Int
  attributes : Nat
  data : List Nat

/-- The plist collaborator: `plist::from_bytes` plus the dictionary walking of
`parse_plist`, which the spec treats as an external collaborator yielding a
list of `(name, id, attributes, mish-blob)` entries. -/
def PlistDecoder : Type := List Nat → Except DppError (List RawBlkxEntry)

/-- The tail of `parse_plist`: decode each raw entry's mish blob with
`MishHeader::from_bytes` and build the `PartitionEntry` list. -/
def parse_plist (plistDecode : PlistDecoder) (plist_data : List Nat) :
    Except DppError (List PartitionEntry) := do
  let raw ← plistDecode plist_data
  raw.mapM fun e => do
    let block_map ← MishHeader.from_bytes e.data
    pure { name := e.name, id := e.id, attributes := e.attributes,
           block_map : PartitionEntry }

/-- `DmgReader::verify_data_fork_checksum`: skip when no checksum is set,
otherwise read the data fork and verify its CRC32, reporting
`ChecksumMismatch { expected, actual }` on failure. -/
def verify_data_fork_checksum (file : List Nat) (koly : KolyHeader) :
    Except DppError Unit :=
  if !(has_checksum koly.data_checksum_type koly.data_checksum) then
    .ok ()
  else do
  let data_fork ← readRange file koly.data_fork_offset koly.data_fork_length
  match verify_crc32 koly.data_checksum_type koly.data_checksum data_fork with
  | .ok () => pure ()
  | .error (expected, actual) => .error (.ChecksumMismatch expected actual)

/-- `DmgReader::verify_master_checksum`: skip when no checksum is set,
otherwise verify the CRC32 of the first 4 bytes of every partition's mish
checksum concatenated in partition order. -/
def verify_master_checksum (koly : KolyHeader) (partitions : List PartitionEntry) :
    Except DppError Unit :=
  if !(has_checksum koly.master_checksum_type koly.master_checksum) then
    .ok ()
  else
  let all_checksums := partitions.flatMap fun p => p.block_map.checksum.take 4
  match verify_crc32 koly.master_checksum_type koly.master_checksum all_checksums with
  | .ok () => .ok ()
  | .error (expected, actual) => .error (.ChecksumMismatch expected actual)

/-- `DmgReader` state after `with_options`. -/
structure DmgReader where
  koly : KolyHeader
  partitions : List PartitionEntry
  deriving DecidableEq, Repr

/-- `DmgReader::with_options`: read the koly trailer, verify the data-fork
checksum (if `verify_checksums`), read and parse the plist, verify the
master checksum (if `verify_checksums`). -/
def DmgReader.with_options (file : List Nat) (plistDecode : PlistDecoder)
    (verify_checksums : Bool) : Except DppError DmgReader := do
  let koly ← KolyHeader.read file
  let _ ← if verify_checksums then verify_data_fork_checksum file koly else pure ()
  let plist_data ← readRange file koly.plist_offset koly.plist_length
  let partitions ← parse_plist plistDecode plist_data
  let _ ← if verify_checksums then verify_master_checksum koly partitions else pure ()
  pure { koly, partitions }

/-- `DmgReader::new`: `with_options` with the default options
(`verify_checksums = true`). -/
def DmgReader.new (file : List Nat) (plistDecode : PlistDecoder) :
    Except DppError DmgReader :=
  DmgReader.with_options file plistDecode true

/-- Outcome type for `decompress_partition`: either a normal `DppError`, or
`panic`, which models a Rust panic from an out-of-bounds slice index into
the output buffer. -/
inductive RunOutcome where
  | err (e : DppError)
  | panic
  deriving DecidableEq, Repr

/-- Overwrite `buf[off .. off+src.length)` with `src` (callers check bounds
first, mirroring Rust slice indexing which panics out of bounds). -/
def writeRange (buf : List Nat) (off : Nat) (src : List Nat) : List Nat :=
  buf.take off ++ src ++ buf.drop (off + src.length)

/-- External decompressors used per block run, as black-box codecs.
`zlib`/`bzip2` produce an output stream that `read_full` copies from;
`lzfse` models `lzfse::decode_buffer` into a scratch buffer of the given
size, returning the decoded bytes (at most the buffer size). -/
structure BlockCodecs where
  zlib : List Nat → Except Unit (List Nat)
  bzip2 : List Nat → Except Unit (List Nat)
  lzfse : List Nat → Nat → Except Unit (List Nat)

/-- One iteration of the block-run loop of `DmgReader::decompress_partition`,
transforming the output buffer. -/
def decompressRunStep (file : List Nat) (koly : KolyHeader) (codecs : BlockCodecs)
    (output : List Nat) (br : BlockRun) : Except RunOutcome (List Nat) :=
  match br.block_type with
  | .ZeroFill => pure output
  | .Raw | .Ignore =>
    if br.compressed_length > 0 then
      match readRange file (koly.data_fork_offset + br.compressed_offset)
          br.compressed_length with
      | .error e => throw (.err e)
      | .ok bytes =>
        if br.sector_number * SECTOR_SIZE + br.compressed_length ≤ output.length then
          pure (writeRange output (br.sector_number * SECTOR_SIZE) bytes)
        else throw .panic
    else pure output
  | .Zlib =>
    match readRange file (koly.data_fork_offset + br.compressed_offset)
        br.compressed_length with
    | .error e => throw (.err e)
    | .ok compressed =>
      if br.sector_number * SECTOR_SIZE + br.sector_count * SECTOR_SIZE
          ≤ output.length then
        match codecs.zlib compressed with
        | .error _ => throw (.err .Io)
        | .ok stream =>
          pure (writeRange output (br.sector_number * SECTOR_SIZE)
            (stream.take (br.sector_count * SECTOR_SIZE)))
      else throw .panic
  | .Bzip2 =>
    match readRange file (koly.data_fork_offset + br.compressed_offset)
        br.compressed_length with
    | .error e => throw (.err e)
    | .ok compressed =>
      if br.sector_number * SECTOR_SIZE + br.sector_count * SECTOR_SIZE
          ≤ output.length then
        match codecs.bzip2 compressed with
        | .error _ => throw (.err .Io)
        | .ok stream =>
          pure (writeRange output (br.sector_number * SECTOR_SIZE)
            (stream.take (br.sector_count * SECTOR_SIZE)))
      else throw .panic
  | .Lzfse | .Lzvn =>
    match readRange file (koly.data_fork_offset + br.compressed_offset)
        br.compressed_length with
    | .error e => throw (.err e)
    | .ok compressed =>
      match codecs.lzfse compressed (br.sector_count * SECTOR_SIZE * 2) with
      | .error _ => throw (.err .Decompression)
      | .ok temp =>
        if br.sector_number * SECTOR_SIZE
            + min temp.length (br.sector_count * SECTOR_SIZE) ≤ output.length then
          pure (writeRange output (br.sector_number * SECTOR_SIZE)
            (temp.take (min temp.length (br.sector_count * SECTOR_SIZE))))
        else throw .panic
  | .Adc => throw (.err .Unsupported)
  | .Comment | .End => pure output

/-- `DmgReader::decompress_partition`: find the partition, allocate a
zero-filled buffer of `sector_count * 512` bytes, run every block run
through `decompressRunStep`. -/
def decompress_partition (file : List Nat) (koly : KolyHeader)
    (partitions : List PartitionEntry) (codecs : BlockCodecs)
    (partition_id : Int) : Except RunOutcome (List Nat) := do
  match partitions.find? (fun p => p.id == partition_id) with
  | none => throw (.err .FileNotFound)
  | some partition =>
    let total_size := partition.block_map.sector_count * SECTOR_SIZE
    let output := List.replicate total_size 0
    partition.block_map.block_runs.foldlM (decompressRunStep file koly codecs) output

/-- Rust `str::contains`: substring test. -/
def strContains (hay needle : List Char) : Bool :=
  hay.tails.any (fun t => needle.isPrefixOf t)

/-- Rust `Iterator::max_by_key`: the maximum by `key`, the *last* maximal
element on ties. -/
def maxByKeyLast {α : Type} (key : α → Nat) : List α → Option α :=
  List.foldl (fun acc x =>
    match acc with
    | none => some x
    | some b => if key x ≥ key b then some x else some b) none

/-- The name filter of `main_partition_id`. -/
def isMainPartitionName (name : List Char) : Bool :=
  strContains name "Apple_HFS".toList || strContains name "Apple_HFSX".toList
    || strContains name "Apple_APFS".toList

/-- The name filter of `hfs_partition_id`. -/
def isHfsPartitionName (name : List Char) : Bool :=
  strContains name "Apple_HFS".toList || strContains name "Apple_HFSX".toList

/-- `DmgReader::main_partition_id`: among partitions whose name contains
`Apple_HFS`, `Apple_HFSX` or `Apple_APFS`, the one with the largest
`sector_count`; otherwise the largest partition overall; `FileNotFound`
when there are no partitions. -/
def main_partition_id (partitions : List PartitionEntry) : Except DppError Int :=
  match maxByKeyLast (fun p => p.block_map.sector_count)
      (partitions.filter fun p => isMainPartitionName p.name) with
  | some p => .ok p.id
  | none =>
    match maxByKeyLast (fun p => p.block_map.sector_count) partitions with
    | some p => .ok p.id
    | none => .error .FileNotFound

/-- `DmgReader::hfs_partition_id`: the largest partition whose name contains
`Apple_HFS` or `Apple_HFSX`; `FileNotFound` when none exists. -/
def hfs_partition_id (partitions : List PartitionEntry) : Except DppError Int :=
  match maxByKeyLast (fun p => p.block_map.sector_count)
      (partitions.filter fun p => isHfsPartitionName p.name) with
  | some p => .ok p.id
  | none => .error .FileNotFound

/-! ## APFS error type (src/apfs/src/error.rs), message payloads elided -/

inductive ApfsError where
  | Io
  | InvalidMagic (v : Nat)
  | InvalidChecksum
  | InvalidBTree
  | FileNotFound
  | NotADirectory
  | CorruptedData
  | NoVolume
  deriving DecidableEq, Repr

/-- Read `w` bytes little-endian at `off`, as a fallible cursor read. -/
def rdLE (data : List Nat) (off w : Nat) : Except ApfsError Nat :=
  match readLE data off w with
  | some v => .ok v
  | none => .error .Io

/-! ## APFS objects (src/apfs/src/object.rs) -/

/-- `ObjectHeader`: the 32-byte header of every on-disk object (little-endian). -/
structure ObjectHeader where
  checksum : Nat
  oid : Nat
  xid : Nat
  type_and_flags : Nat
  subtype : Nat
  deriving DecidableEq, Repr

/-- `ObjectHeader::SIZE`. -/
def ObjectHeader.SIZE : Nat := 32

/-- `ObjectHeader::parse`. -/
def ObjectHeader.parse (data : List Nat) : Except ApfsError ObjectHeader :=
  if data.length < ObjectHeader.SIZE then .error .CorruptedData
  else .ok {
    checksum := leNum (byteSlice data 0 8)
    oid := leNum (byteSlice data 8 8)
    xid := leNum (byteSlice data 16 8)
    type_and_flags := leNum (byteSlice data 24 4)
    subtype := leNum (byteSlice data 28 4) }

/-- `ObjectHeader::object_type`: lower 16 bits. -/
def ObjectHeader.object_type (h : ObjectHeader) : Nat := h.type_and_flags &&& 0xFFFF

/-- `read_block`: seek to `block_number * block_size`, read `block_size` bytes.
No checksum verification. -/
def read_block (disk : List Nat) (block_number block_size : Nat) :
    Except ApfsError (List Nat) :=
  if block_number * block_size + block_size ≤ disk.length then
    .ok (byteSlice disk (block_number * block_size) block_size)
  else .error .Io

/-- `read_object`: read a full block, verify its Fletcher-64 checksum
(`InvalidChecksum` on mismatch), parse the object header. -/
def read_object (disk : List Nat) (block_number block_size : Nat) :
    Except ApfsError (ObjectHeader × List Nat) := do
  let block ← read_block disk block_number block_size
  if !(verify_object block) then .error .InvalidChecksum
  else do
  let header ← ObjectHeader.parse block
  pure (header, block)

/-! ## APFS B-trees (src/apfs/src/btree.rs) -/

/-- Node flag masks. -/
def BTNODE_ROOT : Nat := 0x0001
def BTNODE_LEAF : Nat := 0x0002
def BTNODE_FIXED_KV_SIZE : Nat := 0x0004

/-- `BTreeNodeHeader` (the `btn_*` fields after the object header). -/
structure BTreeNodeHeader where
  btn_flags : Nat
  btn_level : Nat
  btn_nkeys : Nat
  btn_table_space_off : Nat
  btn_table_space_len : Nat
  btn_free_space_off : Nat
  btn_free_space_len : Nat
  btn_free_list_off : Nat
  btn_free_list_len : Nat
  btn_key_free_list_off : Nat
  btn_key_free_list_len : Nat
  btn_val_free_list_off : Nat
  btn_val_free_list_len : Nat
  deriving DecidableEq, Repr

/-- `BTreeNodeHeader::SIZE` (the constant used for layout computations;
the parser actually consumes 28 bytes of little-endian fields). -/
def BTreeNodeHeader.SIZE : Nat := 24

/-- `BTreeNodeHeader::parse`: length guard at 24 bytes, then 13 cursor reads
(the last two can still fail as I/O on a 24..27-byte input). -/
def BTreeNodeHeader.parse (data : List Nat) : Except ApfsError BTreeNodeHeader :=
  if data.length < BTreeNodeHeader.SIZE then .error .InvalidBTree
  else do
  pure {
    btn_flags := ← rdLE data 0 2
    btn_level := ← rdLE data 2 2
    btn_nkeys := ← rdLE data 4 4
    btn_table_space_off := ← rdLE data 8 2
    btn_table_space_len := ← rdLE data 10 2
    btn_free_space_off := ← rdLE data 12 2
    btn_free_space_len := ← rdLE data 14 2
    btn_free_list_off := ← rdLE data 16 2
    btn_free_list_len := ← rdLE data 18 2
    btn_key_free_list_off := ← rdLE data 20 2
    btn_key_free_list_len := ← rdLE data 22 2
    btn_val_free_list_off := ← rdLE data 24 2
    btn_val_free_list_len := ← rdLE data 26 2 }

/-- `is_leaf`. -/
def BTreeNodeHeader.is_leaf (h : BTreeNodeHeader) : Bool :=
  h.btn_flags &&& BTNODE_LEAF != 0

/-- `is_root`. -/
def BTreeNodeHeader.is_root (h : BTreeNodeHeader) : Bool :=
  h.btn_flags &&& BTNODE_ROOT != 0

/-- `is_fixed_kv`. -/
def BTreeNodeHeader.is_fixed_kv (h : BTreeNodeHeader) : Bool :=
  h.btn_flags &&& BTNODE_FIXED_KV_SIZE != 0

/-- `BTreeInfoFixed`. -/
structure BTreeInfoFixed where
  bt_flags : Nat
  bt_node_size : Nat
  bt_key_size : Nat
  bt_val_size : Nat
  deriving DecidableEq, Repr

/-- `BTreeInfo` (40 bytes at the end of a root node). -/
structure BTreeInfo where
  bt_fixed : BTreeInfoFixed
  bt_longest_key : Nat
  bt_longest_val : Nat
  bt_key_count : Nat
  bt_node_count : Nat
  deriving DecidableEq, Repr

/-- `BTreeInfo::SIZE`. -/
def BTreeInfo.SIZE : Nat := 40

/-- `BTreeInfo::parse`. -/
def BTreeInfo.parse (data : List Nat) : Except ApfsError BTreeInfo :=
  if data.length < BTreeInfo.SIZE then .error .InvalidBTree
  else .ok {
    bt_fixed := {
      bt_flags := leNum (byteSlice data 0 4)
      bt_node_size := leNum (byteSlice data 4 4)
      bt_key_size := leNum (byteSlice data 8 4)
      bt_val_size := leNum (byteSlice data 12 4) }
    bt_longest_key := leNum (byteSlice data 16 4)
    bt_longest_val := leNum (byteSlice data 20 4)
    bt_key_count := leNum (byteSlice data 24 8)
    bt_node_count := leNum (byteSlice data 32 8) }

/-- `TocEntry` (4 bytes for fixed-size KV — `key_len`/`val_len` set to 0 —
8 bytes for variable-size KV). -/
structure TocEntry where
  key_off : Nat
  key_len : Nat
  val_off : Nat
  val_len : Nat
  deriving DecidableEq, Repr

/-- The TOC-reading loop of `BTreeNode::parse`: `count` entries read from the
cursor starting at `pos`. -/
def parseToc (block : List Nat) (fixed_kv : Bool) :
    Nat → Nat → Except ApfsError (List TocEntry)
  | 0, _ => .ok []
  | count + 1, pos => do
    if fixed_kv then
      let key_off ← rdLE block pos 2
      let val_off ← rdLE block (pos + 2) 2
      let rest ← parseToc block fixed_kv count (pos + 4)
      pure ({ key_off, key_len := 0, val_off, val_len := 0 } :: rest)
    else
      let key_off ← rdLE block pos 2
      let key_len ← rdLE block (pos + 2) 2
      let val_off ← rdLE block (pos + 4) 2
      let val_len ← rdLE block (pos + 6) 2
      let rest ← parseToc block fixed_kv count (pos + 8)
      pure ({ key_off, key_len, val_off, val_len } :: rest)

/-- A parsed APFS B-tree node. -/
structure BTreeNode where
  header : ObjectHeader
  node_header : BTreeNodeHeader
  toc : List TocEntry
  block_data : List Nat
  key_area_off : Nat
  val_area_end : Nat
  info : Option BTreeInfo
  deriving Repr

/-- `BTreeNode::parse`.  (`block.len() - BTreeInfo::SIZE` is natural-number
subtraction here; the Rust code would panic on a block shorter than 40
bytes, a case no caller reaches since blocks have the container's block
size.) -/
def BTreeNode.parse (block : List Nat) : Except ApfsError BTreeNode := do
  let header ← ObjectHeader.parse block
  let node_header ← BTreeNodeHeader.parse (block.drop ObjectHeader.SIZE)
  let toc_start := ObjectHeader.SIZE + BTreeNodeHeader.SIZE + node_header.btn_table_space_off
  let fixed_kv := node_header.is_fixed_kv
  let key_area_off := ObjectHeader.SIZE + BTreeNodeHeader.SIZE
    + node_header.btn_table_space_off + node_header.btn_table_space_len
  let info ← if node_header.is_root then do
      let i ← BTreeInfo.parse (block.drop (block.length - BTreeInfo.SIZE))
      pure (some i)
    else pure none
  let val_area_end := if node_header.is_root then block.length - BTreeInfo.SIZE
    else block.length
  let toc ← parseToc block fixed_kv node_header.btn_nkeys toc_start
  pure { header, node_header, toc, block_data := block, key_area_off, val_area_end, info }

/-- `BTreeNode::key`: the key bytes of TOC entry `index`.  (An index past the
TOC — a `Vec` indexing panic in Rust, unreachable from the callers, which
keep `index < btn_nkeys` — is reported as `InvalidBTree`.) -/
def BTreeNode.key (n : BTreeNode) (index : Nat) (fixed_key_size : Nat) :
    Except ApfsError (List Nat) :=
  match n.toc.get? index with
  | none => .error .InvalidBTree
  | some entry =>
    let start := n.key_area_off + entry.key_off
    let len := if n.node_header.is_fixed_kv then fixed_key_size else entry.key_len
    if start + len > n.block_data.length then .error .InvalidBTree
    else .ok (byteSlice n.block_data start len)

/-- `BTreeNode::value`: the value bytes of TOC entry `index`; `val_off` counts
backwards from `val_area_end`; internal-node values are always 8 bytes.
(A `val_off` beyond `val_area_end` — a usize underflow panic in Rust — is
reported as `InvalidBTree`.) -/
def BTreeNode.value (n : BTreeNode) (index : Nat) (fixed_val_size : Nat) :
    Except ApfsError (List Nat) :=
  match n.toc.get? index with
  | none => .error .InvalidBTree
  | some entry =>
    let len := if !n.node_header.is_leaf then 8
      else if n.node_header.is_fixed_kv then fixed_val_size
      else entry.val_len
    if entry.val_off > n.val_area_end then .error .InvalidBTree
    else
    let start := n.val_area_end - entry.val_off
    if start + len > n.block_data.length || start < n.key_area_off then
      .error .InvalidBTree
    else .ok (byteSlice n.block_data start len)

/-- `BTreeNode::child_oid`: the 8-byte little-endian child OID of an index
node entry. -/
def BTreeNode.child_oid (n : BTreeNode) (index : Nat) : Except ApfsError Nat := do
  let val ← n.value index 8
  if val.length < 8 then .error .InvalidBTree
  else .ok (leNum (val.take 8))

/-- The leaf search loop of `btree_lookup_node`: linear scan from record `i`;
the first `Equal` record's value is returned, the first `Greater` record
stops with "not found".  The first argument counts the records left to
visit (`btn_nkeys - i`), making the recursion structural. -/
def btreeLeafSearch (node : BTreeNode) (fks fvs : Nat) (cmp : List Nat → Ordering) :
    Nat → Nat → Except ApfsError (Option (List Nat))
  | 0, _ => pure none
  | remaining + 1, i =>
    if i < node.node_header.btn_nkeys then do
      let key ← node.key i fks
      match cmp key with
      | .eq => do
        let val ← node.value i fvs
        pure (some val)
      | .gt => pure none
      | .lt => btreeLeafSearch node fks fvs cmp remaining (i + 1)
    else pure none

/-- The index-node loop of `btree_lookup_node`: record index of the last key
comparing `≤` the search key (`none` when every key compares greater).
The first argument counts the records left to visit. -/
def btreeIndexSearch (node : BTreeNode) (fks : Nat) (cmp : List Nat → Ordering) :
    Nat → Nat → Option Nat → Except ApfsError (Option Nat)
  | 0, _, acc => pure acc
  | remaining + 1, i, acc =>
    if i < node.node_header.btn_nkeys then do
      let key ← node.key i fks
      match cmp key with
      | .lt | .eq => btreeIndexSearch node fks cmp remaining (i + 1) (some i)
      | .gt => pure acc
    else pure acc

/-- `btree_lookup_node`: leaf → linear scan; index node → follow the child of
the last key `≤` the search key.  `resolve` is `resolve_child_oid`
specialised to the tree (`pure` for physical trees, an OMAP lookup for
virtual ones).  `fuel` bounds the recursion depth (the Rust recursion is
unbounded); every use in this development supplies ample fuel, and fuel
exhaustion reports `InvalidBTree`. -/
def btree_lookup_node (disk : List Nat) (block_size : Nat) (fks fvs : Nat)
    (cmp : List Nat → Ordering) (resolve : Nat → Except ApfsError Nat) :
    Nat → BTreeNode → Except ApfsError (Option (List Nat))
  | 0, _ => throw .InvalidBTree
  | fuel + 1, node => do
    if node.node_header.is_leaf then
      btreeLeafSearch node fks fvs cmp node.node_header.btn_nkeys 0
    else
      match ← btreeIndexSearch node fks cmp node.node_header.btn_nkeys 0 none with
      | none => pure none
      | some child_idx => do
        let child_oid ← node.child_oid child_idx
        let child_block ← resolve child_oid
        let child_data ← read_block disk child_block block_size
        let child_node ← BTreeNode.parse child_data
        btree_lookup_node disk block_size fks fvs cmp resolve fuel child_node

/-- The fixed-size override from a root node's `BTreeInfo`. -/
def btreeFixedSizes (node : BTreeNode) (fixed_key_size fixed_val_size : Nat) :
    Nat × Nat :=
  match node.info with
  | some info =>
    (if info.bt_fixed.bt_key_size > 0 then info.bt_fixed.bt_key_size else fixed_key_size,
     if info.bt_fixed.bt_val_size > 0 then info.bt_fixed.bt_val_size else fixed_val_size)
  | none => (fixed_key_size, fixed_val_size)

/-- `btree_lookup`: read and parse the root block (via `read_block`, so with
no checksum verification), apply the `BTreeInfo` fixed-size override, then
descend. -/
def btree_lookup (disk : List Nat) (root_block block_size fixed_key_size fixed_val_size : Nat)
    (cmp : List Nat → Ordering) (resolve : Nat → Except ApfsError Nat) (fuel : Nat) :
    Except ApfsError (Option (List Nat)) := do
  let block_data ← read_block disk root_block block_size
  let node ← BTreeNode.parse block_data
  let (fks, fvs) := btreeFixedSizes node fixed_key_size fixed_val_size
  btree_lookup_node disk block_size fks fvs cmp resolve fuel node

/-- The leaf loop of `btree_scan_node`: collect values of records accepted by
`range_fn`, in record order; `none` from `range_fn` stops the whole scan
(second component `false`). -/
def btreeScanLeaf (node : BTreeNode) (fks fvs : Nat)
    (range_fn : List Nat → Option Bool) :
    Nat → Nat → List (List Nat × List Nat) →
    Except ApfsError (List (List Nat × List Nat) × Bool)
  | 0, _, results => pure (results, true)
  | remaining + 1, i, results =>
    if i < node.node_header.btn_nkeys then do
      let key ← node.key i fks
      match range_fn key with
      | some true => do
        let val ← node.value i fvs
        btreeScanLeaf node fks fvs range_fn remaining (i + 1) (results ++ [(key, val)])
      | some false => btreeScanLeaf node fks fvs range_fn remaining (i + 1) results
      | none => pure (results, false)
    else pure (results, true)

/-- The internal-node loop of `btree_scan_node` over child indices, taking
the subtree scan (`btree_scan_node` at the remaining fuel) as an
argument; the first `Nat` counts the children left to visit. -/
def btreeScanChildren (disk : List Nat) (block_size : Nat)
    (resolve : Nat → Except ApfsError Nat)
    (scanChild : BTreeNode → List (List Nat × List Nat) →
      Except ApfsError (List (List Nat × List Nat) × Bool))
    (node : BTreeNode) :
    Nat → Nat → List (List Nat × List Nat) →
    Except ApfsError (List (List Nat × List Nat) × Bool)
  | 0, _, results => pure (results, true)
  | remaining + 1, i, results =>
    if i < node.node_header.btn_nkeys then do
      let child_oid ← node.child_oid i
      let child_block ← resolve child_oid
      let child_data ← read_block disk child_block block_size
      let child_node ← BTreeNode.parse child_data
      let (results, cont) ← scanChild child_node results
      if cont then
        btreeScanChildren disk block_size resolve scanChild node remaining (i + 1) results
      else
        pure (results, false)
    else pure (results, true)

/-- `btree_scan_node`: leaf → collect matching records; internal node → visit
every child subtree in order, stopping as soon as a subtree reports the
stop condition. -/
def btree_scan_node (disk : List Nat) (block_size : Nat) (fks fvs : Nat)
    (range_fn : List Nat → Option Bool) (resolve : Nat → Except ApfsError Nat) :
    Nat → BTreeNode → List (List Nat × List Nat) →
    Except ApfsError (List (List Nat × List Nat) × Bool)
  | 0, _, _ => throw .InvalidBTree
  | fuel + 1, node, results =>
    if node.node_header.is_leaf then
      btreeScanLeaf node fks fvs range_fn node.node_header.btn_nkeys 0 results
    else
      btreeScanChildren disk block_size resolve
        (btree_scan_node disk block_size fks fvs range_fn resolve fuel)
        node node.node_header.btn_nkeys 0 results

/-- `btree_scan`: read and parse the root, apply the fixed-size override,
collect all accepted `(key, value)` pairs. -/
def btree_scan (disk : List Nat) (root_block block_size fixed_key_size fixed_val_size : Nat)
    (range_fn : List Nat → Option Bool) (resolve : Nat → Except ApfsError Nat)
    (fuel : Nat) : Except ApfsError (List (List Nat × List Nat)) := do
  let block_data ← read_block disk root_block block_size
  let node ← BTreeNode.parse block_data
  let (fks, fvs) := btreeFixedSizes node fixed_key_size fixed_val_size
  let (results, _) ← btree_scan_node disk block_size fks fvs range_fn resolve fuel node []
  pure results

/-! ## APFS object map (src/apfs/src/omap.rs) -/

/-- `OMAP_KEY_SIZE` / `OMAP_VAL_SIZE`. -/
def OMAP_KEY_SIZE : Nat := 16
def OMAP_VAL_SIZE : Nat := 16

/-- `read_omap_tree_root`: read the OMAP structure block (via `read_block`,
so unverified) and return `om_tree_oid`, the u64 at offset 16 after the
32-byte object header. -/
def read_omap_tree_root (disk : List Nat) (omap_block block_size : Nat) :
    Except ApfsError Nat := do
  let block_data ← read_block disk omap_block block_size
  rdLE block_data (ObjectHeader.SIZE + 16) 8

/-- The `compare_fn` closure of `omap_lookup`: compare by OID only; a key
shorter than 16 bytes compares `Less`. -/
def omapCompare (target_oid : Nat) (key : List Nat) : Ordering :=
  if key.length < 16 then .lt
  else compare (leNum (key.take 8)) target_oid

/-- The `range_fn` closure of `omap_lookup`'s fallback scan. -/
def omapRangeFn (target_oid : Nat) (key : List Nat) : Option Bool :=
  if key.length < 16 then some false
  else
    let key_oid := leNum (key.take 8)
    if key_oid < target_oid then some false
    else if key_oid = target_oid then some true
    else none

/-- `parse_omap_val`: the `paddr` u64 at bytes 8..16 of an OMAP value. -/
def parse_omap_val (val : List Nat) : Except ApfsError Nat :=
  if val.length < 16 then .error .InvalidBTree
  else .ok (leNum (byteSlice val 8 8))

/-- The best-xid selection loop of `omap_lookup`'s fallback: keep the paddr of
the entry with the highest xid (ties and the first entry taken by `≥`). -/
def omapBestXid (entries : List (List Nat × List Nat)) :
    Except ApfsError (Nat × Nat) :=
  entries.foldlM (fun (best : Nat × Nat) kv => do
    if kv.1.length ≥ 16 then
      let xid := leNum (byteSlice kv.1 8 8)
      if xid ≥ best.1 then
        let paddr ← parse_omap_val kv.2
        pure (xid, paddr)
      else pure best
    else pure best) (0, 0)

/-- `omap_lookup`: first a direct `btree_lookup` comparing by OID only (the
first `Equal` leaf record wins); when that finds nothing, fall back to a
range scan over every entry with the target OID and pick the highest xid.
OMAP B-trees are physical, so child OIDs resolve to themselves (`pure`). -/
def omap_lookup (disk : List Nat) (omap_tree_root block_size target_oid fuel : Nat) :
    Except ApfsError Nat := do
  let result ← btree_lookup disk omap_tree_root block_size OMAP_KEY_SIZE OMAP_VAL_SIZE
    (omapCompare target_oid) pure fuel
  match result with
  | some val => parse_omap_val val
  | none => do
    let entries ← btree_scan disk omap_tree_root block_size OMAP_KEY_SIZE OMAP_VAL_SIZE
      (omapRangeFn target_oid) pure fuel
    if entries.isEmpty then .error .CorruptedData
    else do
    let best ← omapBestXid entries
    if best.2 = 0 then .error .CorruptedData
    else .ok best.2

/-! ## APFS catalog (src/apfs/src/catalog.rs) -/

/-- Catalog record types (top 4 bits of a key's `obj_id_and_type`). -/
def J_TYPE_INODE : Nat := 3
def J_TYPE_FILE_EXTENT : Nat := 8
def J_TYPE_DIR_REC : Nat := 9

/-- Well-known OIDs. -/
def ROOT_DIR_PARENT : Nat := 1
def ROOT_DIR_RECORD : Nat := 2

/-- `DT_*` directory-entry types. -/
def DT_REG : Nat := 8
def DT_DIR : Nat := 4
def DT_LNK : Nat := 10

/-- Entry kind (the `EntryKind` enum, identical in the hfsplus and apfs
crates). -/
inductive EntryKind where
  | File | Directory | Symlink
  deriving DecidableEq, Repr

/-- `decode_catalog_key`: split `obj_id_and_type` into `(obj_id, type)`. -/
def decode_catalog_key (key_bytes : List Nat) : Except ApfsError (Nat × Nat) :=
  if key_bytes.length < 8 then .error .InvalidBTree
  else
  let obj_id_and_type := leNum (key_bytes.take 8)
  .ok (obj_id_and_type &&& 0x0FFFFFFFFFFFFFFF, (obj_id_and_type >>> 60) &&& 0xF)

/-- `decode_drec_name`: the low 10 bits of `name_len_and_hash` give the name
length; the name is the UTF-8 bytes up to the first NUL.  (The name is
kept as its byte list; the Rust code converts it to `String` with
`from_utf8_lossy`.) -/
def decode_drec_name (key_bytes : List Nat) : Except ApfsError (List Nat) :=
  if key_bytes.length < 12 then .error .InvalidBTree
  else
  let name_len := leNum (byteSlice key_bytes 8 4) &&& 0x000003FF
  if 12 + name_len > key_bytes.length then .error .InvalidBTree
  else
  let name_bytes := byteSlice key_bytes 12 name_len
  .ok (name_bytes.take ((name_bytes.findIdx? (fun b => b == 0)).getD name_bytes.length))

/-- `DrecVal` (j_drec_val_t). -/
structure DrecVal where
  file_id : Nat
  date_added : Nat
  flags : Nat
  deriving DecidableEq, Repr

/-- `DrecVal::parse`. -/
def DrecVal.parse (data : List Nat) : Except ApfsError DrecVal :=
  if data.length < 18 then .error .CorruptedData
  else .ok {
    file_id := leNum (byteSlice data 0 8)
    date_added := leNum (byteSlice data 8 8)
    flags := leNum (byteSlice data 16 2) }

/-- `DrecVal::file_type`: low 4 bits of the flags. -/
def DrecVal.file_type (d : DrecVal) : Nat := d.flags &&& 0x000F

/-- `compare_catalog_keys`: `(obj_id, type)` lexicographic. -/
def compare_catalog_keys (oid_a type_a oid_b type_b : Nat) : Ordering :=
  match compare oid_a oid_b with
  | .eq => compare type_a type_b
  | ord => ord

/-- `InodeVal` (signed timestamps kept as raw 64-bit values). -/
structure InodeVal where
  parent_id : Nat
  private_id : Nat
  create_time : Nat
  modify_time : Nat
  change_time : Nat
  access_time : Nat
  internal_flags : Nat
  nchildren_or_nlink : Nat
  default_protection_class : Nat
  write_generation_counter : Nat
  bsd_flags : Nat
  uid : Nat
  gid : Nat
  mode : Nat
  pad1 : Nat
  uncompressed_size : Nat
  dstream_size : Option Nat
  deriving DecidableEq, Repr

/-- `INO_EXT_TYPE_DSTREAM`. -/
def INO_EXT_TYPE_DSTREAM : Nat := 8

/-- The xfield walk of `parse_dstream_size`: advance over `xf_num_exts`
entries, each data payload padded to an 8-byte boundary, until a
`DSTREAM` entry with an in-bounds 8-byte size is found. -/
def dstreamScan (xfield_data : List Nat) (entries_start : Nat) :
    Nat → Nat → Nat → Option Nat
  | 0, _, _ => none
  | remaining + 1, i, data_offset =>
    let entry_off := entries_start + i * 4
    let x_type := (xfield_data.drop entry_off).headD 0
    let x_size := leNum (byteSlice xfield_data (entry_off + 2) 2)
    if x_type == INO_EXT_TYPE_DSTREAM && x_size ≥ 8
        && data_offset + 8 ≤ xfield_data.length then
      some (leNum (byteSlice xfield_data data_offset 8))
    else
      dstreamScan xfield_data entries_start remaining (i + 1)
        (data_offset + ((x_size + 7) / 8) * 8)

/-- `InodeVal::parse_dstream_size`. -/
def parse_dstream_size (xfield_data : List Nat) : Option Nat :=
  if xfield_data.length < 4 then none
  else
    let xf_num_exts := leNum (byteSlice xfield_data 0 2)
    if xf_num_exts = 0 then none
    else
      let entries_start := 4
      let entries_end := entries_start + xf_num_exts * 4
      if entries_end > xfield_data.length then none
      else dstreamScan xfield_data entries_start xf_num_exts 0 entries_end

/-- `InodeVal::parse`: 92 fixed little-endian bytes followed by the xfields. -/
def InodeVal.parse (data : List Nat) : Except ApfsError InodeVal :=
  if data.length < 92 then .error .CorruptedData
  else .ok {
    parent_id := leNum (byteSlice data 0 8)
    private_id := leNum (byteSlice data 8 8)
    create_time := leNum (byteSlice data 16 8)
    modify_time := leNum (byteSlice data 24 8)
    change_time := leNum (byteSlice data 32 8)
    access_time := leNum (byteSlice data 40 8)
    internal_flags := leNum (byteSlice data 48 8)
    nchildren_or_nlink := leNum (byteSlice data 56 4)
    default_protection_class := leNum (byteSlice data 60 4)
    write_generation_counter := leNum (byteSlice data 64 4)
    bsd_flags := leNum (byteSlice data 68 4)
    uid := leNum (byteSlice data 72 4)
    gid := leNum (byteSlice data 76 4)
    mode := leNum (byteSlice data 80 2)
    pad1 := leNum (byteSlice data 82 2)
    uncompressed_size := leNum (byteSlice data 84 8)
    dstream_size := parse_dstream_size (data.drop 92) }

/-- `InodeVal::size`: the dstream xfield size when present, else
`uncompressed_size`. -/
def InodeVal.size (i : InodeVal) : Nat := i.dstream_size.getD i.uncompressed_size

/-- The `compare_fn` closure of `lookup_inode`: `(oid, J_TYPE_INODE)` against
the record key; a key that fails to decode compares `Less`. -/
def inodeCompare (oid : Nat) (key : List Nat) : Ordering :=
  match decode_catalog_key key with
  | .ok (key_oid, key_type) => compare_catalog_keys key_oid key_type oid J_TYPE_INODE
  | .error _ => .lt

/-- `lookup_inode`: direct catalog lookup of the inode record for `oid`
(virtual tree: children resolve through the volume OMAP). -/
def lookup_inode (disk : List Nat) (catalog_root omap_root block_size oid fuel : Nat) :
    Except ApfsError InodeVal := do
  let val ← btree_lookup disk catalog_root block_size 0 0 (inodeCompare oid)
    (fun o => omap_lookup disk omap_root block_size o fuel) fuel
  match val with
  | some data => InodeVal.parse data
  | none => .error .FileNotFound

/-- The `range_fn` closure of the APFS `list_directory`: accept every
`(parent_oid, DIR_REC)` key, skip earlier keys, stop past them; a key
that fails to decode is skipped. -/
def apfsDirRangeFn (parent_oid : Nat) (key : List Nat) : Option Bool :=
  match decode_catalog_key key with
  | .ok (oid, j_type) =>
    match compare_catalog_keys oid j_type parent_oid J_TYPE_DIR_REC with
    | .lt => some false
    | .eq => some true
    | .gt => if oid == parent_oid && j_type == J_TYPE_DIR_REC then some true else none
  | .error _ => some false

/-- `DirEntry` of the apfs crate (the name kept as UTF-8 bytes). -/
structure ApfsDirEntry where
  name : List Nat
  oid : Nat
  kind : EntryKind
  size : Nat
  create_time : Nat
  modify_time : Nat
  deriving DecidableEq, Repr

/-- The per-entry post-processing loop of the APFS `list_directory`: a name or
value that fails to parse skips the entry (`continue`); a failing inode
lookup falls back to `(0, 0, 0)`. -/
def apfsDirEntriesOf (disk : List Nat) (catalog_root omap_root block_size fuel : Nat)
    (entries : List (List Nat × List Nat)) : List ApfsDirEntry :=
  entries.foldl (fun acc kv =>
    match decode_drec_name kv.1 with
    | .error _ => acc
    | .ok name =>
      match DrecVal.parse kv.2 with
      | .error _ => acc
      | .ok drec =>
        let kind := if drec.file_type = DT_DIR then EntryKind.Directory
          else if drec.file_type = DT_LNK then EntryKind.Symlink
          else EntryKind.File
        let stat := match lookup_inode disk catalog_root omap_root block_size
            drec.file_id fuel with
          | .ok inode => (inode.size, inode.create_time, inode.modify_time)
          | .error _ => (0, 0, 0)
        acc ++ [{ name, oid := drec.file_id, kind, size := stat.1,
                  create_time := stat.2.1, modify_time := stat.2.2 }]) []

/-- The APFS `list_directory`: scan the catalog for all
`(parent_oid, DIR_REC)` entries (children resolved through the volume
OMAP), then post-process them with `apfsDirEntriesOf`. -/
def apfs_list_directory (disk : List Nat)
    (catalog_root omap_root block_size parent_oid fuel : Nat) :
    Except ApfsError (List ApfsDirEntry) := do
  let entries ← btree_scan disk catalog_root block_size 0 0
    (apfsDirRangeFn parent_oid)
    (fun o => omap_lookup disk omap_root block_size o fuel) fuel
  pure (apfsDirEntriesOf disk catalog_root omap_root block_size fuel entries)

/-! ## HFS+ error type (src/hfsplus/src/error.rs), message payloads elided -/

inductive HfsPlusError where
  | Io
  | InvalidSignature (v : Nat)
  | InvalidBTree
  | FileNotFound
  | NotADirectory
  | CorruptedData
  | UnsupportedVersion (v : Nat)
  deriving DecidableEq, Repr

/-- Read `w` bytes big-endian at `off`, as a fallible cursor read. -/
def rdBE (data : List Nat) (off w : Nat) : Except HfsPlusError Nat :=
  match readBE data off w with
  | some v => .ok v
  | none => .error .Io

/-- seek + `read_exact` against the HFS+ partition stream. -/
def hfsReadRange (disk : List Nat) (off len : Nat) : Except HfsPlusError (List Nat) :=
  if off + len ≤ disk.length then .ok (byteSlice disk off len) else .error .Io

/-! ## HFS+ Unicode comparison (src/hfsplus/src/unicode.rs)

Names are lists of u16 code units. -/

/-- `compare_binary`: code-unit-wise comparison, then length. -/
def compare_binary : List Nat → List Nat → Ordering
  | [], [] => .eq
  | [], _ :: _ => .lt
  | _ :: _, [] => .gt
  | a :: as_, b :: bs =>
    match compare a b with
    | .eq => compare_binary as_ bs
    | ord => ord

/-- `CASE_FOLD`: the TN1150 case-folding table (entries that differ from the
identity). -/
def CASE_FOLD : List (Nat × Nat) := [
  (0x0041, 0x0061), (0x0042, 0x0062), (0x0043, 0x0063), (0x0044, 0x0064),
  (0x0045, 0x0065), (0x0046, 0x0066), (0x0047, 0x0067), (0x0048, 0x0068),
  (0x0049, 0x0069), (0x004A, 0x006A), (0x004B, 0x006B), (0x004C, 0x006C),
  (0x004D, 0x006D), (0x004E, 0x006E), (0x004F, 0x006F), (0x0050, 0x0070),
  (0x0051, 0x0071), (0x0052, 0x0072), (0x0053, 0x0073), (0x0054, 0x0074),
  (0x0055, 0x0075), (0x0056, 0x0076), (0x0057, 0x0077), (0x0058, 0x0078),
  (0x0059, 0x0079), (0x005A, 0x007A), (0x00C0, 0x00E0), (0x00C1, 0x00E1),
  (0x00C2, 0x00E2), (0x00C3, 0x00E3), (0x00C4, 0x00E4), (0x00C5, 0x00E5),
  (0x00C6, 0x00E6), (0x00C7, 0x00E7), (0x00C8, 0x00E8), (0x00C9, 0x00E9),
  (0x00CA, 0x00EA), (0x00CB, 0x00EB), (0x00CC, 0x00EC), (0x00CD, 0x00ED),
  (0x00CE, 0x00EE), (0x00CF, 0x00EF), (0x00D0, 0x00F0), (0x00D1, 0x00F1),
  (0x00D2, 0x00F2), (0x00D3, 0x00F3), (0x00D4, 0x00F4), (0x00D5, 0x00F5),
  (0x00D6, 0x00F6), (0x00D8, 0x00F8), (0x00D9, 0x00F9), (0x00DA, 0x00FA),
  (0x00DB, 0x00FB), (0x00DC, 0x00FC), (0x00DD, 0x00FD), (0x00DE, 0x00FE),
  (0x0100, 0x0101), (0x0102, 0x0103), (0x0104, 0x0105), (0x0106, 0x0107),
  (0x0108, 0x0109), (0x010A, 0x010B), (0x010C, 0x010D), (0x010E, 0x010F),
  (0x0110, 0x0111), (0x0112, 0x0113), (0x0114, 0x0115), (0x0116, 0x0117),
  (0x0118, 0x0119), (0x011A, 0x011B), (0x011C, 0x011D), (0x011E, 0x011F),
  (0x0120, 0x0121), (0x0122, 0x0123), (0x0124, 0x0125), (0x0126, 0x0127),
  (0x0128, 0x0129), (0x012A, 0x012B), (0x012C, 0x012D), (0x012E, 0x012F),
  (0x0130, 0x0069), (0x0132, 0x0133), (0x0134, 0x0135), (0x0136, 0x0137),
  (0x0139, 0x013A), (0x013B, 0x013C), (0x013D, 0x013E), (0x013F, 0x0140),
  (0x0141, 0x0142), (0x0143, 0x0144), (0x0145, 0x0146), (0x0147, 0x0148),
  (0x014A, 0x014B), (0x014C, 0x014D), (0x014E, 0x014F), (0x0150, 0x0151),
  (0x0152, 0x0153), (0x0154, 0x0155), (0x0156, 0x0157), (0x0158, 0x0159),
  (0x015A, 0x015B), (0x015C, 0x015D), (0x015E, 0x015F), (0x0160, 0x0161),
  (0x0162, 0x0163), (0x0164, 0x0165), (0x0166, 0x0167), (0x0168, 0x0169),
  (0x016A, 0x016B), (0x016C, 0x016D), (0x016E, 0x016F), (0x0170, 0x0171),
  (0x0172, 0x0173), (0x0174, 0x0175), (0x0176, 0x0177), (0x0178, 0x00FF),
  (0x0179, 0x017A), (0x017B, 0x017C), (0x017D, 0x017E)]

/-- `case_fold`: table lookup (the Rust binary search over the sorted table
finds exactly the entry with the matching key). -/
def case_fold (c : Nat) : Nat := ((CASE_FOLD.lookup c).getD c)

/-- `compare_case_insensitive`: fold each code unit, compare, then length. -/
def compare_case_insensitive : List Nat → List Nat → Ordering
  | [], [] => .eq
  | [], _ :: _ => .lt
  | _ :: _, [] => .gt
  | a :: as_, b :: bs =>
    match compare (case_fold a) (case_fold b) with
    | .eq => compare_case_insensitive as_ bs
    | ord => ord

/-- `utf16be_to_u16`: big-endian byte pairs to code units (`chunks_exact(2)`,
a trailing odd byte is ignored). -/
def utf16be_to_u16 : List Nat → List Nat
  | b0 :: b1 :: rest => (b0 * 256 + b1) :: utf16be_to_u16 rest
  | _ => []

/-! ## HFS+ volume structures (src/hfsplus/src/volume.rs) -/

/-- `ExtentDescriptor`: a contiguous run of allocation blocks. -/
structure ExtentDescriptor where
  start_block : Nat
  block_count : Nat
  deriving DecidableEq, Repr

/-- `ForkData`: logical size plus the 8 inline extents. -/
structure ForkData where
  logical_size : Nat
  clump_size : Nat
  total_blocks : Nat
  extents : List ExtentDescriptor
  deriving DecidableEq, Repr

/-- The fields of the parsed `VolumeHeader` consulted by the embedded
functions (`is_hfsx` selects the catalog comparator, `block_size` scales
extents); the remaining fields of the 512-byte header play no role in
the claims. -/
structure VolumeHeader where
  is_hfsx : Bool
  block_size : Nat
  deriving DecidableEq, Repr

/-! ## HFS+ B-trees (src/hfsplus/src/btree.rs) -/

/-- Node kinds. -/
def NODE_KIND_LEAF : Nat := 0xFF
def NODE_KIND_INDEX : Nat := 0x00
def NODE_KIND_HEADER : Nat := 0x01
def NODE_KIND_MAP : Nat := 0x02

/-- `BTreeHeaderRecord` (from the header node), carrying the fork and volume
block size used to locate nodes. -/
structure BTreeHeaderRecord where
  tree_depth : Nat
  root_node : Nat
  leaf_records : Nat
  first_leaf_node : Nat
  last_leaf_node : Nat
  node_size : Nat
  max_key_length : Nat
  total_nodes : Nat
  free_nodes : Nat
  key_compare_type : Nat
  fork : ForkData
  block_size : Nat
  deriving DecidableEq, Repr

/-- `NodeDescriptor`: the 14-byte descriptor at the start of each node. -/
structure NodeDescriptor where
  forward_link : Nat
  backward_link : Nat
  kind : Nat
  height : Nat
  num_records : Nat
  reserved : Nat
  deriving DecidableEq, Repr

/-- `parse_node_descriptor`. -/
def parse_node_descriptor (data : List Nat) : Except HfsPlusError NodeDescriptor := do
  pure {
    forward_link := ← rdBE data 0 4
    backward_link := ← rdBE data 4 4
    kind := ← rdBE data 8 1
    height := ← rdBE data 9 1
    num_records := ← rdBE data 10 2
    reserved := ← rdBE data 12 2 }

/-- `compute_fork_offset`: walk the fork's extents (stopping at the first
zero-length one) to translate a fork-relative byte offset into a
partition byte offset. -/
def compute_fork_offset (fork : ForkData) (block_size offset_in_fork : Nat) :
    Except HfsPlusError Nat :=
  go fork.extents offset_in_fork
where
  go : List ExtentDescriptor → Nat → Except HfsPlusError Nat
    | [], _ => .error .InvalidBTree
    | extent :: rest, remaining =>
      if extent.block_count = 0 then .error .InvalidBTree
      else
        let extent_bytes := extent.block_count * block_size
        if remaining < extent_bytes then
          let block_within_extent := remaining / block_size
          let offset_within_block := remaining % block_size
          .ok ((extent.start_block + block_within_extent) * block_size
            + offset_within_block)
        else go rest (remaining - extent_bytes)

/-- A parsed HFS+ B-tree node (named apart from the APFS `BTreeNode`). -/
structure HfsBTreeNode where
  descriptor : NodeDescriptor
  data : List Nat
  record_offsets : List Nat
  deriving DecidableEq, Repr

/-- The offset-table loop of `read_node`: `num_offsets` big-endian u16 values
at the tail of the node, growing backwards.  (`node_size - (i+1)*2` is a
usize subtraction in Rust; an underflow, unreachable for real node sizes,
is reported as `InvalidBTree`.) -/
def readOffsetTable (data : List Nat) (node_size : Nat) :
    Nat → Nat → Except HfsPlusError (List Nat)
  | _, 0 => .ok []
  | i, remaining + 1 => do
    if (i + 1) * 2 > node_size then throw .InvalidBTree
    let offset_pos := node_size - (i + 1) * 2
    if offset_pos + 1 ≥ data.length then throw .InvalidBTree
    let offset ← rdBE data offset_pos 2
    let rest ← readOffsetTable data node_size (i + 1) remaining
    pure (offset :: rest)

/-- `read_node`: read `node_size` bytes of node `node_number` through the
fork's extents, parse the descriptor, read the `num_records + 1` offsets. -/
def read_node (disk : List Nat) (btree_header : BTreeHeaderRecord)
    (node_number : Nat) : Except HfsPlusError HfsBTreeNode := do
  let node_size := btree_header.node_size
  let byte_offset ← compute_fork_offset btree_header.fork btree_header.block_size
    (node_number * node_size)
  let data ← hfsReadRange disk byte_offset node_size
  let descriptor ← parse_node_descriptor data
  let record_offsets ← readOffsetTable data node_size 0 (descriptor.num_records + 1)
  pure { descriptor, data, record_offsets }

/-- `BTreeNode::record_data` (HFS+): the bytes of record `index`, bounded by
consecutive offsets. -/
def HfsBTreeNode.record_data (n : HfsBTreeNode) (index : Nat) :
    Except HfsPlusError (List Nat) := do
  if index ≥ n.descriptor.num_records then throw .InvalidBTree
  let start := n.record_offsets.getD index 0
  let endo := n.record_offsets.getD (index + 1) 0
  if start > endo || endo > n.data.length then throw .InvalidBTree
  pure (byteSlice n.data start (endo - start))

/-- `extract_index_child`: the big-endian u32 child pointer after the
variable-length key of an index record. -/
def extract_index_child (record_data : List Nat) : Except HfsPlusError Nat := do
  if record_data.length < 2 then throw .InvalidBTree
  let key_length := beNum (record_data.take 2)
  let child_offset := 2 + key_length
  if child_offset + 4 > record_data.length then throw .InvalidBTree
  pure (beNum (byteSlice record_data child_offset 4))

/-- The leaf loop of `search_btree`: first `Equal` record wins, first
`Greater` stops with "not found". -/
def hfsLeafSearch (node : HfsBTreeNode) (cmp : List Nat → Ordering) :
    Nat → Nat → Except HfsPlusError (Option (HfsBTreeNode × Nat))
  | 0, _ => pure none
  | remaining + 1, i =>
    if i < node.descriptor.num_records then do
      let record_data ← node.record_data i
      match cmp record_data with
      | .eq => pure (some (node, i))
      | .gt => pure none
      | .lt => hfsLeafSearch node cmp remaining (i + 1)
    else pure none

/-- The index-node loop of `search_btree`: child pointer of the last record
comparing `≤` the search key. -/
def hfsIndexSearch (node : HfsBTreeNode) (cmp : List Nat → Ordering) :
    Nat → Nat → Option Nat → Except HfsPlusError (Option Nat)
  | 0, _, acc => pure acc
  | remaining + 1, i, acc =>
    if i < node.descriptor.num_records then do
      let record_data ← node.record_data i
      match cmp record_data with
      | .lt | .eq => do
        let child ← extract_index_child record_data
        hfsIndexSearch node cmp remaining (i + 1) (some child)
      | .gt => pure acc
    else pure acc

/-- `search_btree`: descend from the root; `fuel` bounds the descent (the
Rust loop is unbounded in the presence of corrupt child pointers), with
ample fuel supplied at every use. -/
def search_btree (disk : List Nat) (btree_header : BTreeHeaderRecord)
    (cmp : List Nat → Ordering) :
    Nat → Nat → Except HfsPlusError (Option (HfsBTreeNode × Nat))
  | 0, _ => throw .InvalidBTree
  | fuel + 1, current_node_num => do
    let node ← read_node disk btree_header current_node_num
    if node.descriptor.kind = NODE_KIND_LEAF then
      hfsLeafSearch node cmp node.descriptor.num_records 0
    else if node.descriptor.kind = NODE_KIND_INDEX then
      match ← hfsIndexSearch node cmp node.descriptor.num_records 0 none with
      | none => pure none
      | some child => search_btree disk btree_header cmp fuel child
    else throw .InvalidBTree

/-- `search_btree` entry point: immediately "not found" on an empty tree. -/
def search_btree_root (disk : List Nat) (btree_header : BTreeHeaderRecord)
    (cmp : List Nat → Ordering) (fuel : Nat) :
    Except HfsPlusError (Option (HfsBTreeNode × Nat)) :=
  if btree_header.root_node = 0 then .ok none
  else search_btree disk btree_header cmp fuel btree_header.root_node

/-! ## HFS+ catalog (src/hfsplus/src/catalog.rs)

Unicode names are kept as lists of UTF-16 code units (the Rust code's
final `String` conversion is lossy display only). -/

/-- Catalog record types. -/
def RECORD_TYPE_FOLDER : Nat := 0x0001
def RECORD_TYPE_FILE : Nat := 0x0002
def RECORD_TYPE_FOLDER_THREAD : Nat := 0x0003
def RECORD_TYPE_FILE_THREAD : Nat := 0x0004

/-- Well-known CNIDs. -/
def CNID_ROOT_PARENT : Nat := 1
def CNID_ROOT_FOLDER : Nat := 2

/-- `HfsPlusBsdInfo`. -/
structure HfsPlusBsdInfo where
  owner_id : Nat
  group_id : Nat
  admin_flags : Nat
  owner_flags : Nat
  file_mode : Nat
  special : Nat
  deriving DecidableEq, Repr

/-- `CatalogFile`. -/
structure CatalogFile where
  file_id : Nat
  create_date : Nat
  content_mod_date : Nat
  attribute_mod_date : Nat
  access_date : Nat
  backup_date : Nat
  permissions : HfsPlusBsdInfo
  data_fork : ForkData
  resource_fork : ForkData
  text_encoding : Nat
  deriving DecidableEq, Repr

/-- `CatalogFolder`. -/
structure CatalogFolder where
  folder_id : Nat
  create_date : Nat
  content_mod_date : Nat
  attribute_mod_date : Nat
  access_date : Nat
  backup_date : Nat
  permissions : HfsPlusBsdInfo
  valence : Nat
  text_encoding : Nat
  deriving DecidableEq, Repr

/-- `CatalogThread`. -/
structure CatalogThread where
  parent_id : Nat
  node_name : List Nat
  deriving DecidableEq, Repr

/-- `CatalogRecord`. -/
inductive CatalogRecord where
  | Folder (f : CatalogFolder)
  | File (f : CatalogFile)
  | FolderThread (t : CatalogThread)
  | FileThread (t : CatalogThread)
  deriving DecidableEq, Repr

/-- `CatalogKey`: `(parent_id, node_name)`. -/
structure CatalogKey where
  parent_id : Nat
  node_name : List Nat
  deriving DecidableEq, Repr

/-- `parse_catalog_key`: key length, parent CNID, UTF-16BE name; returns the
key and the even-aligned offset of the record data after the key.  (The
Rust code reads `data[6]`/`data[7]` after only checking `len < 6`; the
indexing panic on a 6- or 7-byte record is reported as `InvalidBTree`.) -/
def parse_catalog_key (data : List Nat) : Except HfsPlusError (CatalogKey × Nat) := do
  if data.length < 6 then throw .InvalidBTree
  if data.length < 8 then throw .InvalidBTree
  let key_length := beNum (byteSlice data 0 2)
  let parent_id := beNum (byteSlice data 2 4)
  let name_length := beNum (byteSlice data 6 2)
  let name_end := 8 + name_length * 2
  if name_end > data.length then throw .InvalidBTree
  let node_name := utf16be_to_u16 (byteSlice data 8 (name_length * 2))
  let record_offset := 2 + key_length
  let record_offset := if record_offset % 2 ≠ 0 then record_offset + 1 else record_offset
  pure ({ parent_id, node_name }, record_offset)

/-- `parse_bsd_info` at cursor offset `off`. -/
def parse_bsd_info (data : List Nat) (off : Nat) : HfsPlusBsdInfo :=
  { owner_id := beNum (byteSlice data off 4)
    group_id := beNum (byteSlice data (off + 4) 4)
    admin_flags := beNum (byteSlice data (off + 8) 1)
    owner_flags := beNum (byteSlice data (off + 9) 1)
    file_mode := beNum (byteSlice data (off + 10) 2)
    special := beNum (byteSlice data (off + 12) 4) }

/-- One extent descriptor at cursor offset `off`. -/
def parse_extent_descriptor (data : List Nat) (off : Nat) : ExtentDescriptor :=
  { start_block := beNum (byteSlice data off 4)
    block_count := beNum (byteSlice data (off + 4) 4) }

/-- `parse_fork_data` at cursor offset `off` (80 bytes: size, clump, total
blocks, 8 extents). -/
def parse_fork_data (data : List Nat) (off : Nat) : ForkData :=
  { logical_size := beNum (byteSlice data off 8)
    clump_size := beNum (byteSlice data (off + 8) 4)
    total_blocks := beNum (byteSlice data (off + 12) 4)
    extents := (List.range 8).map fun i =>
      parse_extent_descriptor data (off + 16 + i * 8) }

/-- `parse_catalog_record`: dispatch on the big-endian record type at offset
0; sequential cursor reads that run past the record are I/O errors. -/
def parse_catalog_record (data : List Nat) : Except HfsPlusError CatalogRecord := do
  if data.length < 2 then throw .InvalidBTree
  let record_type := beNum (byteSlice data 0 2)
  if record_type = RECORD_TYPE_FOLDER then
    if data.length < 84 then throw .Io
    pure (.Folder {
      folder_id := beNum (byteSlice data 8 4)
      create_date := beNum (byteSlice data 12 4)
      content_mod_date := beNum (byteSlice data 16 4)
      attribute_mod_date := beNum (byteSlice data 20 4)
      access_date := beNum (byteSlice data 24 4)
      backup_date := beNum (byteSlice data 28 4)
      permissions := parse_bsd_info data 32
      valence := beNum (byteSlice data 4 4)
      text_encoding := beNum (byteSlice data 80 4) })
  else if record_type = RECORD_TYPE_FILE then
    if data.length < 248 then throw .Io
    pure (.File {
      file_id := beNum (byteSlice data 8 4)
      create_date := beNum (byteSlice data 12 4)
      content_mod_date := beNum (byteSlice data 16 4)
      attribute_mod_date := beNum (byteSlice data 20 4)
      access_date := beNum (byteSlice data 24 4)
      backup_date := beNum (byteSlice data 28 4)
      permissions := parse_bsd_info data 32
      data_fork := parse_fork_data data 88
      resource_fork := parse_fork_data data 168
      text_encoding := beNum (byteSlice data 80 4) })
  else if record_type = RECORD_TYPE_FOLDER_THREAD
      || record_type = RECORD_TYPE_FILE_THREAD then do
    let parent_id ← rdBE data 4 4
    let name_length ← rdBE data 8 2
    if 10 + name_length * 2 > data.length then throw .Io
    let node_name := utf16be_to_u16 (byteSlice data 10 (name_length * 2))
    if record_type = RECORD_TYPE_FOLDER_THREAD then
      pure (.FolderThread { parent_id, node_name })
    else
      pure (.FileThread { parent_id, node_name })
  else throw .InvalidBTree

/-- `make_catalog_comparator`: compare a record's catalog key against
`(target_parent_id, target_name)`; a key that fails to parse compares
`Less`; HFSX names compare binary, HFS+ names case-insensitively. -/
def make_catalog_comparator (target_parent_id : Nat) (target_name : List Nat)
    (is_hfsx : Bool) (record_data : List Nat) : Ordering :=
  match parse_catalog_key record_data with
  | .error _ => .lt
  | .ok (key, _) =>
    match compare key.parent_id target_parent_id with
    | .eq =>
      if is_hfsx then compare_binary key.node_name target_name
      else compare_case_insensitive key.node_name target_name
    | ord => ord

/-- A directory entry of the hfsplus crate (name as UTF-16 code units). -/
structure HfsDirEntry where
  name : List Nat
  cnid : Nat
  kind : EntryKind
  size : Nat
  create_date : Nat
  modify_date : Nat
  deriving DecidableEq, Repr

/-- The `match_fn` closure of the HFS+ `list_directory`: keys before the
target parent are skipped, keys of the target parent match, later keys
stop the scan; an unparseable key is skipped. -/
def hfsDirMatchFn (parent_cnid : Nat) (record_data : List Nat) : Option Bool :=
  match parse_catalog_key record_data with
  | .ok (key, _) =>
    if key.parent_id < parent_cnid then some false
    else if key.parent_id = parent_cnid then some true
    else none
  | .error _ => some false

/-- The `parse_fn` closure of the HFS+ `list_directory`: parse the key and
the record body (body failures are *errors*, not skips), convert folder
and file records to entries, drop thread records. -/
def hfsDirParseFn (record_data : List Nat) :
    Except HfsPlusError (Option HfsDirEntry) := do
  let (key, record_offset) ← parse_catalog_key record_data
  if record_offset ≥ record_data.length then return none
  let record ← parse_catalog_record (record_data.drop record_offset)
  match record with
  | .Folder f =>
    pure (some { name := key.node_name, cnid := f.folder_id,
                 kind := .Directory, size := 0,
                 create_date := f.create_date, modify_date := f.content_mod_date })
  | .File f =>
    let kind := if f.permissions.file_mode &&& 0o170000 = 0o120000 then
        EntryKind.Symlink else EntryKind.File
    pure (some { name := key.node_name, cnid := f.file_id, kind,
                 size := f.data_fork.logical_size,
                 create_date := f.create_date, modify_date := f.content_mod_date })
  | .FolderThread _ | .FileThread _ => pure none

/-- The per-node record loop of the HFS+ `list_directory`; the `Bool` result
is `false` when the scan stopped (`match_fn` returned `None`). -/
def hfsListRecords (node : HfsBTreeNode) (parent_cnid : Nat) :
    Nat → Nat → List HfsDirEntry → Except HfsPlusError (List HfsDirEntry × Bool)
  | 0, _, entries => pure (entries, true)
  | remaining + 1, i, entries =>
    if i < node.descriptor.num_records then do
      let record_data ← node.record_data i
      match hfsDirMatchFn parent_cnid record_data with
      | some true => do
        match ← hfsDirParseFn record_data with
        | some entry =>
          hfsListRecords node parent_cnid remaining (i + 1) (entries ++ [entry])
        | none => hfsListRecords node parent_cnid remaining (i + 1) entries
      | some false => hfsListRecords node parent_cnid remaining (i + 1) entries
      | none => pure (entries, false)
    else pure (entries, true)

/-- The leaf-chain loop of the HFS+ `list_directory`, following
`forward_link` until 0 (fuel-bounded; the Rust loop is unbounded on a
cyclic link chain). -/
def hfsListLeaves (disk : List Nat) (btree_header : BTreeHeaderRecord)
    (parent_cnid : Nat) :
    Nat → Nat → List HfsDirEntry → Except HfsPlusError (List HfsDirEntry)
  | _, 0, entries => pure entries
  | 0, _, _ => throw .InvalidBTree
  | fuel + 1, current_node_num, entries => do
    let node ← read_node disk btree_header current_node_num
    if node.descriptor.kind ≠ NODE_KIND_LEAF then
      pure entries
    else
      match ← hfsListRecords node parent_cnid node.descriptor.num_records 0 entries with
      | (entries, true) =>
        hfsListLeaves disk btree_header parent_cnid fuel node.descriptor.forward_link
          entries
      | (entries, false) => pure entries

/-- The index-node loop of `find_leaf_for_parent`: remember the child of the
last record comparing `≤`. -/
def hfsFindLeafStep (node : HfsBTreeNode) (cmp : List Nat → Ordering) :
    Nat → Nat → Option Nat → Except HfsPlusError (Option Nat)
  | 0, _, acc => pure acc
  | remaining + 1, i, acc =>
    if i < node.descriptor.num_records then do
      let record_data ← node.record_data i
      match cmp record_data with
      | .lt | .eq => do
        let child ← extract_index_child record_data
        hfsFindLeafStep node cmp remaining (i + 1) (some child)
      | .gt => pure acc
    else pure acc

/-- `find_leaf_for_parent`: descend to the leaf that would contain the search
key; when every record of an index node compares greater, follow the
first child; 0 when the tree is empty. -/
def find_leaf_for_parent (disk : List Nat) (btree_header : BTreeHeaderRecord)
    (cmp : List Nat → Ordering) :
    Nat → Nat → Except HfsPlusError Nat
  | 0, _ => throw .InvalidBTree
  | fuel + 1, current_node_num => do
    let node ← read_node disk btree_header current_node_num
    if node.descriptor.kind = NODE_KIND_LEAF then
      pure current_node_num
    else if node.descriptor.kind = NODE_KIND_INDEX then do
      match ← hfsFindLeafStep node cmp node.descriptor.num_records 0 none with
      | some child => find_leaf_for_parent disk btree_header cmp fuel child
      | none =>
        if node.descriptor.num_records > 0 then do
          let record_data ← node.record_data 0
          let child ← extract_index_child record_data
          find_leaf_for_parent disk btree_header cmp fuel child
        else pure 0
    else throw .InvalidBTree

/-- The HFS+ `list_directory`: find the starting leaf for `(parent_cnid, "")`
and scan forward across the leaf chain collecting entries of the target
parent. -/
def hfs_list_directory (disk : List Nat) (vol : VolumeHeader)
    (btree_header : BTreeHeaderRecord) (parent_cnid : Nat) (fuel : Nat) :
    Except HfsPlusError (List HfsDirEntry) := do
  let comparator := make_catalog_comparator parent_cnid [] vol.is_hfsx
  if btree_header.root_node = 0 then return []
  let start_node ← find_leaf_for_parent disk btree_header comparator fuel
    btree_header.root_node
  if start_node = 0 then return []
  hfsListLeaves disk btree_header parent_cnid fuel start_node []

/-! ## Fork readers (src/hfsplus/src/extents.rs and src/apfs/src/extents.rs)

`ForkReader` (HFS+) and `ApfsForkReader` are structurally identical —
a flattened `(logical_start, physical_start, length)` extent map, a
logical size, and a position — and are embedded once; their constructors
(`ForkReader::new` from inline HFS+ extents, `ApfsForkReader::new` from
APFS file-extent records) differ and are embedded separately. -/

/-- The streaming fork reader state. -/
structure ForkReader where
  logical_size : Nat
  extent_map : List (Nat × Nat × Nat)
  position : Nat
  deriving DecidableEq, Repr

/-- `logical_to_physical`: first extent containing the logical offset. -/
def logicalToPhysical : List (Nat × Nat × Nat) → Nat → Option Nat
  | [], _ => none
  | (log_start, phys_start, length) :: rest, off =>
    if log_start ≤ off ∧ off < log_start + length then
      some (phys_start + (off - log_start))
    else logicalToPhysical rest off

/-- The second extent walk inside `read`: contiguous bytes remaining in the
extent containing the logical offset (0 when none does). -/
def extentRemaining : List (Nat × Nat × Nat) → Nat → Nat
  | [], _ => 0
  | (log_start, _, length) :: rest, off =>
    if log_start ≤ off ∧ off < log_start + length then
      (log_start + length) - off
    else extentRemaining rest off

/-- The extent-map construction of `ForkReader::new`: inline HFS+ extents,
stopping at the first zero-length one. -/
def buildInlineMap (block_size : Nat) : List ExtentDescriptor → Nat → List (Nat × Nat × Nat)
  | [], _ => []
  | e :: rest, logical_offset =>
    if e.block_count = 0 then []
    else
      (logical_offset, e.start_block * block_size, e.block_count * block_size)
        :: buildInlineMap block_size rest (logical_offset + e.block_count * block_size)

/-- `ForkReader::new`: the streaming view of a fork built from its *inline*
extents only (the doc comment defers overflow extents to a
`with_overflow_extents` constructor that does not exist). -/
def ForkReader.new (fork : ForkData) (block_size : Nat) : ForkReader :=
  { logical_size := fork.logical_size
    extent_map := buildInlineMap block_size fork.extents 0
    position := 0 }

/-- The inner loop of `ForkReader::read`: gather `to_read` bytes starting at
logical `position`, crossing extents as needed; a logical position beyond
the extent map, or a short read of the underlying stream, is an I/O
error (`Except Unit` stands for `std::io::Error`).  The first `Nat` bounds
the number of iterations; every iteration reads at least one byte, so the
caller's bound of `to_read + 1` is never reached. -/
def forkReadLoop (disk : List Nat) (em : List (Nat × Nat × Nat))
    (position to_read : Nat) : Nat → Nat → List Nat → Except Unit (List Nat)
  | 0, _, _ => .error ()
  | fuel + 1, total_read, acc =>
    if total_read < to_read then
      let logical_pos := position + total_read
      match logicalToPhysical em logical_pos with
      | none => .error ()
      | some physical_pos =>
        let chunk_size := min (to_read - total_read) (extentRemaining em logical_pos)
        if physical_pos + chunk_size ≤ disk.length then
          forkReadLoop disk em position to_read fuel (total_read + chunk_size)
            (acc ++ byteSlice disk physical_pos chunk_size)
        else .error ()
    else .ok acc

/-- `ForkReader::read` with a caller buffer of `buflen` bytes: returns the
bytes read (`Ok(0)`, i.e. `[]`, at or past end of stream) and the
advanced reader. -/
def ForkReader.read (disk : List Nat) (fr : ForkReader) (buflen : Nat) :
    Except Unit (List Nat × ForkReader) :=
  if fr.position ≥ fr.logical_size then .ok ([], fr)
  else
    let remaining := fr.logical_size - fr.position
    let to_read := min buflen remaining
    if to_read = 0 then .ok ([], fr)
    else do
      let bytes ← forkReadLoop disk fr.extent_map fr.position to_read (to_read + 1) 0 []
      .ok (bytes, { fr with position := fr.position + to_read })

/-- `ForkReader::seek(SeekFrom::Start(offset))`. -/
def ForkReader.seekStart (fr : ForkReader) (offset : Nat) : ForkReader :=
  { fr with position := offset }

/-! ## HFS+ fork materialisation (src/hfsplus/src/extents.rs) -/

/-- `FORK_TYPE_DATA`. -/
def FORK_TYPE_DATA : Nat := 0x00

/-- The block loop of `read_extent`: copy whole blocks of the extent (the
last one truncated to `remaining`), stopping when `remaining` bytes have
been produced. -/
def readExtentBlocks (disk : List Nat) (extent : ExtentDescriptor)
    (block_size remaining : Nat) :
    Nat → Nat → List Nat → Except HfsPlusError (List Nat)
  | 0, _, acc => pure acc
  | blocks_left + 1, block_idx, acc =>
    if block_idx < extent.block_count then
      if acc.length ≥ remaining then pure acc
      else do
        let offset := extent.start_block * block_size + block_idx * block_size
        let to_read := min block_size (remaining - acc.length)
        let bytes ← hfsReadRange disk offset to_read
        readExtentBlocks disk extent block_size remaining blocks_left (block_idx + 1)
          (acc ++ bytes)
    else pure acc

/-- `read_extent`: bytes of one extent, up to `remaining`. -/
def read_extent (disk : List Nat) (extent : ExtentDescriptor)
    (block_size remaining : Nat) : Except HfsPlusError (List Nat) :=
  readExtentBlocks disk extent block_size remaining extent.block_count 0 []

/-- The `compare_key` closure of `lookup_overflow_extents` over the extents
B-tree key `(key_length, fork_type, pad, file_id, start_block)`. -/
def extentsOverflowCompare (file_id fork_type start_block : Nat)
    (record_data : List Nat) : Ordering :=
  if record_data.length < 12 then .lt
  else
    let rec_fork_type := beNum (byteSlice record_data 2 1)
    let rec_file_id := beNum (byteSlice record_data 4 4)
    let rec_start_block := beNum (byteSlice record_data 8 4)
    match compare rec_file_id file_id with
    | .eq =>
      match compare rec_fork_type fork_type with
      | .eq => compare rec_start_block start_block
      | ord => ord
    | ord => ord

/-- `lookup_overflow_extents`: exact-match search in the extents B-tree; the
found record's value is 8 extent descriptors; no record means no more
overflow extents. -/
def lookup_overflow_extents (disk : List Nat) (extents_btree : BTreeHeaderRecord)
    (file_id fork_type start_block fuel : Nat) :
    Except HfsPlusError (List ExtentDescriptor) := do
  match ← search_btree_root disk extents_btree
      (extentsOverflowCompare file_id fork_type start_block) fuel with
  | some (node, record_idx) => do
    let record_data ← node.record_data record_idx
    let key_length := beNum (record_data.take 2)
    let data_start := 2 + key_length
    if data_start + 64 > record_data.length then throw .InvalidBTree
    pure ((List.range 8).map fun i =>
      parse_extent_descriptor record_data (data_start + i * 8))
  | none => pure []

/-- The inline-extent loop of `read_fork_data`: stop at the first zero-length
extent or once `total` bytes are produced. -/
def readInlineExtents (disk : List Nat) (block_size total : Nat) :
    List ExtentDescriptor → List Nat → Except HfsPlusError (List Nat)
  | [], acc => pure acc
  | extent :: rest, acc =>
    if extent.block_count = 0 ∨ acc.length ≥ total then pure acc
    else do
      let bytes ← read_extent disk extent block_size (total - acc.length)
      readInlineExtents disk block_size total rest (acc ++ bytes)

/-- One batch of up to 8 overflow extents inside the overflow loop of
`read_fork_data`; returns the accumulated bytes and the advanced
`start_block`. -/
def readOverflowBatch (disk : List Nat) (block_size total : Nat) :
    List ExtentDescriptor → Nat → List Nat →
    Except HfsPlusError (List Nat × Nat)
  | [], start_block, acc => pure (acc, start_block)
  | extent :: rest, start_block, acc =>
    if extent.block_count = 0 ∨ acc.length ≥ total then pure (acc, start_block)
    else do
      let bytes ← read_extent disk extent block_size (total - acc.length)
      readOverflowBatch disk block_size total rest (start_block + extent.block_count)
        (acc ++ bytes)

/-- The overflow loop of `read_fork_data` (fuel-bounded: the Rust loop does
not terminate when a batch repeatedly contributes no extent). -/
def overflowLoop (disk : List Nat) (extents_btree : BTreeHeaderRecord)
    (file_id block_size total : Nat) :
    Nat → Nat → List Nat → Except HfsPlusError (List Nat)
  | 0, _, _ => throw .Io
  | fuel + 1, start_block, acc => do
    if acc.length ≥ total then pure acc
    else
      let overflow_extents ← lookup_overflow_extents disk extents_btree file_id
        FORK_TYPE_DATA start_block (fuel + 1)
      if overflow_extents.isEmpty then pure acc
      else do
        let (acc, start_block) ← readOverflowBatch disk block_size total
          overflow_extents start_block acc
        overflowLoop disk extents_btree file_id block_size total fuel start_block acc

/-- `read_fork_data`: inline extents first, then overflow extents looked up
in the extents B-tree keyed by `(file_id, data fork, blocks so far)`;
returns the materialised bytes (the Rust code streams them to a writer
and returns the count). -/
def read_fork_data (disk : List Nat) (vol : VolumeHeader)
    (extents_btree : BTreeHeaderRecord) (fork : ForkData) (file_id fuel : Nat) :
    Except HfsPlusError (List Nat) :=
  if fork.logical_size = 0 then .ok []
  else do
    let acc ← readInlineExtents disk vol.block_size fork.logical_size
      fork.extents []
    if acc.length ≥ fork.logical_size then pure acc
    else
      overflowLoop disk extents_btree file_id vol.block_size fork.logical_size
        fuel ((fork.extents.map (·.block_count)).sum) acc

/-! ## APFS file extents (src/apfs/src/catalog.rs, src/apfs/src/extents.rs) -/

/-- `FileExtentVal` (j_file_extent_val_t). -/
structure FileExtentVal where
  flags_and_length : Nat
  phys_block_num : Nat
  crypto_id : Nat
  deriving DecidableEq, Repr

/-- `FileExtentVal::parse`. -/
def FileExtentVal.parse (data : List Nat) : Except ApfsError FileExtentVal :=
  if data.length < 24 then .error .CorruptedData
  else .ok {
    flags_and_length := leNum (byteSlice data 0 8)
    phys_block_num := leNum (byteSlice data 8 8)
    crypto_id := leNum (byteSlice data 16 8) }

/-- `FileExtentVal::length`: low 56 bits. -/
def FileExtentVal.length (e : FileExtentVal) : Nat :=
  e.flags_and_length &&& 0x00FFFFFFFFFFFFFF

/-- The extent-map construction of `ApfsForkReader::new`: zero-length extents
are skipped (not a stop condition, unlike the HFS+ constructor). -/
def buildApfsMap (block_size : Nat) : List FileExtentVal → Nat → List (Nat × Nat × Nat)
  | [], _ => []
  | e :: rest, logical_offset =>
    let length := e.length
    if length = 0 then buildApfsMap block_size rest logical_offset
    else
      (logical_offset, e.phys_block_num * block_size, length)
        :: buildApfsMap block_size rest (logical_offset + length)

/-- `ApfsForkReader::new`. -/
def ApfsForkReader.new (block_size : Nat) (extents : List FileExtentVal)
    (logical_size : Nat) : ForkReader :=
  { logical_size
    extent_map := buildApfsMap block_size extents 0
    position := 0 }

/-- `read_exact` against the APFS partition stream. -/
def apfsReadRange (disk : List Nat) (off len : Nat) : Except ApfsError (List Nat) :=
  if off + len ≤ disk.length then .ok (byteSlice disk off len) else .error .Io

/-- The chunk loop of `read_file_data` (APFS) within one extent: chunks of at
most `block_size` bytes, bounded by the bytes left in the extent and in
the file.  Fuel-bounded: with `block_size = 0` the Rust loop would not
terminate; every use supplies ample fuel. -/
def apfsExtentChunks (disk : List Nat)
    (block_size phys_start extent_length logical_size : Nat) :
    Nat → Nat → List Nat → Except ApfsError (List Nat)
  | 0, extent_offset, acc =>
    if extent_offset < extent_length ∧ acc.length < logical_size then throw .Io
    else pure acc
  | fuel + 1, extent_offset, acc =>
    if extent_offset < extent_length ∧ acc.length < logical_size then do
      let remaining_in_file := logical_size - acc.length
      let remaining_in_extent := extent_length - extent_offset
      let to_read := min (min remaining_in_file remaining_in_extent) block_size
      let bytes ← apfsReadRange disk (phys_start + extent_offset) to_read
      apfsExtentChunks disk block_size phys_start extent_length logical_size fuel
        (extent_offset + to_read) (acc ++ bytes)
    else pure acc

/-- The extent loop of `read_file_data` (APFS): stop once `logical_size`
bytes have been produced. -/
def apfsReadExtents (disk : List Nat) (block_size logical_size fuel : Nat) :
    List FileExtentVal → List Nat → Except ApfsError (List Nat)
  | [], acc => pure acc
  | extent :: rest, acc =>
    if acc.length ≥ logical_size then pure acc
    else do
      let extent_length := extent.length
      let phys_start := extent.phys_block_num * block_size
      let acc ← apfsExtentChunks disk block_size phys_start extent_length
        logical_size fuel 0 acc
      apfsReadExtents disk block_size logical_size fuel rest acc

/-- `read_file_data` (APFS): materialise a file from its extent records, up
to `logical_size` bytes. -/
def read_file_data (disk : List Nat) (block_size : Nat)
    (extents : List FileExtentVal) (logical_size fuel : Nat) :
    Except ApfsError (List Nat) :=
  if logical_size = 0 then .ok []
  else apfsReadExtents disk block_size logical_size fuel extents []

/-! ## PBZX reader (src/pbzx/src/reader.rs)

The XZ decoder is an external collaborator `(bytes) → Result<bytes>`,
passed as a parameter.  `read_chunk_header` — EOF before the first u64
ends the stream, a short second u64 is an I/O error, `(0, 0)` is the end
marker — is inlined into each reading loop.  `InvalidChunk`'s offset and
message payloads are elided. -/

inductive PbzxError where
  | InvalidMagic
  | Io
  | Decompression
  | InvalidChunk
  deriving DecidableEq, Repr

/-- The `b"pbzx"` magic. -/
def PBZX_MAGIC : List Nat := [0x70, 0x62, 0x7A, 0x78]

/-- `PbzxReader::new`: check the magic, read the big-endian flags word,
return the flags and the remaining chunk stream. -/
def PbzxReader.new (file : List Nat) : Except PbzxError (Nat × List Nat) := do
  if file.length < 4 then throw .Io
  if file.take 4 ≠ PBZX_MAGIC then throw .InvalidMagic
  if file.length < 12 then throw .Io
  pure (beNum (byteSlice file 4 8), file.drop 12)

/-- The chunk loop of `decompress_to`: for each chunk `(u_size, c_size)`
read `c_size` bytes, emit them directly when `c_size == u_size`,
otherwise XZ-decode and check the decoded length.  The first `Nat` bounds
the number of iterations; every iteration consumes at least 16 bytes, so
the caller's bound of `length + 1` is never reached. -/
def pbzxDecompressLoop (xz : List Nat → Except Unit (List Nat)) :
    Nat → List Nat → List Nat → Except PbzxError (List Nat)
  | 0, _, _ => .error .Io
  | fuel + 1, bytes, acc =>
    if bytes.length < 8 then .ok acc
    else
      let u_size := beNum (bytes.take 8)
      let rest := bytes.drop 8
      if rest.length < 8 then .error .Io
      else
        let c_size := beNum (rest.take 8)
        let rest := rest.drop 8
        if u_size = 0 ∧ c_size = 0 then .ok acc
        else if c_size ≤ rest.length then
          let chunk_data := rest.take c_size
          let remaining := rest.drop c_size
          if c_size == u_size then
            pbzxDecompressLoop xz fuel remaining (acc ++ chunk_data)
          else
            match xz chunk_data with
            | .error _ => .error .Decompression
            | .ok decompressed =>
              if decompressed.length ≠ u_size then .error .InvalidChunk
              else pbzxDecompressLoop xz fuel remaining (acc ++ decompressed)
        else .error .Io

/-- `PbzxReader::decompress` (via `decompress_to`): header then chunk loop. -/
def pbzx_decompress (xz : List Nat → Except Unit (List Nat)) (file : List Nat) :
    Except PbzxError (List Nat) := do
  let (_, rest) ← PbzxReader.new file
  pbzxDecompressLoop xz (rest.length + 1) rest []

/-- `read_all_chunks`: collect every chunk's `(u_size, c_size, raw bytes)` in
source order without decoding.  The first `Nat` bounds the iterations in
lockstep with `pbzxDecompressLoop`. -/
def pbzxReadAllChunks :
    Nat → List Nat → List (Nat × Nat × List Nat) →
    Except PbzxError (List (Nat × Nat × List Nat))
  | 0, _, _ => .error .Io
  | fuel + 1, bytes, acc =>
    if bytes.length < 8 then .ok acc
    else
      let u_size := beNum (bytes.take 8)
      let rest := bytes.drop 8
      if rest.length < 8 then .error .Io
      else
        let c_size := beNum (rest.take 8)
        let rest := rest.drop 8
        if u_size = 0 ∧ c_size = 0 then .ok acc
        else if c_size ≤ rest.length then
          pbzxReadAllChunks fuel (rest.drop c_size)
            (acc ++ [(u_size, c_size, rest.take c_size)])
        else .error .Io

/-- `decompress_chunk`: identity for stored chunks, XZ-decode plus length
check otherwise. -/
def pbzx_decompress_chunk (xz : List Nat → Except Unit (List Nat))
    (chunk : Nat × Nat × List Nat) : Except PbzxError (List Nat) :=
  let (u_size, c_size, data) := chunk
  if c_size == u_size then .ok data
  else
    match xz data with
    | .error _ => .error .Decompression
    | .ok decompressed =>
      if decompressed.length ≠ u_size then .error .InvalidChunk
      else .ok decompressed

/-- The concatenation loop of `decompress_parallel`: results joined in chunk
order, the first error propagated (`output.extend_from_slice(&result?)`). -/
def pbzxConcatResults : List (Except PbzxError (List Nat)) → Except PbzxError (List Nat)
  | [] => .ok []
  | r :: rest => do
    let b ← r
    let bs ← pbzxConcatResults rest
    pure (b ++ bs)

/-- `PbzxReader::decompress_parallel`: read all chunks, decode each one
independently, concatenate the results in source order. -/
def pbzx_decompress_parallel (xz : List Nat → Except Unit (List Nat))
    (file : List Nat) : Except PbzxError (List Nat) := do
  let (_, rest) ← PbzxReader.new file
  let chunks ← pbzxReadAllChunks (rest.length + 1) rest []
  pbzxConcatResults (chunks.map (pbzx_decompress_chunk xz))

/-! ## Helper definitions used by the theorems -/

/-- Total logical length of an extent map. -/
def mapTotalLen (em : List (Nat × Nat × Nat)) : Nat :=
  (em.map (fun e => e.2.2)).sum

/-- An extent map whose logical starts are contiguous from `s`, with
positive lengths. -/
def ContiguousFrom : Nat → List (Nat × Nat × Nat) → Prop
  | _, [] => True
  | s, (ls, _, len) :: rest => ls = s ∧ 0 < len ∧ ContiguousFrom (s + len) rest

/-- The bytes of the logical window `[p, p + n)` of a contiguous extent map,
read from the disk; the reference description both `ForkReader::read` and
`read_fork_data` are proved to produce. -/
def mapWindowBytes (disk : List Nat) : List (Nat × Nat × Nat) → Nat → Nat → List Nat
  | [], _, _ => []
  | (ls, ps, len) :: rest, p, n =>
    if n = 0 then []
    else if p < ls + len then
      let k := min n (ls + len - p)
      byteSlice disk (ps + (p - ls)) k ++ mapWindowBytes disk rest (p + k) (n - k)
    else mapWindowBytes disk rest p n

/-- The spec's reading of the OMAP lookup, for comparison with the code's
`omap_lookup`: "among every entry with the target OID, return the mapping
with the highest xid". -/
def omap_lookup_specHighestXid (disk : List Nat)
    (omap_tree_root block_size target_oid fuel : Nat) : Except ApfsError Nat := do
  let entries ← btree_scan disk omap_tree_root block_size OMAP_KEY_SIZE OMAP_VAL_SIZE
    (omapRangeFn target_oid) pure fuel
  let best := entries.foldl (fun best kv =>
    match best with
    | none => some kv
    | some b =>
      if leNum (byteSlice kv.1 8 8) ≥ leNum (byteSlice b.1 8 8) then some kv else some b)
    none
  match best with
  | none => throw .CorruptedData
  | some kv => parse_omap_val kv.2

/-! ## Concrete inputs used by witnesses and counterexamples -/

/-- A mish blob whose offset-36 count is 999 but whose offset-200 count is 2,
followed by two valid 40-byte Raw block runs. -/
def mishExampleRun : List Nat := [0, 0, 0, 1] ++ List.replicate 36 0

def mishExampleBlob : List Nat :=
  MISH_MAGIC ++ List.replicate 32 0 ++ [0, 0, 3, 231] ++ List.replicate 160 0
    ++ [0, 0, 0, 2] ++ mishExampleRun ++ mishExampleRun

/-- The `MishHeader` that `mishExampleBlob` parses to. -/
def mishExampleParsed : MishHeader :=
  { magic := MISH_MAGIC, version := 0, first_sector := 0, sector_count := 0,
    data_offset := 0, buffers_needed := 0, block_descriptor_count := 999,
    reserved := List.replicate 24 0, checksum_type := 0, checksum_size := 0,
    checksum := List.replicate 128 0, actual_block_count := 2,
    block_runs := [
      { block_type := .Raw, comment := 0, sector_number := 0, sector_count := 0,
        compressed_offset := 0, compressed_length := 0 },
      { block_type := .Raw, comment := 0, sector_number := 0, sector_count := 0,
        compressed_offset := 0, compressed_length := 0 }] }

/-- A 256-byte OMAP B-tree root+leaf block (fixed 16/16 KV) holding two
mappings for OID 5: `(xid 1 → paddr 100)` and `(xid 2 → paddr 200)`. -/
def omapTwoXidBlock : List Nat :=
  List.replicate 32 0
  ++ [7, 0, 0, 0, 2, 0, 0, 0, 0, 0, 16, 0] ++ List.replicate 12 0
  ++ [0, 0, 32, 0, 16, 0, 16, 0]
  ++ List.replicate 8 0
  ++ [5, 0, 0, 0, 0, 0, 0, 0] ++ [1, 0, 0, 0, 0, 0, 0, 0]
  ++ [5, 0, 0, 0, 0, 0, 0, 0] ++ [2, 0, 0, 0, 0, 0, 0, 0]
  ++ List.replicate 80 0
  ++ List.replicate 8 0 ++ [100, 0, 0, 0, 0, 0, 0, 0]
  ++ List.replicate 8 0 ++ [200, 0, 0, 0, 0, 0, 0, 0]
  ++ [0, 0, 0, 0] ++ [0, 1, 0, 0] ++ [16, 0, 0, 0] ++ [16, 0, 0, 0]
  ++ List.replicate 24 0

/-- A 256-byte OMAP B-tree root+leaf block holding one mapping
`OID 7 (xid 1) → paddr 42`, with an all-zero (hence invalid) stored
checksum. -/
def apfsUnverifiedLeaf : List Nat :=
  List.replicate 32 0
  ++ [7, 0, 0, 0, 1, 0, 0, 0, 0, 0, 16, 0] ++ List.replicate 12 0
  ++ [0, 0, 16, 0] ++ List.replicate 12 0
  ++ [7, 0, 0, 0, 0, 0, 0, 0] ++ [1, 0, 0, 0, 0, 0, 0, 0]
  ++ List.replicate 112 0
  ++ List.replicate 8 0 ++ [42, 0, 0, 0, 0, 0, 0, 0]
  ++ [0, 0, 0, 0] ++ [0, 1, 0, 0] ++ [16, 0, 0, 0] ++ [16, 0, 0, 0]
  ++ List.replicate 24 0

/-- An all-zero mish block map with a given sector count. -/
def mkMish (sector_count : Nat) : MishHeader :=
  { magic := MISH_MAGIC, version := 1, first_sector := 0, sector_count,
    data_offset := 0, buffers_needed := 0, block_descriptor_count := 0,
    reserved := List.replicate 24 0, checksum_type := 0, checksum_size := 0,
    checksum := List.replicate 128 0, actual_block_count := 0, block_runs := [] }

/-- A partition table with a 10-sector HFS+ partition (id 1) and a 20-sector
APFS partition (id 2). -/
def mixedPartitionTable : List PartitionEntry :=
  [{ name := "Apple_HFS".toList, id := 1, attributes := 0, block_map := mkMish 10 },
   { name := "Apple_APFS".toList, id := 2, attributes := 0, block_map := mkMish 20 }]

/-- A 512-byte DMG consisting of the koly trailer alone: zero plist, zero
checksums. -/
def kolyZeroFile : List Nat := KOLY_MAGIC ++ List.replicate 508 0

/-- A DMG whose data fork is the 4 bytes `[1,2,3,4]` at offset 0, with a
correct stored data-fork CRC32 (type 2), an empty plist and no master
checksum. -/
def dmgCrcFile : List Nat :=
  [1, 2, 3, 4]
  ++ KOLY_MAGIC ++ List.replicate 20 0
  ++ List.replicate 8 0
  ++ u64ToBeBytes 4
  ++ List.replicate 40 0
  ++ [0, 0, 0, 2]
  ++ List.replicate 4 0
  ++ u32ToBeBytes (crc32 [1, 2, 3, 4]) ++ List.replicate 124 0
  ++ List.replicate 296 0

/-- A trivial plist collaborator: no partitions. -/
def emptyPlistDecoder : PlistDecoder := fun _ => .ok []

/-- The 128-byte extents-overflow B-tree leaf of the streaming-reader
counterexample: one record keyed `(file 99, data fork, start block 8)`
whose value holds the extent `(start 24, count 1)`. -/
def overflowLeafNode : List Nat :=
  List.replicate 8 0 ++ [0xFF, 1] ++ [0, 1] ++ [0, 0]
  ++ [0, 10] ++ [0, 0] ++ [0, 0, 0, 99] ++ [0, 0, 0, 8]
  ++ [0, 0, 0, 24, 0, 0, 0, 1] ++ List.replicate 56 0
  ++ List.replicate 34 0
  ++ [0, 90] ++ [0, 14]

/-- The partition of the streaming-reader counterexample (block size 16):
block 0 unused, block-range 8..16 is the extents B-tree leaf (node 1 of a
128-byte-node tree), blocks 16..25 hold the 144 file bytes `0,1,…,143`. -/
def overflowDisk : List Nat :=
  List.replicate 128 0 ++ overflowLeafNode ++ (List.range 144).map (· % 256)

def overflowVol : VolumeHeader := { is_hfsx := true, block_size := 16 }

/-- The extents B-tree header of the counterexample: 128-byte nodes, root is
leaf node 1, the tree file occupies blocks 0..16 of the partition. -/
def overflowEbh : BTreeHeaderRecord :=
  { tree_depth := 1, root_node := 1, leaf_records := 1, first_leaf_node := 1,
    last_leaf_node := 1, node_size := 128, max_key_length := 10, total_nodes := 2,
    free_nodes := 0, key_compare_type := 0,
    fork := { logical_size := 256, clump_size := 0, total_blocks := 16,
              extents := [{ start_block := 0, block_count := 16 }] },
    block_size := 16 }

/-- A 144-byte file (id 99) whose 8 inline one-block extents cover only the
first 128 bytes; the ninth block comes from the overflow record. -/
def overflowFork : ForkData :=
  { logical_size := 144, clump_size := 0, total_blocks := 9,
    extents := [
      { start_block := 16, block_count := 1 }, { start_block := 17, block_count := 1 },
      { start_block := 18, block_count := 1 }, { start_block := 19, block_count := 1 },
      { start_block := 20, block_count := 1 }, { start_block := 21, block_count := 1 },
      { start_block := 22, block_count := 1 }, { start_block := 23, block_count := 1 }] }

/-- The 128-byte catalog leaf of the listing counterexample: record 0 is a
well-formed folder `A` (CNID 77, parent 2); record 1 has a well-formed
key (parent 2, name `B`) but a record body of unknown type `0x0005`. -/
def badBodyLeafNode : List Nat :=
  List.replicate 8 0 ++ [0xFF, 1] ++ [0, 2] ++ [0, 0]
  ++ [0, 8] ++ [0, 0, 0, 2] ++ [0, 1] ++ [0, 65]
  ++ [0, 1] ++ [0, 0] ++ [0, 0, 0, 0] ++ [0, 0, 0, 77] ++ List.replicate 72 0
  ++ [0, 8] ++ [0, 0, 0, 2] ++ [0, 1] ++ [0, 66]
  ++ [0, 5]
  ++ List.replicate 2 0
  ++ [0, 120] ++ [0, 108] ++ [0, 14]

/-- The same leaf with only the well-formed record. -/
def goodOnlyLeafNode : List Nat :=
  List.replicate 8 0 ++ [0xFF, 1] ++ [0, 1] ++ [0, 0]
  ++ [0, 8] ++ [0, 0, 0, 2] ++ [0, 1] ++ [0, 65]
  ++ [0, 1] ++ [0, 0] ++ [0, 0, 0, 0] ++ [0, 0, 0, 77] ++ List.replicate 72 0
  ++ List.replicate 16 0
  ++ [0, 108] ++ [0, 14]

def badBodyDisk : List Nat := List.replicate 128 0 ++ badBodyLeafNode
def goodOnlyDisk : List Nat := List.replicate 128 0 ++ goodOnlyLeafNode

def hfsListVol : VolumeHeader := { is_hfsx := true, block_size := 16 }

/-- The catalog B-tree header of the listing counterexample. -/
def hfsListCbh : BTreeHeaderRecord :=
  { tree_depth := 1, root_node := 1, leaf_records := 2, first_leaf_node := 1,
    last_leaf_node := 1, node_size := 128, max_key_length := 8, total_nodes := 2,
    free_nodes := 0, key_compare_type := 0,
    fork := { logical_size := 256, clump_size := 0, total_blocks := 16,
              extents := [{ start_block := 0, block_count := 16 }] },
    block_size := 16 }

/-- The well-formed entry of the listing counterexample. -/
def goodFolderEntry : HfsDirEntry :=
  { name := [65], cnid := 77, kind := .Directory, size := 0,
    create_date := 0, modify_date := 0 }

/-- A 256-byte APFS catalog root+leaf (variable KV) with two directory
records under parent OID 2: entry 0 is well-formed (`a` → file 42,
DT_REG); entry 1 has a well-formed key but a 2-byte (malformed) value. -/
def apfsCatalogLeaf : List Nat :=
  List.replicate 32 0
  ++ [3, 0, 0, 0, 2, 0, 0, 0, 0, 0, 16, 0] ++ List.replicate 12 0
  ++ [0, 0, 14, 0, 18, 0, 18, 0]
  ++ [14, 0, 14, 0, 36, 0, 2, 0]
  ++ [2, 0, 0, 0, 0, 0, 0, 144] ++ [2, 0, 0, 0] ++ [97, 0]
  ++ [2, 0, 0, 0, 0, 0, 0, 144] ++ [2, 0, 0, 0] ++ [98, 0]
  ++ List.replicate 80 0
  ++ [9, 9]
  ++ List.replicate 16 0
  ++ [42, 0, 0, 0, 0, 0, 0, 0] ++ List.replicate 8 0 ++ [8, 0]
  ++ [0, 0, 0, 0] ++ [0, 1, 0, 0] ++ [0, 0, 0, 0] ++ [0, 0, 0, 0]
  ++ List.replicate 24 0

/-- The node of the listing counterexample as a parsed value, used to
exercise the record-loop lemmas directly. -/
def badBodyParsedNode : HfsBTreeNode :=
  { descriptor := { forward_link := 0, backward_link := 0, kind := 0xFF,
                    height := 1, num_records := 2, reserved := 0 },
    data := badBodyLeafNode,
    record_offsets := [14, 108, 120] }

/-- A one-record node whose record bytes `[0,1,0,2]` are too short to be a
catalog key, exercising the key-skip branch of the record loop. -/
def badKeyParsedNode : HfsBTreeNode :=
  { descriptor := { forward_link := 0, backward_link := 0, kind := 0xFF,
                    height := 1, num_records := 1, reserved := 0 },
    data := List.replicate 14 0 ++ [0, 1, 0, 2],
    record_offsets := [14, 18] }

/-- The malformed APFS directory record of `apfsCatalogLeaf`: a well-formed
key (parent 2, name `b`) with a 2-byte value. -/
def badDrecKv : List Nat × List Nat :=
  ([2, 0, 0, 0, 0, 0, 0, 144, 2, 0, 0, 0, 98, 0], [9, 9])

/-- The well-formed APFS directory record of `apfsCatalogLeaf`: key
(parent 2, name `a`), value (file 42, `DT_REG`). -/
def goodDrecKv : List Nat × List Nat :=
  ([2, 0, 0, 0, 0, 0, 0, 144, 2, 0, 0, 0, 97, 0],
   [42, 0, 0, 0, 0, 0, 0, 0] ++ List.replicate 8 0 ++ [8, 0])

/-- An arbitrary total XZ collaborator used by the PBZX witness: decoding
duplicates the input. -/
def dupXz : List Nat → Except Unit (List Nat) := fun l => .ok (l ++ l)

/-- An XZ collaborator that always fails, for the error-propagation witness. -/
def failXz : List Nat → Except Unit (List Nat) := fun _ => .error ()

/-- A PBZX archive with one XZ chunk (`u=4, c=2`, bytes `[7,8]`) and one
stored chunk (`u=c=3`, bytes `[1,2,3]`). -/
def pbzxExampleFile : List Nat :=
  PBZX_MAGIC ++ u64ToBeBytes 1
  ++ u64ToBeBytes 4 ++ u64ToBeBytes 2 ++ [7, 8]
  ++ u64ToBeBytes 3 ++ u64ToBeBytes 3 ++ [1, 2, 3]

/-- Codecs that decode everything to nothing, for the decompression witness. -/
def nullCodecs : BlockCodecs :=
  { zlib := fun _ => .ok [], bzip2 := fun _ => .ok [], lzfse := fun _ _ => .ok [] }

/-- An all-zero koly header value (data fork at offset 0). -/
def mkKolyZero : KolyHeader :=
  { magic := KOLY_MAGIC, version := 0, header_size := 0, flags := 0,
    running_data_fork_offset := 0, data_fork_offset := 0, data_fork_length := 0,
    rsrc_fork_offset := 0, rsrc_fork_length := 0, segment_number := 0,
    segment_count := 0, segment_id := List.replicate 16 0,
    data_checksum_type := 0, data_checksum_size := 0,
    data_checksum := List.replicate 128 0, plist_offset := 0, plist_length := 0,
    reserved := List.replicate 64 0, master_checksum_type := 0,
    master_checksum_size := 0, master_checksum := List.replicate 128 0,
    image_variant := 0, sector_count := 0 }

/-- A two-run block map (zero-fill sector 0, raw sector 1 with 2 stored
bytes) satisfying the block-map invariants. -/
def twoRunMish : MishHeader :=
  { mkMish 2 with
    actual_block_count := 2
    block_runs := [
      { block_type := .ZeroFill, comment := 0, sector_number := 0, sector_count := 1,
        compressed_offset := 0, compressed_length := 0 },
      { block_type := .Raw, comment := 0, sector_number := 1, sector_count := 1,
        compressed_offset := 0, compressed_length := 2 }] }

def twoRunPartitionTable : List PartitionEntry :=
  [{ name := "Apple_HFS".toList, id := 1, attributes := 0, block_map := twoRunMish }]

/-- The koly header that `dmgCrcFile` parses to. -/
def dmgCrcKoly : KolyHeader :=
  { magic := KOLY_MAGIC, version := 0, header_size := 0, flags := 0,
    running_data_fork_offset := 0, data_fork_offset := 0, data_fork_length := 4,
    rsrc_fork_offset := 0, rsrc_fork_length := 0, segment_number := 0,
    segment_count := 0, segment_id := List.replicate 16 0,
    data_checksum_type := 2, data_checksum_size := 0,
    data_checksum := u32ToBeBytes (crc32 [1, 2, 3, 4]) ++ List.replicate 124 0,
    plist_offset := 0, plist_length := 0, reserved := List.replicate 64 0,
    master_checksum_type := 0, master_checksum_size := 0,
    master_checksum := List.replicate 128 0, image_variant := 0,
    sector_count := 0 }

/-- The reader state that opening `dmgCrcFile` produces. -/
def dmgCrcReader : DmgReader := { koly := dmgCrcKoly, partitions := [] }

/-- A 32-byte partition with one two-block extent covering a 20-byte file. -/
def simpleDisk : List Nat := (List.range 32).map (· % 256)

def simpleVol : VolumeHeader := { is_hfsx := true, block_size := 16 }

def simpleFork : ForkData :=
  { logical_size := 20, clump_size := 0, total_blocks := 2,
    extents := [{ start_block := 0, block_count := 2 }] }

/-- A single APFS extent record: 32 bytes at physical offset 0. -/
def simpleApfsExtents : List FileExtentVal :=
  [{ flags_and_length := 32, phys_block_num := 0, crypto_id := 0 }]

/-! # Theorems

Helper lemmas first, then one theorem per claim (with witness or
counterexample theorems as required). -/

/-! ## Generic helper lemmas -/

theorem except_throw_eq {ε α : Type} (e : ε) :
    (throw e : Except ε α) = .error e := rfl

theorem except_bind_ok {ε α β : Type} {e : Except ε α} {f : α → Except ε β} {b : β} :
    (e >>= f) = .ok b ↔ ∃ a, e = .ok a ∧ f a = .ok b := by
  cases e <;> simp [Bind.bind, Except.bind]

theorem except_map_ok {ε α β : Type} {e : Except ε α} {f : α → β} {b : β} :
    (f <$> e) = .ok b ↔ ∃ a, e = .ok a ∧ f a = b := by
  cases e <;> simp [Functor.map, Except.map]

theorem except_pure_eq {ε α : Type} (a : α) :
    (pure a : Except ε α) = .ok a := rfl

theorem except_ok_bind {ε α β : Type} (a : α) (f : α → Except ε β) :
    (Except.ok a >>= f) = f a := rfl

theorem except_error_bind {ε α β : Type} (e : ε) (f : α → Except ε β) :
    (Except.error e >>= f) = .error e := rfl

theorem parseBlockRuns_length (data : List Nat) :
    ∀ (count pos : Nat) (runs : List BlockRun),
      parseBlockRuns data count pos = .ok runs → runs.length = count := by
  intro count
  induction count with
  | zero =>
    intro pos runs h
    simp [parseBlockRuns, pure, Except.pure] at h
    simp [← h]
  | succ n ih =>
    intro pos runs h
    simp only [parseBlockRuns] at h
    split at h
    · rw [show (do
          let r ← BlockRun.from_bytes (byteSlice data pos 40)
          let rs ← parseBlockRuns data n (pos + 40)
          pure (r :: rs) : Except DppError (List BlockRun)) =
          (BlockRun.from_bytes (byteSlice data pos 40) >>= fun r =>
            parseBlockRuns data n (pos + 40) >>= fun rs => pure (r :: rs)) from rfl] at h
      rw [except_bind_ok] at h
      obtain ⟨r, _, h⟩ := h
      rw [except_bind_ok] at h
      obtain ⟨rs, hrest, h⟩ := h
      rw [except_pure_eq] at h
      cases h
      have := ih (pos + 40) rs hrest
      simp [this]
    · cases h

/-! ## C4 — mish run count comes from offset 200 -/

/-- C4: Mish block-map parsing takes the number of 40-byte block runs from
the u32 at offset 200 of the 204-byte mish header, never from the u32 at
offset 36: for every mish blob that parses, the run list has exactly as
many elements as the offset-200 count, while the offset-36 field is kept
separately as `block_descriptor_count`. -/
theorem mish_run_count_from_offset_200 (data : List Nat) (m : MishHeader)
    (h : MishHeader.from_bytes data = .ok m) :
    m.block_runs.length = m.actual_block_count ∧
    readBE data 200 4 = some m.actual_block_count ∧
    m.block_descriptor_count = beNum (byteSlice data 36 4) := by
  unfold MishHeader.from_bytes at h
  split at h
  · cases h
  split at h
  · cases h
  next hlen _ =>
  rw [except_bind_ok] at h
  obtain ⟨runs, hruns, h⟩ := h
  rw [except_pure_eq] at h
  cases h
  refine ⟨parseBlockRuns_length data _ 204 runs hruns, ?_, rfl⟩
  simp only [readBE]
  rw [if_pos (by omega)]
  rfl

set_option maxRecDepth 10000 in
/-- C4 witness: a blob whose offset-36 field is 999 and whose offset-200
count is 2 parses to exactly 2 block runs. -/
theorem mish_run_count_witness :
    MishHeader.from_bytes mishExampleBlob = .ok mishExampleParsed ∧
    mishExampleParsed.block_runs.length = 2 ∧
    mishExampleParsed.block_descriptor_count = 999 ∧
    readBE mishExampleBlob 200 4 = some 2 := by
  have h : MishHeader.from_bytes mishExampleBlob = .ok mishExampleParsed := by decide
  have hm := mish_run_count_from_offset_200 mishExampleBlob mishExampleParsed h
  refine ⟨h, ?_, by decide, ?_⟩
  · rw [hm.1]; decide
  · rw [hm.2.1]; decide

/-! ## C8 — main/HFS partition selection -/

theorem maxByKeyLast_foldl_spec {α : Type} (key : α → Nat) :
    ∀ (l : List α) (acc : Option α) (x : α),
      List.foldl (fun acc x =>
        match acc with
        | none => some x
        | some b => if key x ≥ key b then some x else some b) acc l = some x →
      (x ∈ l ∨ acc = some x) ∧ (∀ y ∈ l, key y ≤ key x) ∧
        (∀ a, acc = some a → key a ≤ key x) := by
  intro l
  induction l with
  | nil => intro acc x h; simp at h; simp [h]
  | cons hd tl ih =>
    intro acc x h
    simp only [List.foldl_cons] at h
    have step : ∀ (acc : Option α),
        (match acc with
         | none => some hd
         | some b => if key hd ≥ key b then some hd else some b) = some hd ∨
        ((match acc with
          | none => some hd
          | some b => if key hd ≥ key b then some hd else some b) = acc ∧
          ∃ b, acc = some b ∧ key hd ≤ key b) := by
      intro acc
      match acc with
      | none => left; rfl
      | some b =>
        by_cases hk : key hd ≥ key b
        · left; simp [hk]
        · right; simp [hk]; omega
    rcases step acc with hs | ⟨hs, b, hb, hkb⟩
    · rw [hs] at h
      have := ih (some hd) x h
      rcases this with ⟨hmem, hall, hacc⟩
      refine ⟨?_, ?_, ?_⟩
      · rcases hmem with hmem | hmem
        · left; exact List.mem_cons_of_mem hd hmem
        · left; simp at hmem; simp [hmem]
      · intro y hy
        rcases List.mem_cons.mp hy with hy | hy
        · subst hy; exact hacc y rfl
        · exact hall y hy
      · intro a ha
        rw [ha] at hs
        have hx : key hd ≤ key x := hacc hd rfl
        by_cases hbh : key hd ≥ key a
        · omega
        · simp only [ge_iff_le, if_neg (by omega : ¬ key a ≤ key hd),
            Option.some.injEq] at hs
          rw [hs]; exact hx
    · rw [hs] at h
      have := ih acc x h
      rcases this with ⟨hmem, hall, hacc⟩
      have hbx : key b ≤ key x := hacc b hb
      refine ⟨?_, ?_, hacc⟩
      · rcases hmem with hmem | hmem
        · left; exact List.mem_cons_of_mem hd hmem
        · right; exact hmem
      · intro y hy
        rcases List.mem_cons.mp hy with hy | hy
        · subst hy; omega
        · exact hall y hy

theorem maxByKeyLast_spec {α : Type} (key : α → Nat) (l : List α) (x : α)
    (h : maxByKeyLast key l = some x) :
    x ∈ l ∧ ∀ y ∈ l, key y ≤ key x := by
  have := maxByKeyLast_foldl_spec key l none x h
  rcases this with ⟨hmem, hall, _⟩
  rcases hmem with hmem | hmem
  · exact ⟨hmem, hall⟩
  · cases hmem

theorem maxByKeyLast_none {α : Type} (key : α → Nat) (l : List α)
    (h : maxByKeyLast key l = none) : l = [] := by
  cases l with
  | nil => rfl
  | cons hd tl =>
    exfalso
    have : ∀ (t : List α) (b : α), List.foldl (fun acc x =>
        match acc with
        | none => some x
        | some b => if key x ≥ key b then some x else some b) (some b) t ≠ none := by
      intro t
      induction t with
      | nil => intro b h; cases h
      | cons h2 t2 ih =>
        intro b h
        simp only [List.foldl_cons] at h
        by_cases hk : key h2 ≥ key b
        · exact ih h2 (by simpa [hk] using h)
        · exact ih b (by simpa [hk] using h)
    exact this tl hd (by simpa [maxByKeyLast] using h)

/-- C8 counterexample: a DMG with an `Apple_HFS` partition (id 1, 10
sectors) and a larger `Apple_APFS` partition (id 2, 20 sectors).  The
claim says `main_partition_id` prefers HFS/HFSX over APFS; the code
returns the APFS partition (id 2) because the filter lumps HFS and APFS
together and keeps only the largest. -/
theorem main_partition_id_no_hfs_preference :
    main_partition_id mixedPartitionTable = .ok 2 ∧
    (mixedPartitionTable.map fun p => (p.id, isHfsPartitionName p.name))
      = [(1, true), (2, false)] := by
  constructor <;> decide

/-- C8 (amended): `main_partition_id` returns the id of the largest (by
sector count) partition among those whose names contain `Apple_HFS`,
`Apple_HFSX` or `Apple_APFS` — with no preference of HFS over APFS — and
falls back to the largest partition overall only when that filter is
empty; `hfs_partition_id` returns only an HFS/HFSX-named partition and
fails with `FileNotFound` when none exists. -/
theorem partition_selection_amended :
    (∀ (partitions : List PartitionEntry) (r : Int),
      main_partition_id partitions = .ok r →
      (∃ q ∈ partitions.filter (fun p => isMainPartitionName p.name), q.id = r ∧
        ∀ q' ∈ partitions.filter (fun p => isMainPartitionName p.name),
          q'.block_map.sector_count ≤ q.block_map.sector_count) ∨
      (partitions.filter (fun p => isMainPartitionName p.name) = [] ∧
        ∃ q ∈ partitions, q.id = r ∧
          ∀ q' ∈ partitions, q'.block_map.sector_count ≤ q.block_map.sector_count)) ∧
    (∀ (partitions : List PartitionEntry) (r : Int),
      hfs_partition_id partitions = .ok r →
      ∃ q ∈ partitions, isHfsPartitionName q.name ∧ q.id = r ∧
        ∀ q' ∈ partitions.filter (fun p => isHfsPartitionName p.name),
          q'.block_map.sector_count ≤ q.block_map.sector_count) ∧
    (∀ partitions : List PartitionEntry,
      (∀ p ∈ partitions, isHfsPartitionName p.name = false) →
      hfs_partition_id partitions = .error .FileNotFound) := by
  refine ⟨?_, ?_, ?_⟩
  · intro partitions r h
    unfold main_partition_id at h
    cases hf : maxByKeyLast (fun p => p.block_map.sector_count)
        (partitions.filter fun p => isMainPartitionName p.name) with
    | some q =>
      rw [hf] at h
      cases h
      obtain ⟨hmem, hall⟩ := maxByKeyLast_spec _ _ _ hf
      exact Or.inl ⟨q, hmem, rfl, hall⟩
    | none =>
      rw [hf] at h
      have hempty := maxByKeyLast_none _ _ hf
      cases hg : maxByKeyLast (fun p => p.block_map.sector_count) partitions with
      | some q =>
        rw [hg] at h
        cases h
        obtain ⟨hmem, hall⟩ := maxByKeyLast_spec _ _ _ hg
        exact Or.inr ⟨hempty, q, hmem, rfl, hall⟩
      | none => rw [hg] at h; cases h
  · intro partitions r h
    unfold hfs_partition_id at h
    cases hf : maxByKeyLast (fun p => p.block_map.sector_count)
        (partitions.filter fun p => isHfsPartitionName p.name) with
    | some q =>
      rw [hf] at h
      cases h
      obtain ⟨hmem, hall⟩ := maxByKeyLast_spec _ _ _ hf
      rw [List.mem_filter] at hmem
      exact ⟨q, hmem.1, hmem.2, rfl, hall⟩
    | none => rw [hf] at h; cases h
  · intro partitions hnone
    unfold hfs_partition_id
    have : partitions.filter (fun p => isHfsPartitionName p.name) = [] := by
      rw [List.filter_eq_nil_iff]
      intro p hp
      simp [hnone p hp]
    rw [this]
    rfl

/-- C8 amended witness: on the mixed table, the main id is the largest
filtered partition's id and the HFS id names an HFS partition; on an
APFS-only table, `hfs_partition_id` fails with `FileNotFound`. -/
theorem partition_selection_amended_witness :
    hfs_partition_id (mixedPartitionTable.filter fun p => !isHfsPartitionName p.name)
      = .error DppError.FileNotFound := by
  apply partition_selection_amended.2.2
  decide

/-! ## C5 — OMAP lookup and xid selection -/

set_option maxRecDepth 40000 in
/-- C5 counterexample: an OMAP leaf with two mappings for OID 5 —
`(xid 1 → paddr 100)` and `(xid 2 → paddr 200)`.  The claim says
`omap_lookup` returns the paddr of the highest-xid mapping (200); the
code's direct lookup returns the first `Equal` leaf record, the lowest
xid, so it returns 100. -/
theorem omap_lookup_not_highest_xid :
    omap_lookup omapTwoXidBlock 0 256 5 2 = .ok 100 ∧
    omap_lookup_specHighestXid omapTwoXidBlock 0 256 5 2 = .ok 200 := by
  constructor <;> decide

/-- C5 (amended): `omap_lookup` first attempts a direct `btree_lookup`
comparing by OID only, and when that finds a record — the *first* leaf
record with the target OID in scan order, which for keys sorted by
`(oid, xid)` is the mapping with the *lowest* xid — it returns that
record's paddr.  Only when the direct lookup finds nothing does the
fallback range scan select the mapping with the highest xid. -/
theorem omap_lookup_direct_first_match :
    (∀ (disk : List Nat) (root bs target fuel : Nat) (val : List Nat),
      btree_lookup disk root bs OMAP_KEY_SIZE OMAP_VAL_SIZE (omapCompare target)
        pure fuel = .ok (some val) →
      omap_lookup disk root bs target fuel = parse_omap_val val) ∧
    (∀ (disk : List Nat) (root bs target fuel : Nat)
        (entries : List (List Nat × List Nat)) (best : Nat × Nat),
      btree_lookup disk root bs OMAP_KEY_SIZE OMAP_VAL_SIZE (omapCompare target)
        pure fuel = .ok none →
      btree_scan disk root bs OMAP_KEY_SIZE OMAP_VAL_SIZE (omapRangeFn target)
        pure fuel = .ok entries →
      entries ≠ [] → omapBestXid entries = .ok best → best.2 ≠ 0 →
      omap_lookup disk root bs target fuel = .ok best.2) := by
  constructor
  · intro disk root bs target fuel val h
    unfold omap_lookup
    rw [h]
    rfl
  · intro disk root bs target fuel entries best hlook hscan hne hbest hnz
    unfold omap_lookup
    rw [hlook]
    show (btree_scan disk root bs OMAP_KEY_SIZE OMAP_VAL_SIZE (omapRangeFn target)
        pure fuel >>= fun entries =>
      if entries.isEmpty then .error .CorruptedData
      else omapBestXid entries >>= fun best =>
        if best.2 = 0 then .error .CorruptedData else .ok best.2) = .ok best.2
    rw [hscan]
    show (if entries.isEmpty then (.error .CorruptedData : Except ApfsError Nat)
      else omapBestXid entries >>= fun best =>
        if best.2 = 0 then .error .CorruptedData else .ok best.2) = .ok best.2
    rw [if_neg (by simpa [List.isEmpty_iff] using hne)]
    rw [hbest]
    show (if best.2 = 0 then (.error .CorruptedData : Except ApfsError Nat)
      else .ok best.2) = .ok best.2
    rw [if_neg hnz]

set_option maxRecDepth 40000 in
/-- C5 amended witness: on the two-xid OMAP leaf the direct lookup finds the
xid-1 record, so `omap_lookup` returns that record's paddr. -/
theorem omap_lookup_direct_first_match_witness :
    omap_lookup omapTwoXidBlock 0 256 5 2
      = parse_omap_val (List.replicate 8 0 ++ [100, 0, 0, 0, 0, 0, 0, 0]) := by
  apply omap_lookup_direct_first_match.1
  decide

/-! ## C2 — which APFS loads verify the Fletcher-64 checksum -/

set_option maxRecDepth 40000 in
/-- C2 counterexample: a B-tree block whose stored checksum (zero) does not
match its Fletcher-64 value is nevertheless loaded successfully by the
OMAP/B-tree path — `omap_lookup` resolves OID 7 through it and returns
paddr 42 — because `btree_lookup` reads nodes with `read_block`, which
performs no checksum verification. -/
theorem apfs_btree_load_skips_checksum :
    verify_object apfsUnverifiedLeaf = false ∧
    omap_lookup apfsUnverifiedLeaf 0 256 7 2 = .ok 42 := by
  constructor <;> decide

/-- C2 (amended): only `read_object` verifies the Fletcher-64 checksum —
failing with `InvalidChecksum` whenever the stored u64 at bytes 0..8
differs from the computed value over bytes 8.. — while B-tree nodes,
OMAP structures and the volume superblock are loaded through
`read_block`, which returns the raw bytes unverified. -/
theorem read_object_checksum_behaviour (disk : List Nat) (bn bs : Nat)
    (bytes : List Nat) (h : read_block disk bn bs = .ok bytes) :
    (verify_object bytes = false →
      read_object disk bn bs = .error .InvalidChecksum) ∧
    (verify_object bytes = true →
      read_object disk bn bs
        = (ObjectHeader.parse bytes >>= fun hd => .ok (hd, bytes))) := by
  constructor
  · intro hv
    unfold read_object
    rw [h]
    show (if !(verify_object bytes) then (.error .InvalidChecksum :
        Except ApfsError (ObjectHeader × List Nat))
      else ObjectHeader.parse bytes >>= fun header => pure (header, bytes)) = _
    rw [hv]
    rfl
  · intro hv
    unfold read_object
    rw [h]
    show (if !(verify_object bytes) then (.error .InvalidChecksum :
        Except ApfsError (ObjectHeader × List Nat))
      else ObjectHeader.parse bytes >>= fun header => pure (header, bytes)) = _
    rw [hv]
    rfl

set_option maxRecDepth 40000 in
/-- C2 amended witness: `read_object` on the checksum-invalid block fails
with `InvalidChecksum` (while `read_block` — and hence the B-tree load
in the counterexample — succeeds). -/
theorem read_object_checksum_behaviour_witness :
    read_object apfsUnverifiedLeaf 0 256 = .error ApfsError.InvalidChecksum := by
  apply (read_object_checksum_behaviour apfsUnverifiedLeaf 0 256 apfsUnverifiedLeaf
    (by decide)).1
  decide

/-! ## C9 — directory-listing fault tolerance -/

set_option maxRecDepth 40000 in
/-- C9 counterexample: in the two-record HFS+ catalog leaf, record 1 has a
well-formed key but a record body of unknown type; `list_directory`
aborts with `InvalidBTree` instead of omitting that record, while the
same listing without the malformed record returns the well-formed
sibling. -/
theorem hfs_listing_aborts_on_bad_record_body :
    hfs_list_directory badBodyDisk hfsListVol hfsListCbh 2 4
      = .error HfsPlusError.InvalidBTree ∧
    hfs_list_directory goodOnlyDisk hfsListVol hfsListCbh 2 4
      = .ok [goodFolderEntry] := by
  constructor <;> decide

/-- C9 (amended): listing fault tolerance depends on the filesystem and on
which part of the record is malformed.  HFS+ `list_directory` skips a
record whose *key* fails to parse, but a matching record whose *body*
fails to parse aborts the whole listing with that error.  APFS
`list_directory` skips an entry whose name or whose directory-record
value fails to parse and keeps the remaining entries. -/
theorem directory_listing_fault_tolerance :
    (∀ (node : HfsBTreeNode) (parent remaining i : Nat)
        (entries : List HfsDirEntry) (rd : List Nat) (err : HfsPlusError),
      i < node.descriptor.num_records →
      node.record_data i = .ok rd →
      parse_catalog_key rd = .error err →
      hfsListRecords node parent (remaining + 1) i entries
        = hfsListRecords node parent remaining (i + 1) entries) ∧
    (∀ (node : HfsBTreeNode) (parent remaining i : Nat)
        (entries : List HfsDirEntry) (rd : List Nat) (err : HfsPlusError),
      i < node.descriptor.num_records →
      node.record_data i = .ok rd →
      hfsDirMatchFn parent rd = some true →
      hfsDirParseFn rd = .error err →
      hfsListRecords node parent (remaining + 1) i entries = .error err) ∧
    (∀ (disk : List Nat) (cr omr bs fuel : Nat)
        (pre post : List (List Nat × List Nat)) (kv : List Nat × List Nat),
      ((∃ e, decode_drec_name kv.1 = .error e) ∨
        (∃ n e, decode_drec_name kv.1 = .ok n ∧ DrecVal.parse kv.2 = .error e)) →
      apfsDirEntriesOf disk cr omr bs fuel (pre ++ kv :: post)
        = apfsDirEntriesOf disk cr omr bs fuel (pre ++ post)) := by
  refine ⟨?_, ?_, ?_⟩
  · intro node parent remaining i entries rd err hi hrd hkey
    have hm : hfsDirMatchFn parent rd = some false := by
      unfold hfsDirMatchFn; rw [hkey]
    simp only [hfsListRecords]
    rw [if_pos hi, hrd, except_ok_bind, hm]
  · intro node parent remaining i entries rd err hi hrd hm hp
    simp only [hfsListRecords]
    rw [if_pos hi, hrd, except_ok_bind, hm, hp]
    rfl
  · intro disk cr omr bs fuel pre post kv hbad
    unfold apfsDirEntriesOf
    rw [List.foldl_append, List.foldl_cons, List.foldl_append]
    congr 1
    rcases hbad with ⟨e, he⟩ | ⟨n, e, hn, he⟩
    · simp only [he]
    · simp only [hn, he]

set_option maxRecDepth 40000 in
/-- C9 amended witness: the key-skip step on the short-key node, the
body-abort on the malformed-body node, and the APFS skip of the
malformed directory-record value of `apfsCatalogLeaf`. -/
theorem directory_listing_fault_tolerance_witness :
    (hfsListRecords badKeyParsedNode 2 1 0 []
        = hfsListRecords badKeyParsedNode 2 0 1 []) ∧
    (hfsListRecords badBodyParsedNode 2 2 1 [goodFolderEntry]
        = .error HfsPlusError.InvalidBTree) ∧
    (apfsDirEntriesOf apfsCatalogLeaf 0 0 256 4 ([goodDrecKv] ++ badDrecKv :: [])
        = apfsDirEntriesOf apfsCatalogLeaf 0 0 256 4 ([goodDrecKv] ++ [])) :=
  ⟨directory_listing_fault_tolerance.1 badKeyParsedNode 2 0 0 [] [0, 1, 0, 2]
      HfsPlusError.InvalidBTree (by decide) (by decide) (by decide),
   directory_listing_fault_tolerance.2.1 badBodyParsedNode 2 1 1 [goodFolderEntry]
      [0, 8, 0, 0, 0, 2, 0, 1, 0, 66, 0, 5] HfsPlusError.InvalidBTree
      (by decide) (by decide) (by decide) (by decide),
   directory_listing_fault_tolerance.2.2 apfsCatalogLeaf 0 0 256 4 [goodDrecKv] []
      badDrecKv (Or.inr ⟨[98], ApfsError.CorruptedData, by decide, by decide⟩)⟩

/-! ## C7 — PBZX parallel vs sequential decompression -/

theorem pbzxReadAllChunks_acc (fuel : Nat) :
    ∀ (bytes : List Nat) (acc : List (Nat × Nat × List Nat)),
      pbzxReadAllChunks fuel bytes acc
        = (pbzxReadAllChunks fuel bytes []).map (acc ++ ·) := by
  induction fuel with
  | zero => intro bytes acc; rfl
  | succ fuel ih =>
    intro bytes acc
    simp only [pbzxReadAllChunks]
    split
    · simp [Except.map]
    · split
      · rfl
      · split
        · simp [Except.map]
        · split
          · rw [ih, List.nil_append,
              ih _ [(beNum (List.take 8 bytes),
                beNum (List.take 8 (List.drop 8 bytes)),
                List.take (beNum (List.take 8 (List.drop 8 bytes)))
                  (List.drop 8 (List.drop 8 bytes)))]]
            cases pbzxReadAllChunks fuel
                (List.drop (beNum (List.take 8 (List.drop 8 bytes)))
                  (List.drop 8 (List.drop 8 bytes))) [] with
            | error e => rfl
            | ok l => simp [Except.map]
          · rfl

theorem pbzxConcatResults_first_error :
    ∀ (pre tail : List (Except PbzxError (List Nat))) (e : PbzxError),
      (∀ x ∈ pre, ∃ b, x = .ok b) →
      pbzxConcatResults (pre ++ .error e :: tail) = .error e := by
  intro pre
  induction pre with
  | nil => intro tail e _; rfl
  | cons hd tl ih =>
    intro tail e hok
    obtain ⟨b, hb⟩ := hok hd (List.mem_cons_self hd tl)
    simp only [List.cons_append, pbzxConcatResults, List.append_eq]
    rw [hb, except_ok_bind, ih tail e (fun x hx => hok x (List.mem_cons_of_mem hd hx)),
      except_error_bind]

theorem pbzxLoop_ok_chunks (xz : List Nat → Except Unit (List Nat)) :
    ∀ (fuel : Nat) (bytes acc out : List Nat),
      pbzxDecompressLoop xz fuel bytes acc = .ok out →
      ∃ chunks cs, pbzxReadAllChunks fuel bytes [] = .ok chunks ∧
        pbzxConcatResults (chunks.map (pbzx_decompress_chunk xz)) = .ok cs ∧
        out = acc ++ cs := by
  intro fuel
  induction fuel with
  | zero => intro bytes acc out h; exact Except.noConfusion h
  | succ fuel ih =>
    intro bytes acc out h
    simp only [pbzxDecompressLoop] at h
    simp only [pbzxReadAllChunks]
    split at h
    next h8 =>
      rw [if_pos h8]
      injection h with h
      exact ⟨[], [], rfl, rfl, by rw [← h, List.append_nil]⟩
    next h8 =>
      rw [if_neg h8]
      split at h
      next h8b => exact Except.noConfusion h
      next h8b =>
        rw [if_neg h8b]
        split at h
        next hz =>
          rw [if_pos hz]
          injection h with h
          exact ⟨[], [], rfl, rfl, by rw [← h, List.append_nil]⟩
        next hz =>
          rw [if_neg hz]
          split at h
          next hc =>
            rw [if_pos hc]
            split at h
            next hcu =>
              obtain ⟨chunks, cs, hra, hcc, hout⟩ := ih _ _ _ h
              refine ⟨(beNum (List.take 8 bytes),
                  beNum (List.take 8 (List.drop 8 bytes)),
                  List.take (beNum (List.take 8 (List.drop 8 bytes)))
                    (List.drop 8 (List.drop 8 bytes))) :: chunks,
                List.take (beNum (List.take 8 (List.drop 8 bytes)))
                  (List.drop 8 (List.drop 8 bytes)) ++ cs, ?_, ?_, ?_⟩
              · rw [List.nil_append, pbzxReadAllChunks_acc, hra]
                rfl
              · simp only [List.map_cons, pbzxConcatResults, pbzx_decompress_chunk]
                rw [if_pos hcu, except_ok_bind, hcc, except_ok_bind]
                rfl
              · rw [hout, List.append_assoc]
            next hcu =>
              split at h
              · exact Except.noConfusion h
              · rename_i d heq
                split at h
                next hlen => exact Except.noConfusion h
                next hlen =>
                  obtain ⟨chunks, cs, hra, hcc, hout⟩ := ih _ _ _ h
                  refine ⟨(beNum (List.take 8 bytes),
                      beNum (List.take 8 (List.drop 8 bytes)),
                      List.take (beNum (List.take 8 (List.drop 8 bytes)))
                        (List.drop 8 (List.drop 8 bytes))) :: chunks,
                    d ++ cs, ?_, ?_, ?_⟩
                  · rw [List.nil_append, pbzxReadAllChunks_acc, hra]
                    rfl
                  · simp only [List.map_cons, pbzxConcatResults, pbzx_decompress_chunk]
                    rw [if_neg hcu]
                    simp only [heq]
                    rw [if_neg hlen, except_ok_bind, hcc, except_ok_bind]
                    rfl
                  · rw [hout, List.append_assoc]
          next hc => exact Except.noConfusion h

/-- C7: `decompress_parallel` agrees with sequential `decompress` — whenever
the sequential pass succeeds the parallel pass returns the identical
byte sequence — and when some chunk fails to decode (all chunks before
it decoding fine) the parallel pass returns that first error rather
than partial output. -/
theorem pbzx_parallel_matches_sequential :
    (∀ (xz : List Nat → Except Unit (List Nat)) (file out : List Nat),
      pbzx_decompress xz file = .ok out →
      pbzx_decompress_parallel xz file = .ok out) ∧
    (∀ (xz : List Nat → Except Unit (List Nat)) (file rest : List Nat)
        (flags : Nat) (chunks : List (Nat × Nat × List Nat))
        (pre tail : List (Except PbzxError (List Nat))) (e : PbzxError),
      PbzxReader.new file = .ok (flags, rest) →
      pbzxReadAllChunks (rest.length + 1) rest [] = .ok chunks →
      chunks.map (pbzx_decompress_chunk xz) = pre ++ .error e :: tail →
      (∀ x ∈ pre, ∃ b, x = .ok b) →
      pbzx_decompress_parallel xz file = .error e) := by
  constructor
  · intro xz file out h
    unfold pbzx_decompress at h
    unfold pbzx_decompress_parallel
    cases hnew : PbzxReader.new file with
    | error e =>
      rw [hnew, except_error_bind] at h
      exact Except.noConfusion h
    | ok p =>
      obtain ⟨flags, rest⟩ := p
      rw [hnew, except_ok_bind] at h
      simp only [hnew, except_ok_bind]
      obtain ⟨chunks, cs, hra, hcc, hout⟩ :=
        pbzxLoop_ok_chunks xz (rest.length + 1) rest [] out h
      rw [hra, except_ok_bind, hcc, hout, List.nil_append]
  · intro xz file rest flags chunks pre tail e hnew hra hmap hok
    unfold pbzx_decompress_parallel
    simp only [hnew, except_ok_bind]
    rw [hra, except_ok_bind, hmap]
    exact pbzxConcatResults_first_error pre tail e hok

set_option maxRecDepth 40000 in
/-- C7 witness: on the two-chunk example archive, the parallel pass returns
the sequential result with the duplicating codec and propagates the
first chunk's error with the failing codec. -/
theorem pbzx_parallel_matches_sequential_witness :
    pbzx_decompress_parallel dupXz pbzxExampleFile = .ok [7, 8, 7, 8, 1, 2, 3] ∧
    pbzx_decompress_parallel failXz pbzxExampleFile
      = .error PbzxError.Decompression :=
  ⟨pbzx_parallel_matches_sequential.1 dupXz pbzxExampleFile [7, 8, 7, 8, 1, 2, 3]
      (by decide),
   pbzx_parallel_matches_sequential.2 failXz pbzxExampleFile
      (List.drop 12 pbzxExampleFile) 1 [(4, 2, [7, 8]), (3, 3, [1, 2, 3])]
      [] [Except.ok [1, 2, 3]] PbzxError.Decompression
      (by decide) (by decide) (by decide)
      (fun x hx => absurd hx (List.not_mem_nil x))⟩

/-! ## C10 — decompress_partition stays in bounds -/

theorem writeRange_length (buf : List Nat) (off : Nat) (src : List Nat)
    (h : off + src.length ≤ buf.length) :
    (writeRange buf off src).length = buf.length := by
  unfold writeRange
  simp only [List.length_append, List.length_take, List.length_drop]
  omega

theorem decompressRunStep_safe (file : List Nat) (koly : KolyHeader)
    (codecs : BlockCodecs) (output : List Nat) (br : BlockRun)
    (hbound : br.sector_number * SECTOR_SIZE + br.sector_count * SECTOR_SIZE
      ≤ output.length)
    (hraw : br.block_type = .Raw ∨ br.block_type = .Ignore →
      br.compressed_length ≤ br.sector_count * SECTOR_SIZE) :
    (∃ out, decompressRunStep file koly codecs output br = .ok out ∧
      out.length = output.length) ∨
    (∃ e, decompressRunStep file koly codecs output br = .error (.err e)) := by
  have hread : ∀ (off len : Nat) (bytes : List Nat),
      readRange file off len = .ok bytes → bytes.length = len := by
    intro off len bytes hr
    unfold readRange at hr
    split at hr
    · injection hr with hr
      rw [← hr]
      unfold byteSlice
      simp only [List.length_take, List.length_drop]
      omega
    · exact Except.noConfusion hr
  unfold decompressRunStep
  split
  · exact .inl ⟨output, rfl, rfl⟩
  · rename_i heq
    split
    · split
      · rename_i e heqr
        exact .inr ⟨e, rfl⟩
      · rename_i bytes heqr
        split
        · exact .inl ⟨_, rfl, writeRange_length _ _ _
            (by have hb := hread _ _ _ heqr; omega)⟩
        · exfalso
          have hcle := hraw (Or.inl heq)
          omega
    · exact .inl ⟨output, rfl, rfl⟩
  · rename_i heq
    split
    · split
      · rename_i e heqr
        exact .inr ⟨e, rfl⟩
      · rename_i bytes heqr
        split
        · exact .inl ⟨_, rfl, writeRange_length _ _ _
            (by have hb := hread _ _ _ heqr; omega)⟩
        · exfalso
          have hcle := hraw (Or.inr heq)
          omega
    · exact .inl ⟨output, rfl, rfl⟩
  · split
    · rename_i e heqr
      exact .inr ⟨e, rfl⟩
    · split
      · split
        · exact .inr ⟨.Io, rfl⟩
        · exact .inl ⟨_, rfl, writeRange_length _ _ _
            (by simp only [List.length_take]; omega)⟩
      · exfalso; omega
  · split
    · rename_i e heqr
      exact .inr ⟨e, rfl⟩
    · split
      · split
        · exact .inr ⟨.Io, rfl⟩
        · exact .inl ⟨_, rfl, writeRange_length _ _ _
            (by simp only [List.length_take]; omega)⟩
      · exfalso; omega
  · split
    · rename_i e heqr
      exact .inr ⟨e, rfl⟩
    · split
      · exact .inr ⟨.Decompression, rfl⟩
      · split
        · exact .inl ⟨_, rfl, writeRange_length _ _ _
            (by simp only [List.length_take]; omega)⟩
        · exfalso; omega
  · split
    · rename_i e heqr
      exact .inr ⟨e, rfl⟩
    · split
      · exact .inr ⟨.Decompression, rfl⟩
      · split
        · exact .inl ⟨_, rfl, writeRange_length _ _ _
            (by simp only [List.length_take]; omega)⟩
        · exfalso; omega
  · exact .inr ⟨.Unsupported, rfl⟩
  · exact .inl ⟨output, rfl, rfl⟩
  · exact .inl ⟨output, rfl, rfl⟩

theorem decompressRuns_safe (file : List Nat) (koly : KolyHeader)
    (codecs : BlockCodecs) :
    ∀ (runs : List BlockRun) (output : List Nat) (total : Nat),
      output.length = total →
      (∀ br ∈ runs,
        br.sector_number * SECTOR_SIZE + br.sector_count * SECTOR_SIZE ≤ total ∧
        (br.block_type = .Raw ∨ br.block_type = .Ignore →
          br.compressed_length ≤ br.sector_count * SECTOR_SIZE)) →
      (∃ out, runs.foldlM (decompressRunStep file koly codecs) output = .ok out ∧
        out.length = total) ∨
      (∃ e, runs.foldlM (decompressRunStep file koly codecs) output
        = .error (.err e)) := by
  intro runs
  induction runs with
  | nil => intro output total hlen _; exact .inl ⟨output, rfl, hlen⟩
  | cons br rest ih =>
    intro output total hlen hinv
    obtain ⟨hb, hr⟩ := hinv br (List.mem_cons_self br rest)
    rcases decompressRunStep_safe file koly codecs output br
        (by rw [hlen]; exact hb) hr with
      ⟨out, hstep, holen⟩ | ⟨e, hstep⟩
    · rw [List.foldlM_cons, hstep, except_ok_bind]
      exact ih out total (holen.trans hlen)
        (fun x hx => hinv x (List.mem_cons_of_mem br hx))
    · rw [List.foldlM_cons, hstep, except_error_bind]
      exact .inr ⟨e, rfl⟩

/-- C10: under the block-map invariants — every run's output window
`[sector_number*512, sector_number*512 + sector_count*512)` fits in the
partition buffer, and a raw/ignore run's `compressed_length` fits its
window — `decompress_partition` never panics on a buffer index: it
returns a buffer of exactly `sector_count * 512` bytes or an explicit
`DppError`. -/
theorem decompress_partition_safe (file : List Nat) (koly : KolyHeader)
    (partitions : List PartitionEntry) (codecs : BlockCodecs) (partition_id : Int)
    (partition : PartitionEntry)
    (hfind : partitions.find? (fun p => p.id == partition_id) = some partition)
    (hinv : ∀ br ∈ partition.block_map.block_runs,
      br.sector_number * SECTOR_SIZE + br.sector_count * SECTOR_SIZE
        ≤ partition.block_map.sector_count * SECTOR_SIZE ∧
      (br.block_type = .Raw ∨ br.block_type = .Ignore →
        br.compressed_length ≤ br.sector_count * SECTOR_SIZE)) :
    (∃ out, decompress_partition file koly partitions codecs partition_id
        = .ok out ∧
      out.length = partition.block_map.sector_count * SECTOR_SIZE) ∨
    (∃ e, decompress_partition file koly partitions codecs partition_id
      = .error (.err e)) := by
  unfold decompress_partition
  rw [hfind]
  exact decompressRuns_safe file koly codecs partition.block_map.block_runs
    (List.replicate (partition.block_map.sector_count * SECTOR_SIZE) 0)
    (partition.block_map.sector_count * SECTOR_SIZE)
    (List.length_replicate _ _) hinv

set_option maxRecDepth 40000 in
/-- C10 witness: the two-run partition (zero-fill sector plus a raw sector
with two stored bytes) decompresses without a panic into a 1024-byte
buffer or an explicit error. -/
theorem decompress_partition_safe_witness :
    (∃ out, decompress_partition [1, 2] mkKolyZero twoRunPartitionTable
        nullCodecs 1 = .ok out ∧
      out.length = twoRunMish.sector_count * SECTOR_SIZE) ∨
    (∃ e, decompress_partition [1, 2] mkKolyZero twoRunPartitionTable
      nullCodecs 1 = .error (.err e)) :=
  decompress_partition_safe [1, 2] mkKolyZero twoRunPartitionTable nullCodecs 1
    { name := "Apple_HFS".toList, id := 1, attributes := 0, block_map := twoRunMish }
    (by decide) (by decide)

/-! ## C1 — Fletcher-64 round-trip and single-byte detection -/

theorem leNum_u64ToLeBytes (x : Nat) (hx : x < 2 ^ 64) :
    leNum (u64ToLeBytes x) = x := by
  unfold leNum u64ToLeBytes
  simp only [List.foldr]
  have h2 : (256 : Nat) ^ 2 = 65536 := by norm_num
  have h3 : (256 : Nat) ^ 3 = 16777216 := by norm_num
  have h4 : (256 : Nat) ^ 4 = 4294967296 := by norm_num
  have h5 : (256 : Nat) ^ 5 = 1099511627776 := by norm_num
  have h6 : (256 : Nat) ^ 6 = 281474976710656 := by norm_num
  have h7 : (256 : Nat) ^ 7 = 72057594037927936 := by norm_num
  rw [h2, h3, h4, h5, h6, h7]
  omega

theorem fletcher64_lt (data : List Nat) : fletcher64 data < 2 ^ 64 := by
  unfold fletcher64
  apply Nat.or_lt_two_pow
  · rw [Nat.shiftLeft_eq]
    have : mod_val - ((fletchSums data 0 0).1
        + (mod_val - (((fletchSums data 0 0).1 + (fletchSums data 0 0).2) % mod_val)))
        % mod_val ≤ mod_val := Nat.sub_le _ _
    unfold mod_val at *
    omega
  · have : mod_val - (((fletchSums data 0 0).1 + (fletchSums data 0 0).2) % mod_val)
        ≤ mod_val := Nat.sub_le _ _
    unfold mod_val at *
    omega

theorem fletchSums_fst :
    ∀ (n : Nat) (data : List Nat) (s1 s2 : Nat), data.length ≤ n →
      data.length % 4 = 0 → data ≠ [] →
      (fletchSums data s1 s2).1 = (s1 + byteWordSum data) % mod_val := by
  intro n
  induction n with
  | zero =>
    intro data s1 s2 hle _ hne
    cases data with
    | nil => exact absurd rfl hne
    | cons a t => simp at hle
  | succ n ih =>
    intro data s1 s2 hle h4 hne
    match data with
    | [] => exact absurd rfl hne
    | [c0] => simp at h4
    | [c0, c1] => simp at h4
    | [c0, c1, c2] => simp at h4
    | c0 :: c1 :: c2 :: c3 :: rest =>
      by_cases hr : rest = []
      · subst hr
        simp [fletchSums, byteWordSum]
      · have h4' : rest.length % 4 = 0 := by
          simp only [List.length_cons] at h4
          omega
        have hle' : rest.length ≤ n := by
          simp only [List.length_cons] at hle
          omega
        simp only [fletchSums, byteWordSum]
        rw [ih rest _ _ hle' h4' hr, Nat.mod_add_mod, Nat.add_assoc]

theorem byteWordSum_set_ne :
    ∀ (n : Nat) (data : List Nat) (i b : Nat), data.length ≤ n →
      data.length % 4 = 0 → i < data.length →
      (∀ x ∈ data, x < 256) → b < 256 → b ≠ data.getD i 0 →
      byteWordSum (data.set i b) % mod_val ≠ byteWordSum data % mod_val := by
  intro n
  induction n with
  | zero =>
    intro data i b hle _ hi _ _ _
    omega
  | succ n ih =>
    intro data i b hle h4 hi hbytes hb hne
    match data with
    | [] => simp at hi
    | [c0] => simp at h4
    | [c0, c1] => simp at h4
    | [c0, c1, c2] => simp at h4
    | c0 :: c1 :: c2 :: c3 :: rest =>
      have hc0 := hbytes c0 (by simp)
      have hc1 := hbytes c1 (by simp)
      have hc2 := hbytes c2 (by simp)
      have hc3 := hbytes c3 (by simp)
      by_cases hi4 : i < 4
      · interval_cases i
        · simp only [List.getD_cons_zero] at hne
          simp only [List.set, byteWordSum, leWord4, mod_val]
          omega
        · simp only [List.getD_cons_succ, List.getD_cons_zero] at hne
          simp only [List.set, byteWordSum, leWord4, mod_val]
          omega
        · simp only [List.getD_cons_succ, List.getD_cons_zero] at hne
          simp only [List.set, byteWordSum, leWord4, mod_val]
          omega
        · simp only [List.getD_cons_succ, List.getD_cons_zero] at hne
          simp only [List.set, byteWordSum, leWord4, mod_val]
          omega
      · obtain ⟨j, rfl⟩ : ∃ j, i = j + 4 := ⟨i - 4, by omega⟩
        have hih := ih rest j b
          (by simp only [List.length_cons] at hle; omega)
          (by simp only [List.length_cons] at h4; omega)
          (by simp only [List.length_cons] at hi; omega)
          (fun x hx => hbytes x (by simp [hx]))
          hb
          (by simpa using hne)
        simp only [List.set, byteWordSum]
        intro hEq
        exact hih (Nat.ModEq.add_left_cancel' (leWord4 c0 c1 c2 c3) hEq)

theorem pack_inj (a b c d : Nat) (hb : b < 2 ^ 32) (hd : d < 2 ^ 32)
    (h : (a <<< 32) ||| b = (c <<< 32) ||| d) : a = c ∧ b = d := by
  rw [Nat.shiftLeft_eq, Nat.shiftLeft_eq, Nat.mul_comm a, Nat.mul_comm c,
    ← Nat.mul_add_lt_is_or hb a, ← Nat.mul_add_lt_is_or hd c] at h
  constructor <;> omega

theorem fletcher64_eq_imp_sum_eq (d1 d2 : List Nat)
    (h1 : d1.length % 4 = 0) (hne1 : d1 ≠ [])
    (h2 : d2.length % 4 = 0) (hne2 : d2 ≠ [])
    (h : fletcher64 d1 = fletcher64 d2) :
    byteWordSum d1 % mod_val = byteWordSum d2 % mod_val := by
  simp only [fletcher64] at h
  rw [fletchSums_fst d1.length d1 0 0 le_rfl h1 hne1,
    fletchSums_fst d2.length d2 0 0 le_rfl h2 hne2] at h
  obtain ⟨hck2, hck1⟩ := pack_inj _ _ _ _
    (by unfold mod_val; omega) (by unfold mod_val; omega) h
  revert hck1 hck2
  unfold mod_val
  omega

/-- C1: Fletcher-64 round-trip — for every byte sequence whose length is a
multiple of 4, storing the computed checksum little-endian in bytes 0..8
makes `verify_object` return `true`, and flipping any single byte of the
data region makes it return `false`. -/
theorem fletcher64_roundtrip_detects_flip :
    (∀ (data : List Nat), data.length % 4 = 0 →
      verify_object (u64ToLeBytes (fletcher64 data) ++ data) = true) ∧
    (∀ (data : List Nat) (i b : Nat), data.length % 4 = 0 →
      (∀ x ∈ data, x < 256) → i < data.length → b < 256 → b ≠ data.getD i 0 →
      verify_object (u64ToLeBytes (fletcher64 data) ++ data.set i b) = false) := by
  have hu64len : ∀ x : Nat, (u64ToLeBytes x).length = 8 := fun x => rfl
  constructor
  · intro data h4
    unfold verify_object
    rw [if_neg (by simp [List.length_append, hu64len]),
      List.take_left' (hu64len _), List.drop_left' (hu64len _),
      leNum_u64ToLeBytes _ (fletcher64_lt data)]
    simp
  · intro data i b h4 hbytes hi hb hne
    have hne' : data ≠ [] := by
      intro h
      subst h
      simp at hi
    unfold verify_object
    rw [if_neg (by simp [List.length_append, hu64len]),
      List.take_left' (hu64len _), List.drop_left' (hu64len _),
      leNum_u64ToLeBytes _ (fletcher64_lt data)]
    rw [beq_eq_false_iff_ne]
    intro hEq
    refine byteWordSum_set_ne data.length data i b le_rfl h4 hi hbytes hb hne ?_
    refine (fletcher64_eq_imp_sum_eq (data.set i b) data ?_ ?_ h4 hne' ?_).trans rfl
    · rw [List.length_set]
      exact h4
    · intro hset
      apply hne'
      have := congrArg List.length hset
      rw [List.length_set] at this
      exact List.eq_nil_of_length_eq_zero this
    · exact hEq.symm

/-- C1 witness: the checksum of `[1,0,0,0]` verifies in place, and flipping
its first byte to 5 is detected. -/
theorem fletcher64_roundtrip_detects_flip_witness :
    verify_object (u64ToLeBytes (fletcher64 [1, 0, 0, 0]) ++ [1, 0, 0, 0]) = true ∧
    verify_object (u64ToLeBytes (fletcher64 [1, 0, 0, 0])
      ++ [(1 : Nat), 0, 0, 0].set 0 5) = false :=
  ⟨fletcher64_roundtrip_detects_flip.1 [1, 0, 0, 0] (by decide),
   fletcher64_roundtrip_detects_flip.2 [1, 0, 0, 0] 0 5 (by decide) (by decide)
      (by decide) (by decide) (by decide)⟩

/-! ## C3 — DMG open verifies and skips CRC32 checksums -/

theorem crc32_round_lt (c : Nat) (h : c < 2 ^ 32) : crc32_round c < 2 ^ 32 := by
  unfold crc32_round
  split
  · exact Nat.xor_lt_two_pow (by omega) (by norm_num)
  · omega

theorem crc32_round_inj (c1 c2 : Nat) (h1 : c1 < 2 ^ 32) (h2 : c2 < 2 ^ 32)
    (h : crc32_round c1 = crc32_round c2) : c1 = c2 := by
  have hbit : ∀ c : Nat, c < 2 ^ 32 →
      Nat.testBit ((c / 2) ^^^ 0xEDB88320) 31 = true := by
    intro c hc
    rw [Nat.testBit_xor, Nat.testBit_lt_two_pow (show c / 2 < 2 ^ 31 by omega)]
    decide
  unfold crc32_round at h
  split at h
  next hp1 =>
    split at h
    next hp2 =>
      have hcan := congrArg (· ^^^ 0xEDB88320) h
      simp only [Nat.xor_assoc, Nat.xor_self, Nat.xor_zero] at hcan
      simp only [beq_iff_eq] at hp1 hp2
      omega
    next hp2 =>
      exfalso
      have hb1 := hbit c1 h1
      rw [h, Nat.testBit_lt_two_pow (show c2 / 2 < 2 ^ 31 by omega)] at hb1
      exact Bool.noConfusion hb1
  next hp1 =>
    split at h
    next hp2 =>
      exfalso
      have hb2 := hbit c2 h2
      rw [← h, Nat.testBit_lt_two_pow (show c1 / 2 < 2 ^ 31 by omega)] at hb2
      exact Bool.noConfusion hb2
    next hp2 =>
      simp only [beq_iff_eq] at hp1 hp2
      omega

theorem crc32_iter_lt : ∀ (n c : Nat), c < 2 ^ 32 → crc32_round^[n] c < 2 ^ 32 := by
  intro n
  induction n with
  | zero => intro c hc; simpa using hc
  | succ n ih =>
    intro c hc
    rw [Function.iterate_succ_apply]
    exact ih _ (crc32_round_lt c hc)

theorem crc32_iter_inj : ∀ (n c1 c2 : Nat), c1 < 2 ^ 32 → c2 < 2 ^ 32 →
    crc32_round^[n] c1 = crc32_round^[n] c2 → c1 = c2 := by
  intro n
  induction n with
  | zero => intro c1 c2 _ _ h; simpa using h
  | succ n ih =>
    intro c1 c2 h1 h2 h
    rw [Function.iterate_succ_apply, Function.iterate_succ_apply] at h
    exact crc32_round_inj c1 c2 h1 h2
      (ih _ _ (crc32_round_lt c1 h1) (crc32_round_lt c2 h2) h)

theorem crc32_byte_lt (c b : Nat) (hc : c < 2 ^ 32) (hb : b < 256) :
    crc32_byte c b < 2 ^ 32 := by
  unfold crc32_byte
  exact crc32_iter_lt 8 _ (Nat.xor_lt_two_pow hc (by omega))

theorem crc32_byte_inj (c1 c2 b : Nat) (h1 : c1 < 2 ^ 32) (h2 : c2 < 2 ^ 32)
    (hb : b < 256) (h : crc32_byte c1 b = crc32_byte c2 b) : c1 = c2 := by
  unfold crc32_byte at h
  have hx := crc32_iter_inj 8 _ _ (Nat.xor_lt_two_pow h1 (by omega))
    (Nat.xor_lt_two_pow h2 (by omega)) h
  have hc := congrArg (· ^^^ b) hx
  simpa [Nat.xor_assoc] using hc

theorem crc32_byte_ne_of_ne (c b1 b2 : Nat) (hc : c < 2 ^ 32) (hb1 : b1 < 256)
    (hb2 : b2 < 256) (hne : b1 ≠ b2) : crc32_byte c b1 ≠ crc32_byte c b2 := by
  intro h
  unfold crc32_byte at h
  have hx := crc32_iter_inj 8 _ _ (Nat.xor_lt_two_pow hc (by omega))
    (Nat.xor_lt_two_pow hc (by omega)) h
  apply hne
  have hc2 := congrArg (fun x => c ^^^ x) hx
  simpa [← Nat.xor_assoc, Nat.xor_self, Nat.zero_xor] using hc2

theorem crc32_fold_lt : ∀ (l : List Nat) (c : Nat), c < 2 ^ 32 →
    (∀ x ∈ l, x < 256) → l.foldl crc32_byte c < 2 ^ 32 := by
  intro l
  induction l with
  | nil => intro c hc _; simpa using hc
  | cons a t ih =>
    intro c hc hl
    rw [List.foldl_cons]
    exact ih _ (crc32_byte_lt c a hc (hl a (by simp))) (fun x hx => hl x (by simp [hx]))

theorem crc32_fold_ne : ∀ (l : List Nat) (c1 c2 : Nat), c1 < 2 ^ 32 → c2 < 2 ^ 32 →
    (∀ x ∈ l, x < 256) → c1 ≠ c2 →
    l.foldl crc32_byte c1 ≠ l.foldl crc32_byte c2 := by
  intro l
  induction l with
  | nil => intro c1 c2 _ _ _ hne; simpa using hne
  | cons a t ih =>
    intro c1 c2 h1 h2 hl hne
    rw [List.foldl_cons, List.foldl_cons]
    refine ih _ _ (crc32_byte_lt _ _ h1 (hl a (by simp)))
      (crc32_byte_lt _ _ h2 (hl a (by simp)))
      (fun x hx => hl x (by simp [hx])) ?_
    intro h
    exact hne (crc32_byte_inj _ _ _ h1 h2 (hl a (by simp)) h)

theorem crc32_set_ne (l : List Nat) (i b : Nat) (hi : i < l.length)
    (hl : ∀ x ∈ l, x < 256) (hb : b < 256) (hne : b ≠ l.getD i 0) :
    crc32 (l.set i b) ≠ crc32 l := by
  intro h
  unfold crc32 at h
  have h2 : (l.set i b).foldl crc32_byte 0xFFFFFFFF
      = l.foldl crc32_byte 0xFFFFFFFF := by
    have hc := congrArg (· ^^^ 0xFFFFFFFF) h
    simpa [Nat.xor_assoc] using hc
  have hldecomp : l.take i ++ l[i] :: l.drop (i + 1) = l := by
    rw [← List.drop_eq_getElem_cons hi, List.take_append_drop]
  rw [List.set_eq_take_cons_drop b hi] at h2
  conv at h2 => rhs; rw [← hldecomp]
  rw [List.foldl_append, List.foldl_cons, List.foldl_append, List.foldl_cons] at h2
  have hCbound : (l.take i).foldl crc32_byte 0xFFFFFFFF < 2 ^ 32 :=
    crc32_fold_lt _ _ (by norm_num) (fun x hx => hl x (List.mem_of_mem_take hx))
  have hstep : crc32_byte ((l.take i).foldl crc32_byte 0xFFFFFFFF) b
      ≠ crc32_byte ((l.take i).foldl crc32_byte 0xFFFFFFFF) l[i] :=
    crc32_byte_ne_of_ne _ b (l[i]) hCbound hb (hl _ (List.getElem_mem hi))
      (by rwa [List.getD_eq_getElem l 0 hi] at hne)
  exact crc32_fold_ne (l.drop (i + 1)) _ _ (crc32_byte_lt _ _ hCbound hb)
    (crc32_byte_lt _ _ hCbound (hl _ (List.getElem_mem hi)))
    (fun x hx => hl x (List.mem_of_mem_drop hx)) hstep h2

theorem has_checksum_true (t : Nat) (cs : List Nat)
    (h : has_checksum t cs = true) :
    t = CHECKSUM_TYPE_CRC32 ∧ extract_crc32 cs ≠ 0 := by
  unfold has_checksum at h
  split at h
  · exact Bool.noConfusion h
  next hbne =>
    simp only [bne_iff_ne, ne_eq, not_not] at hbne
    simp only [bne_iff_ne, ne_eq] at h
    exact ⟨hbne, by simpa using h⟩

theorem verify_crc32_mismatch (t : Nat) (cs data : List Nat)
    (ht : t = CHECKSUM_TYPE_CRC32) (h0 : extract_crc32 cs ≠ 0)
    (hne : extract_crc32 cs ≠ crc32 data) :
    verify_crc32 t cs data = .error (extract_crc32 cs, crc32 data) := by
  unfold verify_crc32
  rw [ht]
  rw [if_neg (by simp)]
  rw [if_neg h0, if_neg hne]

theorem readRange_ok_facts (file : List Nat) (off len : Nat) (bytes : List Nat)
    (h : readRange file off len = .ok bytes) :
    bytes = byteSlice file off len ∧ off + len ≤ file.length ∧ bytes.length = len := by
  unfold readRange at h
  split at h
  next hle =>
    injection h with h
    refine ⟨h.symm, hle, ?_⟩
    rw [← h]
    unfold byteSlice
    simp only [List.length_take, List.length_drop]
    omega
  next hle => exact Except.noConfusion h

theorem KolyHeader_read_set (file : List Nat) (i b : Nat)
    (h : i + 512 < file.length) :
    KolyHeader.read (file.set i b) = KolyHeader.read file := by
  unfold KolyHeader.read
  rw [List.length_set, List.drop_set_of_lt b file (show i < file.length - 512 by omega)]

theorem byteSlice_set (l : List Nat) (i b off len : Nat) (h : off ≤ i) :
    byteSlice (l.set i b) off len = (byteSlice l off len).set (i - off) b := by
  unfold byteSlice
  rw [List.drop_set, if_neg (by omega), List.set_take]

theorem with_options_verifies (file : List Nat) (pd : PlistDecoder) (r : DmgReader)
    (h : DmgReader.new file pd = .ok r) :
    KolyHeader.read file = .ok r.koly ∧
    verify_data_fork_checksum file r.koly = .ok () ∧
    verify_master_checksum r.koly r.partitions = .ok () := by
  unfold DmgReader.new DmgReader.with_options at h
  cases hk : KolyHeader.read file with
  | error e =>
    rw [hk, except_error_bind] at h
    exact Except.noConfusion h
  | ok koly =>
    rw [hk, except_ok_bind, if_pos (show (true : Bool) = true from rfl)] at h
    cases hv : verify_data_fork_checksum file koly with
    | error e =>
      rw [hv, except_error_bind] at h
      exact Except.noConfusion h
    | ok u =>
      cases u
      rw [hv, except_ok_bind] at h
      cases hp : readRange file koly.plist_offset koly.plist_length with
      | error e =>
        rw [hp, except_error_bind] at h
        exact Except.noConfusion h
      | ok plist_data =>
        rw [hp, except_ok_bind] at h
        cases hpp : parse_plist pd plist_data with
        | error e =>
          rw [hpp, except_error_bind] at h
          exact Except.noConfusion h
        | ok parts =>
          rw [hpp, except_ok_bind,
            if_pos (show (true : Bool) = true from rfl)] at h
          cases hm : verify_master_checksum koly parts with
          | error e =>
            rw [hm, except_error_bind] at h
            exact Except.noConfusion h
          | ok u2 =>
            cases u2
            rw [hm, except_ok_bind, except_pure_eq] at h
            injection h with h
            subst h
            exact ⟨rfl, hv, hm⟩

theorem verify_data_fork_ok_crc (file : List Nat) (koly : KolyHeader)
    (hhc : has_checksum koly.data_checksum_type koly.data_checksum = true)
    (h : verify_data_fork_checksum file koly = .ok ()) :
    ∃ fork, readRange file koly.data_fork_offset koly.data_fork_length = .ok fork ∧
      crc32 fork = extract_crc32 koly.data_checksum := by
  unfold verify_data_fork_checksum at h
  rw [hhc] at h
  simp only [Bool.not_true] at h
  rw [if_neg Bool.false_ne_true] at h
  cases hrr : readRange file koly.data_fork_offset koly.data_fork_length with
  | error e =>
    rw [hrr, except_error_bind] at h
    exact Except.noConfusion h
  | ok fork =>
    rw [hrr, except_ok_bind] at h
    refine ⟨fork, rfl, ?_⟩
    obtain ⟨ht, h0⟩ := has_checksum_true _ _ hhc
    by_cases hcrc : extract_crc32 koly.data_checksum = crc32 fork
    · exact hcrc.symm
    · rw [verify_crc32_mismatch _ _ _ ht h0 hcrc] at h
      exact Except.noConfusion h

theorem verify_master_ok_crc (koly : KolyHeader) (parts : List PartitionEntry)
    (hhc : has_checksum koly.master_checksum_type koly.master_checksum = true)
    (h : verify_master_checksum koly parts = .ok ()) :
    crc32 (parts.flatMap fun p => p.block_map.checksum.take 4)
      = extract_crc32 koly.master_checksum := by
  unfold verify_master_checksum at h
  rw [hhc] at h
  simp only [Bool.not_true] at h
  rw [if_neg Bool.false_ne_true] at h
  obtain ⟨ht, h0⟩ := has_checksum_true _ _ hhc
  by_cases hcrc : extract_crc32 koly.master_checksum
      = crc32 (parts.flatMap fun p => p.block_map.checksum.take 4)
  · exact hcrc.symm
  · rw [verify_crc32_mismatch _ _ _ ht h0 hcrc] at h
    exact Except.noConfusion h

/-- C3: default-option opening verifies the data-fork CRC32 and the master
CRC32 (over the first 4 bytes of each partition's mish checksum in
partition order); a zero stored value or a non-CRC32 type counts as
absent, and an absent checksum is skipped; corrupting a single byte of
the data fork of a successfully opened DMG makes reopening fail with
`ChecksumMismatch` carrying distinct expected and actual values. -/
theorem dmg_checksum_verification :
    (∀ (t : Nat) (cs : List Nat),
      extract_crc32 cs = 0 ∨ t ≠ CHECKSUM_TYPE_CRC32 → has_checksum t cs = false) ∧
    (∀ (file : List Nat) (koly : KolyHeader),
      has_checksum koly.data_checksum_type koly.data_checksum = false →
      verify_data_fork_checksum file koly = .ok ()) ∧
    (∀ (koly : KolyHeader) (parts : List PartitionEntry),
      has_checksum koly.master_checksum_type koly.master_checksum = false →
      verify_master_checksum koly parts = .ok ()) ∧
    (∀ (file : List Nat) (pd : PlistDecoder) (r : DmgReader),
      DmgReader.new file pd = .ok r →
      (verify_data_fork_checksum file r.koly = .ok () ∧
        verify_master_checksum r.koly r.partitions = .ok ()) ∧
      (has_checksum r.koly.data_checksum_type r.koly.data_checksum = true →
        ∃ fork, readRange file r.koly.data_fork_offset r.koly.data_fork_length
            = .ok fork ∧
          crc32 fork = extract_crc32 r.koly.data_checksum) ∧
      (has_checksum r.koly.master_checksum_type r.koly.master_checksum = true →
        crc32 (r.partitions.flatMap fun p => p.block_map.checksum.take 4)
          = extract_crc32 r.koly.master_checksum)) ∧
    (∀ (file : List Nat) (pd : PlistDecoder) (r : DmgReader) (i b : Nat),
      DmgReader.new file pd = .ok r →
      has_checksum r.koly.data_checksum_type r.koly.data_checksum = true →
      (∀ x ∈ file, x < 256) → b < 256 →
      r.koly.data_fork_offset ≤ i →
      i < r.koly.data_fork_offset + r.koly.data_fork_length →
      r.koly.data_fork_offset + r.koly.data_fork_length + 512 ≤ file.length →
      b ≠ file.getD i 0 →
      ∃ expected actual,
        DmgReader.new (file.set i b) pd
          = .error (.ChecksumMismatch expected actual) ∧ expected ≠ actual) := by
  refine ⟨?_, ?_, ?_, ?_, ?_⟩
  · intro t cs habs
    unfold has_checksum
    rcases habs with h0 | ht
    · split
      · rfl
      · simp [h0]
    · rw [if_pos (by simpa using ht)]
  · intro file koly hhc
    unfold verify_data_fork_checksum
    rw [hhc]
    rfl
  · intro koly parts hhc
    unfold verify_master_checksum
    rw [hhc]
    rfl
  · intro file pd r hnew
    obtain ⟨hk, hv, hm⟩ := with_options_verifies file pd r hnew
    exact ⟨⟨hv, hm⟩,
      fun hhc => verify_data_fork_ok_crc file r.koly hhc hv,
      fun hhc => verify_master_ok_crc r.koly r.partitions hhc hm⟩
  · intro file pd r i b hnew hhc hbytes hb hge hlt hdisj hne
    obtain ⟨hk, hv, hm⟩ := with_options_verifies file pd r hnew
    obtain ⟨fork, hrr, hcrc⟩ := verify_data_fork_ok_crc file r.koly hhc hv
    obtain ⟨hfork, hbound, hflen⟩ := readRange_ok_facts _ _ _ _ hrr
    have hfi : i - r.koly.data_fork_offset < fork.length := by omega
    have hforkbytes : ∀ x ∈ fork, x < 256 := by
      intro x hx
      rw [hfork] at hx
      exact hbytes x (List.mem_of_mem_drop (List.mem_of_mem_take hx))
    have hgetD : fork.getD (i - r.koly.data_fork_offset) 0 = file.getD i 0 := by
      have hifile : i < file.length := by omega
      rw [List.getD_eq_getElem fork 0 hfi, List.getD_eq_getElem file 0 hifile]
      rw [List.getElem_of_eq hfork hfi]
      unfold byteSlice
      rw [List.getElem_take, List.getElem_drop]
      congr 1
      omega
    have hsetne : crc32 (fork.set (i - r.koly.data_fork_offset) b) ≠ crc32 fork :=
      crc32_set_ne fork _ b hfi hforkbytes hb (by rwa [hgetD])
    obtain ⟨ht, h0⟩ := has_checksum_true _ _ hhc
    have hk' : KolyHeader.read (file.set i b) = .ok r.koly := by
      rw [KolyHeader_read_set file i b (by omega)]
      exact hk
    have hrr' : readRange (file.set i b) r.koly.data_fork_offset
        r.koly.data_fork_length
        = .ok (fork.set (i - r.koly.data_fork_offset) b) := by
      unfold readRange
      rw [List.length_set, if_pos hbound, byteSlice_set _ _ _ _ _ hge, ← hfork]
    have hverr : verify_data_fork_checksum (file.set i b) r.koly
        = .error (.ChecksumMismatch (extract_crc32 r.koly.data_checksum)
            (crc32 (fork.set (i - r.koly.data_fork_offset) b))) := by
      unfold verify_data_fork_checksum
      rw [hhc]
      simp only [Bool.not_true]
      rw [if_neg Bool.false_ne_true, hrr', except_ok_bind,
        verify_crc32_mismatch _ _ _ ht h0 (by rw [← hcrc]; exact hsetne.symm)]
    refine ⟨extract_crc32 r.koly.data_checksum,
      crc32 (fork.set (i - r.koly.data_fork_offset) b), ?_, ?_⟩
    · unfold DmgReader.new DmgReader.with_options
      rw [hk', except_ok_bind, if_pos (show (true : Bool) = true from rfl),
        hverr, except_error_bind]
    · rw [← hcrc]
      exact hsetne.symm

set_option maxRecDepth 100000 in
/-- C3 witness: the checksum-free 512-byte DMG opens with both verifications
skipped, and corrupting byte 0 of the data fork of the CRC-carrying DMG
makes reopening fail with distinct expected/actual values. -/
theorem dmg_checksum_verification_witness :
    (verify_data_fork_checksum kolyZeroFile mkKolyZero = .ok () ∧
      verify_master_checksum mkKolyZero [] = .ok ()) ∧
    (∃ expected actual,
      DmgReader.new (dmgCrcFile.set 0 9) emptyPlistDecoder
        = .error (.ChecksumMismatch expected actual) ∧ expected ≠ actual) :=
  ⟨⟨dmg_checksum_verification.2.1 kolyZeroFile mkKolyZero (by decide),
    dmg_checksum_verification.2.2.1 mkKolyZero [] (by decide)⟩,
   dmg_checksum_verification.2.2.2.2 dmgCrcFile emptyPlistDecoder dmgCrcReader 0 9
      (by decide) (by decide) (by decide) (by decide) (by decide) (by decide)
      (by decide) (by decide)⟩

/-! ## C6 — fork streaming vs materialised reads -/

theorem byteSlice_add (d : List Nat) (off a b : Nat) :
    byteSlice d off (a + b) = byteSlice d off a ++ byteSlice d (off + a) b := by
  unfold byteSlice
  rw [List.take_add]
  congr 1
  rw [List.drop_drop]

theorem byteSlice_length (d : List Nat) (off n : Nat) (h : off + n ≤ d.length) :
    (byteSlice d off n).length = n := by
  unfold byteSlice
  simp only [List.length_take, List.length_drop]
  omega

theorem mapWindowBytes_zero (disk : List Nat) (em : List (Nat × Nat × Nat)) (p : Nat) :
    mapWindowBytes disk em p 0 = [] := by
  cases em with
  | nil => rfl
  | cons e rest =>
    obtain ⟨ls, ps, len⟩ := e
    simp [mapWindowBytes]

theorem mapWindowBytes_skip (disk : List Nat) (ls ps len : Nat)
    (rest : List (Nat × Nat × Nat)) (p n : Nat) (h : ls + len ≤ p) :
    mapWindowBytes disk ((ls, ps, len) :: rest) p n = mapWindowBytes disk rest p n := by
  by_cases hn : n = 0
  · subst hn
    rw [mapWindowBytes_zero, mapWindowBytes_zero]
  · simp only [mapWindowBytes]
    rw [if_neg hn, if_neg (by omega)]

theorem mapWindowBytes_step (disk : List Nat) :
    ∀ (em : List (Nat × Nat × Nat)) (s p n : Nat),
      ContiguousFrom s em → s ≤ p → 0 < n → p < s + mapTotalLen em →
      ∃ ls ps len, (ls, ps, len) ∈ em ∧ ls ≤ p ∧ p < ls + len ∧
        logicalToPhysical em p = some (ps + (p - ls)) ∧
        extentRemaining em p = ls + len - p ∧
        mapWindowBytes disk em p n
          = byteSlice disk (ps + (p - ls)) (min n (ls + len - p))
            ++ mapWindowBytes disk em (p + min n (ls + len - p))
                (n - min n (ls + len - p)) := by
  intro em
  induction em with
  | nil =>
    intro s p n _ hsp hn hcov
    simp [mapTotalLen] at hcov
    omega
  | cons e rest ih =>
    intro s p n hcont hsp hn hcov
    obtain ⟨ls, ps, len⟩ := e
    obtain ⟨hls, hlen, hcont'⟩ := hcont
    subst hls
    by_cases hin : p < ls + len
    · refine ⟨ls, ps, len, by simp, hsp, hin, ?_, ?_, ?_⟩
      · simp only [logicalToPhysical]
        rw [if_pos ⟨hsp, hin⟩]
      · simp only [extentRemaining]
        rw [if_pos ⟨hsp, hin⟩]
      · conv_lhs => rw [mapWindowBytes]
        rw [if_neg (by omega), if_pos hin]
        by_cases hk : min n (ls + len - p) = ls + len - p
        · rw [hk]
          rw [mapWindowBytes_skip disk ls ps len rest (p + (ls + len - p)) _ (by omega)]
        · have hkn : min n (ls + len - p) = n := by omega
          rw [hkn]
          simp only [Nat.sub_self]
          rw [mapWindowBytes_zero, mapWindowBytes_zero]
    · have hcov' : p < (ls + len) + mapTotalLen rest := by
        simp only [mapTotalLen, List.map_cons, List.sum_cons] at hcov
        unfold mapTotalLen
        omega
      obtain ⟨ls', ps', len', hmem, h1, h2, h3, h4, h5⟩ :=
        ih (ls + len) p n hcont' (by omega) hn hcov'
      refine ⟨ls', ps', len', by simp [hmem], h1, h2, ?_, ?_, ?_⟩
      · simp only [logicalToPhysical]
        rw [if_neg (by omega)]
        exact h3
      · simp only [extentRemaining]
        rw [if_neg (by omega)]
        exact h4
      · rw [mapWindowBytes_skip disk ls ps len rest p n (by omega), h5]
        congr 1
        by_cases hm : n - min n (ls' + len' - p) = 0
        · rw [hm, mapWindowBytes_zero, mapWindowBytes_zero]
        · rw [mapWindowBytes_skip disk ls ps len rest _ _ (by omega)]

theorem mapWindowBytes_length (disk : List Nat) :
    ∀ (em : List (Nat × Nat × Nat)) (s p n : Nat),
      ContiguousFrom s em → s ≤ p → p + n ≤ s + mapTotalLen em →
      (∀ e ∈ em, e.2.1 + e.2.2 ≤ disk.length) →
      (mapWindowBytes disk em p n).length = n := by
  intro em
  induction em with
  | nil =>
    intro s p n _ _ hcov _
    simp only [mapTotalLen, List.map_nil, List.sum_nil] at hcov
    have : n = 0 := by omega
    subst this
    rfl
  | cons e rest ih =>
    intro s p n hcont hsp hcov hdisk
    obtain ⟨ls, ps, len⟩ := e
    obtain ⟨hls, hlen, hcont'⟩ := hcont
    subst hls
    by_cases hn : n = 0
    · subst hn
      rw [mapWindowBytes_zero]
      rfl
    · simp only [mapTotalLen, List.map_cons, List.sum_cons] at hcov
      by_cases hin : p < ls + len
      · simp only [mapWindowBytes]
        rw [if_neg hn, if_pos hin]
        rw [List.length_append]
        have hbd := hdisk (ls, ps, len) (by simp)
        simp only at hbd
        rw [byteSlice_length disk _ _ (by omega)]
        by_cases hk : min n (ls + len - p) = ls + len - p
        · rw [hk]
          rw [ih (ls + len) _ _ hcont' (by omega)
            (by unfold mapTotalLen; omega)
            (fun e he => hdisk e (by simp [he]))]
          omega
        · have hkn : min n (ls + len - p) = n := by omega
          rw [hkn, Nat.sub_self, mapWindowBytes_zero]
          simp
      · rw [mapWindowBytes_skip disk ls ps len rest p n (by omega)]
        exact ih (ls + len) p n hcont' (by omega) (by unfold mapTotalLen; omega)
          (fun e he => hdisk e (by simp [he]))

theorem forkReadLoop_window (disk : List Nat) (em : List (Nat × Nat × Nat)) :
    ∀ (fuel position to_read total_read : Nat) (acc : List Nat),
      ContiguousFrom 0 em →
      position + to_read ≤ mapTotalLen em →
      (∀ e ∈ em, e.2.1 + e.2.2 ≤ disk.length) →
      to_read - total_read < fuel →
      forkReadLoop disk em position to_read fuel total_read acc
        = .ok (acc ++ mapWindowBytes disk em (position + total_read)
            (to_read - total_read)) := by
  intro fuel
  induction fuel with
  | zero => intro position to_read total_read acc _ _ _ hf; omega
  | succ fuel ih =>
    intro position to_read total_read acc hcont hcov hdisk hf
    by_cases hlt : total_read < to_read
    · have hn : 0 < to_read - total_read := by omega
      have hp : position + total_read < 0 + mapTotalLen em := by omega
      obtain ⟨ls, ps, len, hmem, h1, h2, h3, h4, h5⟩ :=
        mapWindowBytes_step disk em 0 (position + total_read) (to_read - total_read)
          hcont (Nat.zero_le _) hn hp
      have hbd := hdisk (ls, ps, len) hmem
      simp only at hbd
      simp only [forkReadLoop]
      rw [if_pos hlt]
      simp only [h3, h4]
      rw [if_pos (by omega)]
      rw [ih position to_read
        (total_read + min (to_read - total_read) (ls + len - (position + total_read)))
        (acc ++ byteSlice disk (ps + (position + total_read - ls))
          (min (to_read - total_read) (ls + len - (position + total_read))))
        hcont hcov hdisk (by omega)]
      rw [h5, ← List.append_assoc]
      rw [show position + (total_read
          + min (to_read - total_read) (ls + len - (position + total_read)))
        = position + total_read
          + min (to_read - total_read) (ls + len - (position + total_read)) from by omega]
      rw [show to_read - (total_read
          + min (to_read - total_read) (ls + len - (position + total_read)))
        = to_read - total_read
          - min (to_read - total_read) (ls + len - (position + total_read)) from by omega]
    · simp only [forkReadLoop]
      rw [if_neg hlt]
      rw [show to_read - total_read = 0 from by omega, mapWindowBytes_zero,
        List.append_nil]

theorem ForkReader_read_window (disk : List Nat) (fr : ForkReader)
    (hpos : fr.position = 0) (hS : 0 < fr.logical_size)
    (hcont : ContiguousFrom 0 fr.extent_map)
    (hcov : fr.logical_size ≤ mapTotalLen fr.extent_map)
    (hdisk : ∀ e ∈ fr.extent_map, e.2.1 + e.2.2 ≤ disk.length) :
    ForkReader.read disk fr fr.logical_size
      = .ok (mapWindowBytes disk fr.extent_map 0 fr.logical_size,
          { fr with position := fr.logical_size }) := by
  unfold ForkReader.read
  rw [hpos]
  rw [if_neg (by omega)]
  simp only [Nat.sub_zero, Nat.min_self]
  rw [if_neg (by omega)]
  rw [forkReadLoop_window disk fr.extent_map (fr.logical_size + 1) 0
    fr.logical_size 0 [] hcont (by omega) hdisk (by omega)]
  rw [except_ok_bind]
  simp only [Nat.zero_add, Nat.sub_zero, List.nil_append]

theorem ForkReader_read_fields (disk : List Nat) (fr : ForkReader) (buflen : Nat)
    (out : List Nat) (fr' : ForkReader)
    (h : ForkReader.read disk fr buflen = .ok (out, fr')) :
    fr'.logical_size = fr.logical_size ∧ fr'.extent_map = fr.extent_map := by
  simp only [ForkReader.read] at h
  split at h
  · injection h with h
    injection h with h1 h2
    subst h2
    exact ⟨rfl, rfl⟩
  · split at h
    · injection h with h
      injection h with h1 h2
      subst h2
      exact ⟨rfl, rfl⟩
    · cases hloop : forkReadLoop disk fr.extent_map fr.position
          (min buflen (fr.logical_size - fr.position))
          (min buflen (fr.logical_size - fr.position) + 1) 0 [] with
      | error e =>
        rw [hloop, except_error_bind] at h
        exact Except.noConfusion h
      | ok bytes =>
        rw [hloop, except_ok_bind] at h
        injection h with h
        injection h with h1 h2
        subst h2
        exact ⟨rfl, rfl⟩

theorem ForkReader_seek_rewind (fr fr' : ForkReader) (hpos : fr.position = 0)
    (hls : fr'.logical_size = fr.logical_size)
    (hem : fr'.extent_map = fr.extent_map) :
    ForkReader.seekStart fr' 0 = fr := by
  obtain ⟨ls, em, pos⟩ := fr
  obtain ⟨ls', em', pos'⟩ := fr'
  simp only at hpos hls hem
  subst hpos hls hem
  rfl

theorem buildInlineMap_contiguous (bs : Nat) (hbs : 0 < bs) :
    ∀ (extents : List ExtentDescriptor) (o : Nat),
      ContiguousFrom o (buildInlineMap bs extents o) := by
  intro extents
  induction extents with
  | nil => intro o; trivial
  | cons e rest ih =>
    intro o
    simp only [buildInlineMap]
    split
    · trivial
    next hz =>
      exact ⟨rfl, Nat.mul_pos (by omega) hbs, ih (o + e.block_count * bs)⟩

theorem buildInlineMap_bounds (bs L : Nat) :
    ∀ (extents : List ExtentDescriptor) (o : Nat),
      (∀ e ∈ extents, e.start_block * bs + e.block_count * bs ≤ L) →
      ∀ me ∈ buildInlineMap bs extents o, me.2.1 + me.2.2 ≤ L := by
  intro extents
  induction extents with
  | nil => intro o _ me hme; simp [buildInlineMap] at hme
  | cons e rest ih =>
    intro o hb me hme
    simp only [buildInlineMap] at hme
    split at hme
    · simp at hme
    · rcases List.mem_cons.1 hme with hh | ht
      · subst hh
        exact hb e (by simp)
      · exact ih _ (fun x hx => hb x (by simp [hx])) me ht

theorem byteSlice_zero (d : List Nat) (off : Nat) : byteSlice d off 0 = [] := by
  unfold byteSlice
  exact List.take_zero _

theorem readExtentBlocks_eq (disk : List Nat) (extent : ExtentDescriptor)
    (bs remaining : Nat) (hbs : 0 < bs)
    (hdisk : extent.start_block * bs + extent.block_count * bs ≤ disk.length) :
    ∀ (blocks_left idx : Nat) (acc : List Nat),
      blocks_left = extent.block_count - idx →
      readExtentBlocks disk extent bs remaining blocks_left idx acc
        = .ok (acc ++ byteSlice disk (extent.start_block * bs + idx * bs)
            (min (remaining - acc.length) ((extent.block_count - idx) * bs))) := by
  intro blocks_left
  induction blocks_left with
  | zero =>
    intro idx acc h
    rw [show extent.block_count - idx = 0 from by omega]
    simp only [readExtentBlocks, Nat.zero_mul, Nat.min_zero, byteSlice_zero,
      List.append_nil]
    rfl
  | succ bl ih =>
    intro idx acc h
    have hidx : idx < extent.block_count := by omega
    simp only [readExtentBlocks]
    rw [if_pos hidx]
    by_cases hdone : acc.length ≥ remaining
    · rw [if_pos hdone]
      rw [show remaining - acc.length = 0 from by omega]
      simp only [Nat.zero_min, byteSlice_zero, List.append_nil]
      rfl
    · rw [if_neg hdone]
      have hsm : (extent.block_count - idx) * bs
          = bs + (extent.block_count - (idx + 1)) * bs := by
        rw [show extent.block_count - idx = (extent.block_count - (idx + 1)) + 1
          from by omega, Nat.succ_mul]
        omega
      have hmul : idx * bs + bs ≤ extent.block_count * bs := by
        have h1 : (idx + 1) * bs ≤ extent.block_count * bs :=
          Nat.mul_le_mul_right _ (by omega)
        rw [Nat.succ_mul] at h1
        exact h1
      have hto : extent.start_block * bs + idx * bs
          + min bs (remaining - acc.length) ≤ disk.length := by omega
      have hrr : hfsReadRange disk (extent.start_block * bs + idx * bs)
          (min bs (remaining - acc.length))
          = .ok (byteSlice disk (extent.start_block * bs + idx * bs)
              (min bs (remaining - acc.length))) := by
        unfold hfsReadRange
        rw [if_pos hto]
      rw [hrr, except_ok_bind]
      rw [ih (idx + 1) _ (by omega)]
      have hblen : (byteSlice disk (extent.start_block * bs + idx * bs)
          (min bs (remaining - acc.length))).length
          = min bs (remaining - acc.length) :=
        byteSlice_length _ _ _ hto
      rw [List.append_assoc]
      congr 1
      congr 1
      rw [List.length_append, hblen]
      rw [show extent.start_block * bs + (idx + 1) * bs
        = extent.start_block * bs + idx * bs + bs from by
          rw [Nat.succ_mul]; omega]
      by_cases hA : remaining - acc.length ≤ bs
      · rw [show min bs (remaining - acc.length) = remaining - acc.length
          from by omega]
        rw [show remaining - (acc.length + (remaining - acc.length)) = 0
          from by omega]
        simp only [Nat.zero_min, byteSlice_zero, List.append_nil]
        rw [show min (remaining - acc.length) ((extent.block_count - idx) * bs)
          = remaining - acc.length from by omega]
      · rw [show min bs (remaining - acc.length) = bs from by omega]
        rw [show min (remaining - acc.length) ((extent.block_count - idx) * bs)
          = bs + min (remaining - (acc.length + bs))
              ((extent.block_count - (idx + 1)) * bs) from by omega]
        rw [byteSlice_add]

theorem read_extent_eq (disk : List Nat) (extent : ExtentDescriptor)
    (bs remaining : Nat) (hbs : 0 < bs)
    (hdisk : extent.start_block * bs + extent.block_count * bs ≤ disk.length) :
    read_extent disk extent bs remaining
      = .ok (byteSlice disk (extent.start_block * bs)
          (min remaining (extent.block_count * bs))) := by
  unfold read_extent
  rw [readExtentBlocks_eq disk extent bs remaining hbs hdisk
    extent.block_count 0 [] (by omega)]
  simp only [Nat.zero_mul, Nat.add_zero, Nat.sub_zero, List.length_nil,
    List.nil_append]

theorem readInlineExtents_window (disk : List Nat) (bs total : Nat) (hbs : 0 < bs) :
    ∀ (extents : List ExtentDescriptor) (acc : List Nat),
      (∀ e ∈ extents, e.start_block * bs + e.block_count * bs ≤ disk.length) →
      readInlineExtents disk bs total extents acc
        = .ok (acc ++ mapWindowBytes disk (buildInlineMap bs extents acc.length)
            acc.length (total - acc.length)) := by
  intro extents
  induction extents with
  | nil =>
    intro acc _
    simp only [readInlineExtents, buildInlineMap, mapWindowBytes, List.append_nil]
    rfl
  | cons e rest ih =>
    intro acc hdisk
    simp only [readInlineExtents]
    by_cases hstop : e.block_count = 0 ∨ acc.length ≥ total
    · rw [if_pos hstop]
      rcases hstop with hz | hge
      · simp only [buildInlineMap]
        rw [if_pos hz, show mapWindowBytes disk [] acc.length (total - acc.length)
          = [] from rfl, List.append_nil]
        rfl
      · rw [show total - acc.length = 0 from by omega, mapWindowBytes_zero,
          List.append_nil]
        rfl
    · rw [if_neg hstop]
      have hbc : e.block_count ≠ 0 := fun hc => hstop (Or.inl hc)
      have hlt : acc.length < total := by
        by_contra hc
        exact hstop (Or.inr (by omega))
      have hbd := hdisk e (by simp)
      rw [read_extent_eq disk e bs (total - acc.length) hbs hbd, except_ok_bind]
      rw [ih _ (fun x hx => hdisk x (by simp [hx]))]
      have hlenpos : 0 < e.block_count * bs := Nat.mul_pos (by omega) hbs
      have hblen : (byteSlice disk (e.start_block * bs)
          (min (total - acc.length) (e.block_count * bs))).length
          = min (total - acc.length) (e.block_count * bs) :=
        byteSlice_length _ _ _ (by omega)
      conv_rhs => rw [buildInlineMap]
      rw [if_neg hbc]
      conv_rhs => rw [mapWindowBytes]
      rw [if_neg (show ¬(total - acc.length = 0) from by omega),
        if_pos (show acc.length < acc.length + e.block_count * bs from by omega)]
      rw [Nat.sub_self, Nat.add_zero, Nat.add_sub_cancel_left]
      rw [List.append_assoc]
      congr 1
      congr 1
      congr 1
      rw [List.length_append, hblen]
      by_cases hk : min (total - acc.length) (e.block_count * bs)
          = e.block_count * bs
      · rw [hk]
        rw [show total - acc.length - e.block_count * bs
          = total - (acc.length + e.block_count * bs) from by omega]
      · have hkn : min (total - acc.length) (e.block_count * bs)
            = total - acc.length := by omega
        rw [hkn]
        rw [show total - (acc.length + (total - acc.length)) = 0 from by omega,
          show total - acc.length - (total - acc.length) = 0 from by omega,
          mapWindowBytes_zero, mapWindowBytes_zero]

theorem read_fork_data_window (disk : List Nat) (vol : VolumeHeader)
    (ebh : BTreeHeaderRecord) (fork : ForkData) (file_id fuel : Nat)
    (hbs : 0 < vol.block_size) (hS : 0 < fork.logical_size)
    (hcov : fork.logical_size
      ≤ mapTotalLen (buildInlineMap vol.block_size fork.extents 0))
    (hdisk : ∀ e ∈ fork.extents,
      e.start_block * vol.block_size + e.block_count * vol.block_size
        ≤ disk.length) :
    read_fork_data disk vol ebh fork file_id fuel
      = .ok (mapWindowBytes disk (buildInlineMap vol.block_size fork.extents 0) 0
          fork.logical_size) := by
  unfold read_fork_data
  rw [if_neg (by omega)]
  rw [readInlineExtents_window disk vol.block_size fork.logical_size hbs
    fork.extents [] hdisk, except_ok_bind]
  simp only [List.length_nil, List.nil_append, Nat.sub_zero]
  have hlen := mapWindowBytes_length disk
    (buildInlineMap vol.block_size fork.extents 0) 0 0 fork.logical_size
    (buildInlineMap_contiguous vol.block_size hbs fork.extents 0)
    (Nat.le_refl 0) (by omega)
    (buildInlineMap_bounds vol.block_size disk.length fork.extents 0 hdisk)
  rw [if_pos (by omega)]
  rfl

theorem buildApfsMap_contiguous (bs : Nat) :
    ∀ (extents : List FileExtentVal) (o : Nat),
      ContiguousFrom o (buildApfsMap bs extents o) := by
  intro extents
  induction extents with
  | nil => intro o; trivial
  | cons e rest ih =>
    intro o
    simp only [buildApfsMap]
    split
    next hz => exact ih o
    next hz => exact ⟨rfl, by omega, ih (o + e.length)⟩

theorem buildApfsMap_bounds (bs L : Nat) :
    ∀ (extents : List FileExtentVal) (o : Nat),
      (∀ e ∈ extents, e.phys_block_num * bs + e.length ≤ L) →
      ∀ me ∈ buildApfsMap bs extents o, me.2.1 + me.2.2 ≤ L := by
  intro extents
  induction extents with
  | nil => intro o _ me hme; simp [buildApfsMap] at hme
  | cons e rest ih =>
    intro o hb me hme
    simp only [buildApfsMap] at hme
    split at hme
    · exact ih _ (fun x hx => hb x (by simp [hx])) me hme
    · rcases List.mem_cons.1 hme with hh | ht
      · subst hh
        exact hb e (by simp)
      · exact ih _ (fun x hx => hb x (by simp [hx])) me ht

theorem apfsExtentChunks_eq (disk : List Nat) (bs ps elen S : Nat) (hbs : 0 < bs)
    (hdisk : ps + elen ≤ disk.length) :
    ∀ (fuel eoff : Nat) (acc : List Nat), elen - eoff < fuel →
      apfsExtentChunks disk bs ps elen S fuel eoff acc
        = .ok (acc ++ byteSlice disk (ps + eoff)
            (min (S - acc.length) (elen - eoff))) := by
  intro fuel
  induction fuel with
  | zero => intro eoff acc hf; omega
  | succ fuel ih =>
    intro eoff acc hf
    simp only [apfsExtentChunks]
    by_cases hcond : eoff < elen ∧ acc.length < S
    · rw [if_pos hcond]
      have hto : ps + eoff + min (min (S - acc.length) (elen - eoff)) bs
          ≤ disk.length := by omega
      have hrr : apfsReadRange disk (ps + eoff)
          (min (min (S - acc.length) (elen - eoff)) bs)
          = .ok (byteSlice disk (ps + eoff)
              (min (min (S - acc.length) (elen - eoff)) bs)) := by
        unfold apfsReadRange
        rw [if_pos hto]
      rw [hrr, except_ok_bind]
      have hblen : (byteSlice disk (ps + eoff)
          (min (min (S - acc.length) (elen - eoff)) bs)).length
          = min (min (S - acc.length) (elen - eoff)) bs :=
        byteSlice_length _ _ _ hto
      rw [ih _ _ (by omega)]
      rw [List.append_assoc]
      congr 1
      congr 1
      rw [List.length_append, hblen]
      generalize hT : min (min (S - acc.length) (elen - eoff)) bs = t
      rw [show ps + (eoff + t) = ps + eoff + t from by omega]
      rw [← byteSlice_add]
      congr 1
      omega
    · rw [if_neg hcond]
      rw [show min (S - acc.length) (elen - eoff) = 0 from by omega,
        byteSlice_zero, List.append_nil]
      rfl

theorem apfsReadExtents_window (disk : List Nat) (bs S fuel : Nat) (hbs : 0 < bs) :
    ∀ (extents : List FileExtentVal) (acc : List Nat),
      (∀ e ∈ extents, e.phys_block_num * bs + e.length ≤ disk.length) →
      (∀ e ∈ extents, e.length < fuel) →
      apfsReadExtents disk bs S fuel extents acc
        = .ok (acc ++ mapWindowBytes disk (buildApfsMap bs extents acc.length)
            acc.length (S - acc.length)) := by
  intro extents
  induction extents with
  | nil =>
    intro acc _ _
    simp only [apfsReadExtents, buildApfsMap, mapWindowBytes, List.append_nil]
    rfl
  | cons e rest ih =>
    intro acc hdisk hfuel
    simp only [apfsReadExtents]
    by_cases hge : acc.length ≥ S
    · rw [if_pos hge]
      rw [show S - acc.length = 0 from by omega, mapWindowBytes_zero,
        List.append_nil]
      rfl
    · rw [if_neg hge]
      have hbd := hdisk e (by simp)
      rw [apfsExtentChunks_eq disk bs (e.phys_block_num * bs) e.length S hbs hbd
        fuel 0 acc (by have := hfuel e (by simp); omega), except_ok_bind]
      rw [ih _ (fun x hx => hdisk x (by simp [hx]))
        (fun x hx => hfuel x (by simp [hx]))]
      simp only [Nat.sub_zero, Nat.add_zero]
      by_cases hz : e.length = 0
      · rw [hz]
        simp only [Nat.min_zero, byteSlice_zero, List.append_nil]
        conv_rhs => rw [buildApfsMap]
        rw [if_pos hz]
      · have hblen : (byteSlice disk (e.phys_block_num * bs)
            (min (S - acc.length) e.length)).length
            = min (S - acc.length) e.length :=
          byteSlice_length _ _ _ (by omega)
        conv_rhs => rw [buildApfsMap]
        rw [if_neg hz]
        conv_rhs => rw [mapWindowBytes]
        rw [if_neg (show ¬(S - acc.length = 0) from by omega),
          if_pos (show acc.length < acc.length + e.length from by omega)]
        rw [Nat.sub_self, Nat.add_zero, Nat.add_sub_cancel_left]
        rw [List.append_assoc]
        congr 1
        congr 1
        rw [List.length_append, hblen]
        by_cases hk : min (S - acc.length) e.length = e.length
        · simp only [hk]
          rw [show S - acc.length - e.length = S - (acc.length + e.length)
            from by omega]
        · have hkn : min (S - acc.length) e.length = S - acc.length := by omega
          simp only [hkn]
          rw [show S - (acc.length + (S - acc.length)) = 0 from by omega,
            show S - acc.length - (S - acc.length) = 0 from by omega,
            mapWindowBytes_zero, mapWindowBytes_zero]

theorem read_file_data_window (disk : List Nat) (bs : Nat)
    (extents : List FileExtentVal) (S fuel : Nat) (hbs : 0 < bs) (hS : 0 < S)
    (hfuel : ∀ e ∈ extents, e.length < fuel)
    (hdisk : ∀ e ∈ extents, e.phys_block_num * bs + e.length ≤ disk.length) :
    read_file_data disk bs extents S fuel
      = .ok (mapWindowBytes disk (buildApfsMap bs extents 0) 0 S) := by
  unfold read_file_data
  rw [if_neg (by omega)]
  rw [apfsReadExtents_window disk bs S fuel hbs extents [] hdisk hfuel]
  simp only [List.length_nil, List.nil_append, Nat.sub_zero]

set_option maxRecDepth 40000 in
/-- C6 counterexample: a 144-byte file whose ninth block lives in the
extents-overflow tree.  `read_file` (via `read_fork_data`) returns all
144 bytes, but the stream that `open_file` builds (`ForkReader::new`
from the inline extents only) fails with an I/O error when read, so the
stream does not match the materialised read. -/
theorem hfs_stream_misses_overflow_extents :
    read_fork_data overflowDisk overflowVol overflowEbh overflowFork 99 4
      = .ok ((List.range 144).map (· % 256)) ∧
    ForkReader.read overflowDisk (ForkReader.new overflowFork 16) 144
      = .error () := by
  constructor <;> decide

/-- C6 (amended): rewinding a fork stream with `seek(Start(0))` and reading
again reproduces the first read exactly (both crates share the reader);
and the stream agrees with the materialised read — producing the file's
`logical_size` bytes — for HFS+ only when the *inline* extents cover the
whole file (the stream never consults the extents-overflow tree), and
for APFS whenever the catalog extent records cover the file. -/
theorem forkreader_rewind_and_materialised_reads :
    (∀ (disk : List Nat) (fr : ForkReader) (buflen : Nat) (out : List Nat)
        (fr' : ForkReader),
      fr.position = 0 →
      ForkReader.read disk fr buflen = .ok (out, fr') →
      ForkReader.read disk (ForkReader.seekStart fr' 0) buflen
        = .ok (out, fr')) ∧
    (∀ (disk : List Nat) (vol : VolumeHeader) (ebh : BTreeHeaderRecord)
        (fork : ForkData) (file_id fuel : Nat),
      0 < vol.block_size → 0 < fork.logical_size →
      fork.logical_size
        ≤ mapTotalLen (buildInlineMap vol.block_size fork.extents 0) →
      (∀ e ∈ fork.extents,
        e.start_block * vol.block_size + e.block_count * vol.block_size
          ≤ disk.length) →
      ∃ out,
        read_fork_data disk vol ebh fork file_id fuel = .ok out ∧
        ForkReader.read disk (ForkReader.new fork vol.block_size)
            fork.logical_size
          = .ok (out, { ForkReader.new fork vol.block_size with
              position := fork.logical_size }) ∧
        out.length = fork.logical_size) ∧
    (∀ (disk : List Nat) (bs : Nat) (extents : List FileExtentVal)
        (S fuel : Nat),
      0 < bs → 0 < S →
      S ≤ mapTotalLen (buildApfsMap bs extents 0) →
      (∀ e ∈ extents, e.length < fuel) →
      (∀ e ∈ extents, e.phys_block_num * bs + e.length ≤ disk.length) →
      ∃ out,
        read_file_data disk bs extents S fuel = .ok out ∧
        ForkReader.read disk (ApfsForkReader.new bs extents S) S
          = .ok (out, { ApfsForkReader.new bs extents S with position := S }) ∧
        out.length = S) := by
  refine ⟨?_, ?_, ?_⟩
  · intro disk fr buflen out fr' hpos h
    obtain ⟨hls, hem⟩ := ForkReader_read_fields disk fr buflen out fr' h
    rw [ForkReader_seek_rewind fr fr' hpos hls hem]
    exact h
  · intro disk vol ebh fork file_id fuel hbs hS hcov hdisk
    have hcont := buildInlineMap_contiguous vol.block_size hbs fork.extents 0
    have hbounds := buildInlineMap_bounds vol.block_size disk.length
      fork.extents 0 hdisk
    refine ⟨mapWindowBytes disk (buildInlineMap vol.block_size fork.extents 0) 0
      fork.logical_size, ?_, ?_, ?_⟩
    · exact read_fork_data_window disk vol ebh fork file_id fuel hbs hS hcov hdisk
    · exact ForkReader_read_window disk (ForkReader.new fork vol.block_size)
        rfl hS hcont hcov hbounds
    · exact mapWindowBytes_length disk _ 0 0 fork.logical_size hcont
        (Nat.le_refl 0) (by omega) hbounds
  · intro disk bs extents S fuel hbs hS hcov hfuel hdisk
    have hcont := buildApfsMap_contiguous bs extents 0
    have hbounds := buildApfsMap_bounds bs disk.length extents 0 hdisk
    refine ⟨mapWindowBytes disk (buildApfsMap bs extents 0) 0 S, ?_, ?_, ?_⟩
    · exact read_file_data_window disk bs extents S fuel hbs hS hfuel hdisk
    · exact ForkReader_read_window disk (ApfsForkReader.new bs extents S)
        rfl hS hcont hcov hbounds
    · exact mapWindowBytes_length disk _ 0 0 S hcont (Nat.le_refl 0) (by omega)
        hbounds

set_option maxRecDepth 40000 in
/-- C6 amended witness: on the 32-byte partition, rewinding the stream
reproduces the 20-byte read, and both the HFS+ and the APFS streaming
and materialised reads agree. -/
theorem forkreader_rewind_and_materialised_reads_witness :
    (ForkReader.read simpleDisk
        (ForkReader.seekStart
          { logical_size := 20, extent_map := [(0, 0, 32)], position := 20 } 0) 20
      = .ok (byteSlice simpleDisk 0 20,
          { logical_size := 20, extent_map := [(0, 0, 32)], position := 20 })) ∧
    (∃ out,
      read_fork_data simpleDisk simpleVol hfsListCbh simpleFork 5 4 = .ok out ∧
      ForkReader.read simpleDisk (ForkReader.new simpleFork
          simpleVol.block_size) simpleFork.logical_size
        = .ok (out, { ForkReader.new simpleFork simpleVol.block_size with
            position := simpleFork.logical_size }) ∧
      out.length = simpleFork.logical_size) ∧
    (∃ out,
      read_file_data simpleDisk 16 simpleApfsExtents 20 40 = .ok out ∧
      ForkReader.read simpleDisk (ApfsForkReader.new 16 simpleApfsExtents 20) 20
        = .ok (out, { ApfsForkReader.new 16 simpleApfsExtents 20 with
            position := 20 }) ∧
      out.length = 20) :=
  ⟨forkreader_rewind_and_materialised_reads.1 simpleDisk
      (ForkReader.new simpleFork 16) 20 (byteSlice simpleDisk 0 20)
      { logical_size := 20, extent_map := [(0, 0, 32)], position := 20 }
      rfl (by decide),
   forkreader_rewind_and_materialised_reads.2.1 simpleDisk simpleVol hfsListCbh
      simpleFork 5 4 (by decide) (by decide) (by decide) (by decide),
   forkreader_rewind_and_materialised_reads.2.2 simpleDisk 16 simpleApfsExtents
      20 40 (by decide) (by decide) (by decide) (by decide) (by decide)⟩
